import Mathlib

/-!
FeedbackPro: feedback state and collaboration engine.

A shallow embedding of the client-side logic of the FeedbackPro front end
(`CreateFeedback.js`, `FeedbackList.js`, `FeedbackComments.js`) together with
theorems about it.

Conventions of the embedding:

* a JavaScript string is a Lean `String`; `length` counts UTF-16 code units
  (`jsLength`), which is what the word "characters" means throughout;
* a property that may be missing from an object is an `Option`;
* a JavaScript number that may be `NaN` is an `Option Int` (`none` is `NaN`);
* an expression that may throw returns `Except JSError _`;
* React state is passed explicitly, and timers are data in the state.
-/

namespace FeedbackPro

/-! ## JavaScript strings -/

/-- Number of UTF-16 code units of one code point. -/
def utf16Units (c : Char) : Nat := if c.val.toNat < 65536 then 1 else 2

/-- The `length` property of a JavaScript string: UTF-16 code units. -/
def jsLength (s : String) : Nat := (s.data.map utf16Units).sum

/-- White space and line terminators removed by `String.prototype.trim`. -/
def isJsWhiteSpace (c : Char) : Bool :=
  let n := c.val.toNat
  n == 9 || n == 10 || n == 11 || n == 12 || n == 13 || n == 32 || n == 160 ||
  n == 5760 || (8192 ≤ n && n ≤ 8202) || n == 8232 || n == 8233 || n == 8239 ||
  n == 8287 || n == 12288 || n == 65279

/-- The built-in `String.prototype.trim`. -/
def jsTrim (s : String) : String :=
  ⟨((s.data.dropWhile isJsWhiteSpace).reverse.dropWhile isJsWhiteSpace).reverse⟩

/-- Truthiness of a string: only the empty string is falsy. -/
def strTruthy (s : String) : Bool := !s.data.isEmpty

/-- The built-in `String.prototype.includes` on the code points of the two strings. -/
def jsIncludes (hay needle : String) : Bool :=
  hay.data.tails.any (fun t => needle.data.isPrefixOf t)

/-! ## Submission wizard (`CreateFeedback.js`) -/

/-- A tag as the wizard stores it: an entry of `availableTags`. -/
structure WizardTag where
  name : String
  label : String
  color : String
  deriving DecidableEq, Repr

/-- One entry of `formData.action_items`. -/
structure ActionItem where
  text : String
  completed : Bool
  id : Nat
  deriving DecidableEq, Repr

/-- The `formData` state of the wizard. `isDraft` and `lastSaved` are absent
initially and appear once a draft has been merged into the form. -/
structure FormData where
  employee_id : String
  strengths : String
  areas_to_improve : String
  sentiment : String
  tags : List WizardTag
  priority : String
  goals : String
  action_items : List ActionItem
  isDraft : Option Bool
  lastSaved : Option Nat
  deriving DecidableEq, Repr

/-- The initial value given to `useState` for `formData`. -/
def initialFormData : FormData :=
  { employee_id := "", strengths := "", areas_to_improve := "", sentiment := "positive",
    tags := [], priority := "medium", goals := "", action_items := [],
    isDraft := none, lastSaved := none }

/-- The `errors` object built by `validateStep`: the three keys it can assign. -/
structure Errors where
  employee_id : Option String
  strengths : Option String
  areas_to_improve : Option String
  deriving DecidableEq, Repr

/-- The empty object `{}`. -/
def Errors.empty : Errors := ⟨none, none, none⟩

/-- The built-in `Object.keys` on an `errors` object. -/
def Errors.keys (e : Errors) : List String :=
  (if e.employee_id.isSome then ["employee_id"] else []) ++
  (if e.strengths.isSome then ["strengths"] else []) ++
  (if e.areas_to_improve.isSome then ["areas_to_improve"] else [])

/-- `ToBoolean` applied to an object: every object is truthy, the empty one included. -/
def Errors.truthy (_ : Errors) : Bool := true

def msgSelectMember : String := "Please select a team member"
def msgStrengths : String := "Please provide strengths"
def msgAreas : String := "Please provide areas to improve"
def msgMinLength : String := "Please provide more detailed feedback (minimum 20 characters)"

/-- `validateStep`: the statements of each `case` run in source order, a later
assignment to the same key replacing an earlier one. -/
def validateStep (formData : FormData) (step : Nat) : Errors :=
  let errors := Errors.empty
  match step with
  | 1 =>
    if !strTruthy formData.employee_id then { errors with employee_id := some msgSelectMember }
    else errors
  | 2 =>
    let errors :=
      if !strTruthy (jsTrim formData.strengths) then { errors with strengths := some msgStrengths }
      else errors
    let errors :=
      if !strTruthy (jsTrim formData.areas_to_improve) then
        { errors with areas_to_improve := some msgAreas }
      else errors
    let errors :=
      if jsLength formData.strengths < 20 then { errors with strengths := some msgMinLength }
      else errors
    let errors :=
      if jsLength formData.areas_to_improve < 20 then
        { errors with areas_to_improve := some msgMinLength }
      else errors
    errors
  | _ => errors

/-- `handleNext`: the new value of `currentStep`. The condition is the truthiness
of the object returned by `validateStep`. -/
def handleNext (formData : FormData) (currentStep : Nat) : Nat :=
  if (validateStep formData currentStep).truthy then min (currentStep + 1) 4 else currentStep

/-- `handlePrevious`: the new value of `currentStep`. -/
def handlePrevious (currentStep : Nat) : Nat := max (currentStep - 1) 1

/-- The `name` attribute of the inputs wired to `handleChange`. -/
inductive Field where
  | employee_id | strengths | areas_to_improve | sentiment | priority | goals
  deriving DecidableEq, Repr

/-- The state update of `handleChange`: `{ ...prev, [name]: value }`. -/
def FormData.set (prev : FormData) (name : Field) (value : String) : FormData :=
  match name with
  | .employee_id => { prev with employee_id := value }
  | .strengths => { prev with strengths := value }
  | .areas_to_improve => { prev with areas_to_improve := value }
  | .sentiment => { prev with sentiment := value }
  | .priority => { prev with priority := value }
  | .goals => { prev with goals := value }

/-- The object a stored draft parses to; a draft may lack any property. -/
structure Snapshot where
  employee_id : Option String
  strengths : Option String
  areas_to_improve : Option String
  sentiment : Option String
  tags : Option (List WizardTag)
  priority : Option String
  goals : Option String
  action_items : Option (List ActionItem)
  isDraft : Option Bool
  lastSaved : Option Nat
  deriving DecidableEq, Repr

/-- The `draftData` object of `autoSave`: `{ ...formData, isDraft: true, lastSaved }`. -/
def draftData (formData : FormData) (now : Nat) : Snapshot :=
  { employee_id := some formData.employee_id, strengths := some formData.strengths,
    areas_to_improve := some formData.areas_to_improve, sentiment := some formData.sentiment,
    tags := some formData.tags, priority := some formData.priority, goals := some formData.goals,
    action_items := some formData.action_items, isDraft := some true, lastSaved := some now }

/-- The merge of the draft-load effect: `{ ...prev, ...draftData, isDraft: false }`. -/
def mergeDraft (prev : FormData) (d : Snapshot) : FormData :=
  { employee_id := d.employee_id.getD prev.employee_id,
    strengths := d.strengths.getD prev.strengths,
    areas_to_improve := d.areas_to_improve.getD prev.areas_to_improve,
    sentiment := d.sentiment.getD prev.sentiment,
    tags := d.tags.getD prev.tags,
    priority := d.priority.getD prev.priority,
    goals := d.goals.getD prev.goals,
    action_items := d.action_items.getD prev.action_items,
    isDraft := some false,
    lastSaved := d.lastSaved.orElse (fun _ => prev.lastSaved) }

/-- The Draft Store: the entries of `localStorage` that hold drafts, each JSON
text represented by the object it encodes. -/
abbrev Storage := List (String × Snapshot)

/-- The key of a draft: the template literal with prefix `feedback_draft_`. -/
def draftKey (employee_id : String) : String := "feedback_draft_" ++ employee_id

/-- The built-in `localStorage.getItem`. -/
def getItem (store : Storage) (key : String) : Option Snapshot :=
  (store.find? (fun e => e.1 == key)).map (fun e => e.2)

/-- The built-in `localStorage.setItem`: the entry of the key is replaced. -/
def setItem (store : Storage) (key : String) (value : Snapshot) : Storage :=
  (key, value) :: store.filter (fun e => !(e.1 == key))

/-- The built-in `localStorage.removeItem`. -/
def removeItem (store : Storage) (key : String) : Storage :=
  store.filter (fun e => !(e.1 == key))

/-- `autoSave`, run on the `formData` its closure captured. `storageOk` tells
whether `localStorage.setItem` succeeds; when it throws, the `catch` only logs. -/
def autoSave (formData : FormData) (now : Nat) (storageOk : Bool) (store : Storage) : Storage :=
  if !strTruthy formData.employee_id ||
      (!strTruthy formData.strengths && !strTruthy formData.areas_to_improve) then store
  else if storageOk then setItem store (draftKey formData.employee_id) (draftData formData now)
  else store

/-- A pending `setTimeout(autoSave, 3000)`: when it is due and the `formData`
captured by the `autoSave` closure it will call. -/
structure Timer where
  due : Nat
  closure : FormData
  deriving DecidableEq, Repr

/-- The wizard: React state, the Draft Store, the clock and the timer held in
`autoSaveTimer.current`. `loadedFor` is the `formData.employee_id` dependency
seen by the last run of the draft-load effect. -/
structure Wizard where
  formData : FormData
  currentStep : Nat
  validationErrors : Errors
  store : Storage
  clock : Nat
  autoSaveTimer : Option Timer
  loadedFor : String
  deriving DecidableEq, Repr

/-- The wizard after mount: the first run of the autosave effect has armed a timer. -/
def Wizard.init (store : Storage) (clock : Nat) : Wizard :=
  { formData := initialFormData, currentStep := 1, validationErrors := Errors.empty,
    store := store, clock := clock,
    autoSaveTimer := some ⟨clock + 3000, initialFormData⟩, loadedFor := "" }

/-- The autosave effect for a render with a new `formData`: the cleanup clears the
pending timer and a new one is armed with the new `autoSave` closure. -/
def armAutoSave (w : Wizard) : Wizard :=
  { w with autoSaveTimer := some ⟨w.clock + 3000, w.formData⟩ }

/-- The effects of the renders that follow a `setFormData`. Each render re-arms the
autosave timer; when `formData.employee_id` has changed and is non-empty the
draft-load effect looks the draft up and asks `window.confirm`, whose successive
answers are `answers` (none left counts as cancel); a confirmed merge is another
`setFormData`, hence another render. -/
def commitEffects : List Bool → Wizard → Wizard
  | [], w =>
    let w := armAutoSave w
    if w.formData.employee_id = w.loadedFor then w
    else { w with loadedFor := w.formData.employee_id }
  | answer :: rest, w =>
    let w := armAutoSave w
    if w.formData.employee_id = w.loadedFor then w
    else
      let w := { w with loadedFor := w.formData.employee_id }
      if !strTruthy w.formData.employee_id then w
      else
        match getItem w.store (draftKey w.formData.employee_id) with
        | none => w
        | some d =>
          if answer then commitEffects rest { w with formData := mergeDraft w.formData d }
          else w

/-- Clearing `validationErrors[name]` in `handleChange`. -/
def Errors.clear (e : Errors) (name : Field) : Errors :=
  match name with
  | .employee_id => { e with employee_id := none }
  | .strengths => { e with strengths := none }
  | .areas_to_improve => { e with areas_to_improve := none }
  | _ => e

/-- `handleChange` on an input event with the given `name` and `value`, followed by
the effects of the resulting renders. -/
def handleChange (name : Field) (value : String) (answers : List Bool) (w : Wizard) : Wizard :=
  commitEffects answers
    { w with formData := w.formData.set name value,
             validationErrors := w.validationErrors.clear name }

/-- The passage of `ms` milliseconds with no user input: a pending timer that
falls due in the interval fires `autoSave` at its due time. -/
def elapse (ms : Nat) (storageOk : Bool) (w : Wizard) : Wizard :=
  match w.autoSaveTimer with
  | some t =>
    if t.due ≤ w.clock + ms then
      { w with clock := w.clock + ms, autoSaveTimer := none,
               store := autoSave t.closure t.due storageOk w.store }
    else { w with clock := w.clock + ms }
  | none => { w with clock := w.clock + ms }

/-- The state just before an employee switch inside the autosave window: employee
7 was selected at time 0, strengths were typed at 1000 ms, and the clock now reads
2000 ms, so the timer armed by the last edit (due at 4000 ms) is still pending. -/
def beforeSwitch : Wizard :=
  elapse 1000 true
    (handleChange .strengths "Always delivers on time and helps others" []
      (elapse 1000 true
        (handleChange .employee_id "7" [] (Wizard.init [] 0))))

/-- The switch scenario: from `beforeSwitch` employee 9 is selected, and then
nothing happens for three seconds. -/
def switchScenario : Wizard :=
  elapse 3000 true (handleChange .employee_id "9" [] beforeSwitch)

/-! ## Comment thread (`FeedbackComments.js`) -/

/-- A comment object. `replies` may be missing (the mock replies carry none). -/
inductive Comment where
  | mk (id : Nat) (user_name user_role comment_text : String) (created_at : Int)
      (likes : Int) (liked_by_user : Bool) (replies : Option (List Comment))

def Comment.id : Comment → Nat
  | .mk id _ _ _ _ _ _ _ => id

def Comment.user_name : Comment → String
  | .mk _ n _ _ _ _ _ _ => n

def Comment.user_role : Comment → String
  | .mk _ _ r _ _ _ _ _ => r

def Comment.comment_text : Comment → String
  | .mk _ _ _ t _ _ _ _ => t

def Comment.created_at : Comment → Int
  | .mk _ _ _ _ c _ _ _ => c

def Comment.likes : Comment → Int
  | .mk _ _ _ _ _ l _ _ => l

def Comment.liked_by_user : Comment → Bool
  | .mk _ _ _ _ _ _ b _ => b

def Comment.replies : Comment → Option (List Comment)
  | .mk _ _ _ _ _ _ _ r => r

/-- The signed-in user of `useAuth`. -/
structure User where
  id : Nat
  name : String
  role : String
  deriving DecidableEq, Repr

/-- The expression `x || fallback` on strings where `x` may be missing. -/
def orDefault (x : Option String) (fallback : String) : String :=
  match x with
  | some s => if strTruthy s then s else fallback
  | none => fallback

/-- The `mockComments` array built in the `catch` of `fetchComments`; `now` is `Date.now()`. -/
def mockComments (user : Option User) (now : Int) : List Comment :=
  [ .mk 1 "Sarah Wilson" "manager"
      "Thank you for acknowledging this feedback! 👍 I'm really pleased to see your **proactive approach** to professional development.\n\nLet's schedule a 1:1 next week to discuss the specific action items and how I can support your growth."
      (now - 2 * 60 * 60 * 1000) 2 false (some []),
    .mk 2 (orDefault (user.map (fun u => u.name)) "Alex Johnson")
      (orDefault (user.map (fun u => u.role)) "employee")
      "I really appreciate the detailed feedback! 🙏\n\nI've already started working on improving my `presentation skills` by:\n- Joining the company Toastmasters group\n- Practicing with smaller team meetings\n- Watching online courses on public speaking\n\nLooking forward to our discussion!"
      (now - 30 * 60 * 1000) 1 true
      (some [ .mk 101 "Sarah Wilson" "manager"
        "That's an excellent initiative! The Toastmasters group is a strategic choice for developing leadership communication skills."
        (now - 15 * 60 * 1000) 0 false none ]),
    .mk 3 "Mike Chen" "peer"
      "As someone who's worked closely with Alex, I can confirm the improvement in communication skills is already noticeable! Keep it up! 💪"
      (now - 10 * 60 * 1000) 3 false (some []) ]

/-- How the `axios.get` of `fetchComments` ends: with a response whose
`data.comments` may be missing, or with an error. -/
inductive FetchOutcome where
  | success (comments : Option (List Comment))
  | failure

/-- `fetchComments`: the value of the `comments` state after the call. A missing
or zero `feedbackId` is falsy and returns at once; a successful response replaces
the list by `response.data.comments || []`; the `catch` replaces it by `mockComments`. -/
def fetchComments (feedbackId : Option Nat) (user : Option User) (now : Int)
    (outcome : FetchOutcome) (comments : List Comment) : List Comment :=
  match feedbackId with
  | none => comments
  | some 0 => comments
  | some _ =>
    match outcome with
    | .success (some cs) => cs
    | .success none => []
    | .failure => mockComments user now

/-! ## Dates (the built-in `Date`, ECMAScript time values in milliseconds) -/

def msPerDay : Int := 86400000

def Day (t : Int) : Int := t / msPerDay

def TimeWithinDay (t : Int) : Int := t % msPerDay

def DaysInYear (y : Int) : Int :=
  if y % 4 ≠ 0 then 365 else if y % 100 ≠ 0 then 366 else if y % 400 ≠ 0 then 365 else 366

def DayFromYear (y : Int) : Int :=
  365 * (y - 1970) + (y - 1969) / 4 - (y - 1901) / 100 + (y - 1601) / 400

/-- The largest year whose first day is not after the day of `t`: an estimate
from the mean year length, corrected by at most one year. -/
def YearFromTime (t : Int) : Int :=
  let y := 1970 + (Day t * 400) / 146097
  if DayFromYear (y + 1) ≤ Day t then y + 1
  else if DayFromYear y ≤ Day t then y
  else y - 1

def InLeapYear (t : Int) : Int := if DaysInYear (YearFromTime t) = 366 then 1 else 0

def DayWithinYear (t : Int) : Int := Day t - DayFromYear (YearFromTime t)

/-- Number of days of the year before month `m` (0 is January); `leap` is 0 or 1. -/
def daysBeforeMonth (m leap : Int) : Int :=
  if m = 0 then 0 else if m = 1 then 31 else if m = 2 then 59 + leap
  else if m = 3 then 90 + leap else if m = 4 then 120 + leap else if m = 5 then 151 + leap
  else if m = 6 then 181 + leap else if m = 7 then 212 + leap else if m = 8 then 243 + leap
  else if m = 9 then 273 + leap else if m = 10 then 304 + leap else 334 + leap

/-- The month (0 is January) of day `d` of a year; `leap` is 0 or 1. -/
def monthOfDay (d leap : Int) : Int :=
  if d < 31 then 0 else if d < 59 + leap then 1 else if d < 90 + leap then 2
  else if d < 120 + leap then 3 else if d < 151 + leap then 4 else if d < 181 + leap then 5
  else if d < 212 + leap then 6 else if d < 243 + leap then 7 else if d < 273 + leap then 8
  else if d < 304 + leap then 9 else if d < 334 + leap then 10 else 11

def MonthFromTime (t : Int) : Int := monthOfDay (DayWithinYear t) (InLeapYear t)

def DateFromTime (t : Int) : Int :=
  DayWithinYear t - daysBeforeMonth (MonthFromTime t) (InLeapYear t) + 1

/-- The day number of day `date` of month `month` of year `year`; months outside
0..11 carry into the year and days outside the month carry into the months. -/
def MakeDay (year month date : Int) : Int :=
  DayFromYear (year + month / 12)
    + daysBeforeMonth (month % 12) (if DaysInYear (year + month / 12) = 366 then 1 else 0)
    + date - 1

def MakeDate (day time : Int) : Int := day * msPerDay + time

/-- The number of days of month `m` (0 is January) of year `y` in the Gregorian
calendar, in the words of the calendar: February has 29 days in a leap year (a year
divisible by 4 and not by 100, or divisible by 400) and 28 otherwise; April, June,
September and November have 30 days; the other months have 31. -/
def daysInMonth (y m : Int) : Int :=
  if m = 1 then (if (y % 4 = 0 ∧ y % 100 ≠ 0) ∨ y % 400 = 0 then 29 else 28)
  else if m = 3 ∨ m = 5 ∨ m = 8 ∨ m = 10 then 30
  else 31

/-- The number of days of the `k` calendar months that precede month `m` (0 is
January) of year `y`; the month before January is December of the year before. -/
def daysInMonthsBefore (y m : Int) : Nat → Int
  | 0 => 0
  | k + 1 =>
    if m = 0 then daysInMonth (y - 1) 11 + daysInMonthsBefore (y - 1) 11 k
    else daysInMonth y (m - 1) + daysInMonthsBefore y (m - 1) k

/-- `TimeClip`: a time value beyond 8.64e15 ms from the epoch is `NaN`. -/
def TimeClip (t : Int) : Option Int :=
  if t < -8640000000000000 ∨ 8640000000000000 < t then none else some t

/-- The host functions whose results depend on the engine, its locale data and
the time zone: Unicode lower-casing, collation, and `LocalTZA(t, isUTC)`, the offset
of local time from UTC in milliseconds that is in force at `t`, where `t` is a UTC
time value when `isUTC` is true and a local wall-clock reading otherwise. -/
structure Host where
  toLowerCase : String → String
  localeCompare : String → String → Int
  localTZA : Int → Bool → Int

/-- A host for examples: ASCII lower-casing, code-point order, local time UTC. -/
def asciiHost : Host :=
  { toLowerCase := fun s => ⟨s.data.map Char.toLower⟩,
    localeCompare := fun a b => if a.data < b.data then -1 else if a.data = b.data then 0 else 1,
    localTZA := fun _ _ => 0 }

/-- A host for examples whose zone moves its clocks forward: one hour ahead of UTC
until 2024-03-31 at 01:00 UTC (02:00 on the wall clock), two hours ahead from then
on; a wall-clock reading skipped by the change takes the offset before it. -/
def springForwardHost : Host :=
  { toLowerCase := fun s => ⟨s.data.map Char.toLower⟩,
    localeCompare := fun a b => if a.data < b.data then -1 else if a.data = b.data then 0 else 1,
    localTZA := fun t isUTC =>
      if isUTC then (if t < 1711846800000 then 3600000 else 7200000)
      else (if t < 1711854000000 then 3600000 else 7200000) }

/-- `LocalTime(t)`: the wall-clock reading at the instant `t`. -/
def LocalTime (h : Host) (t : Int) : Int := t + h.localTZA t true

/-- `UTC(t)`: the instant at which the wall clock reads `t`. -/
def UTC (h : Host) (t : Int) : Int := t - h.localTZA t false

/-- `Date.prototype.getDate` on a valid date. -/
def getDate (h : Host) (t : Int) : Int := DateFromTime (LocalTime h t)

/-- `Date.prototype.getMonth` on a valid date. -/
def getMonth (h : Host) (t : Int) : Int := MonthFromTime (LocalTime h t)

/-- `Date.prototype.setDate` on a valid date: the new time value. -/
def setDate (h : Host) (thisTime dt : Int) : Option Int :=
  let t := LocalTime h thisTime
  TimeClip (UTC h (MakeDate (MakeDay (YearFromTime t) (MonthFromTime t) dt) (TimeWithinDay t)))

/-- `Date.prototype.setMonth` on a valid date: the new time value. -/
def setMonth (h : Host) (thisTime m : Int) : Option Int :=
  let t := LocalTime h thisTime
  TimeClip (UTC h (MakeDate (MakeDay (YearFromTime t) m (DateFromTime t)) (TimeWithinDay t)))

/-! ## Filter and sort engine (`FeedbackList.js`) -/

/-- A thrown `TypeError`. -/
inductive JSError where
  | typeError (message : String)
  deriving DecidableEq, Repr

/-- Equality of results is decidable, so that closed evaluations can be checked. -/
instance exceptDecEq {α : Type} [DecidableEq α] : DecidableEq (Except JSError α)
  | .ok a, .ok b =>
    if h : a = b then isTrue (by rw [h]) else isFalse (fun e => h (by cases e; rfl))
  | .error a, .error b =>
    if h : a = b then isTrue (by rw [h]) else isFalse (fun e => h (by cases e; rfl))
  | .ok _, .error _ => isFalse (fun e => by cases e)
  | .error _, .ok _ => isFalse (fun e => by cases e)

/-- An element of a record's `tags` array: a string, as the list view renders it,
or an object as the wizard builds it; `ref` is the identity of the object. -/
inductive Tag where
  | str (s : String)
  | obj (ref : Nat) (name label color : String)
  deriving DecidableEq, Repr

/-- `SameValueZero`, the comparison of `Array.prototype.includes`: strings by
value, objects by identity. -/
def sameValueZero : Tag → Tag → Bool
  | .str a, .str b => a == b
  | .obj r _ _ _, .obj q _ _ _ => r == q
  | _, _ => false

/-- The built-in `Array.prototype.includes` on an array of tags. -/
def tagsInclude (arr : List Tag) (tag : Tag) : Bool := arr.any (fun u => sameValueZero u tag)

/-- A feedback record as returned by `GET /api/feedback/`; any property may be
missing. `created_at` is the time value of `new Date(item.created_at)`, `none`
when that is an invalid date. -/
structure FeedbackItem where
  id : Nat
  strengths : Option String
  areas_to_improve : Option String
  employee_name : Option String
  manager_name : Option String
  sentiment : Option String
  acknowledged : Option Bool
  created_at : Option Int
  tags : Option (List Tag)
  deriving DecidableEq, Repr

/-- The `filters` state. -/
structure Filters where
  sentiment : String
  acknowledged : String
  dateRange : String
  tags : List Tag
  deriving DecidableEq, Repr

/-- The initial `filters` state: every facet `all`, no tag. -/
def Filters.initial : Filters := { sentiment := "all", acknowledged := "all", dateRange := "all", tags := [] }

/-- The expression `user.role === "manager" ? item.employee_name : item.manager_name`. -/
def counterpartName (role : String) (item : FeedbackItem) : Option String :=
  if role = "manager" then item.employee_name else item.manager_name

/-- The expression `field?.toLowerCase().includes(searchTerm.toLowerCase())`,
`undefined` (falsy) when the field is missing. -/
def fieldIncludes (h : Host) (field : Option String) (searchTerm : String) : Bool :=
  match field with
  | none => false
  | some s => jsIncludes (h.toLowerCase s) (h.toLowerCase searchTerm)

/-- The callback `tag => tag.toLowerCase().includes(searchTerm.toLowerCase())`: an
object has no `toLowerCase` method, so calling it throws. -/
def tagIncludes (h : Host) (searchTerm : String) : Tag → Except JSError Bool
  | .str s => .ok (jsIncludes (h.toLowerCase s) (h.toLowerCase searchTerm))
  | .obj _ _ _ _ => .error (.typeError "tag.toLowerCase is not a function")

/-- The built-in `Array.prototype.some` with a callback that may throw: elements
are visited in order until the callback returns true. -/
def someE {α : Type} (p : α → Except JSError Bool) : List α → Except JSError Bool
  | [] => .ok false
  | a :: l =>
    match p a with
    | .error e => .error e
    | .ok true => .ok true
    | .ok false => someE p l

/-- The built-in `Array.prototype.filter` with a callback that may throw. -/
def filterE {α : Type} (p : α → Except JSError Bool) : List α → Except JSError (List α)
  | [] => .ok []
  | a :: l =>
    match p a with
    | .error e => .error e
    | .ok keep =>
      match filterE p l with
      | .error e => .error e
      | .ok rest => .ok (if keep then a :: rest else rest)

/-- The callback of the search filter: the four disjuncts of `||`, evaluated left
to right and short-circuiting. -/
def matchesSearch (h : Host) (role searchTerm : String) (item : FeedbackItem) :
    Except JSError Bool :=
  if fieldIncludes h item.strengths searchTerm then .ok true
  else if fieldIncludes h item.areas_to_improve searchTerm then .ok true
  else if fieldIncludes h (counterpartName role item) searchTerm then .ok true
  else
    match item.tags with
    | none => .ok false
    | some tags => someE (tagIncludes h searchTerm) tags

/-- The search stage: skipped when `searchTerm` is the empty string. -/
def searchFilter (h : Host) (role searchTerm : String) (filtered : List FeedbackItem) :
    Except JSError (List FeedbackItem) :=
  if strTruthy searchTerm then filterE (matchesSearch h role searchTerm) filtered
  else .ok filtered

/-- The callback `item => item.sentiment === filters.sentiment`. -/
def sentimentMatches (facet : String) (item : FeedbackItem) : Bool :=
  item.sentiment == some facet

/-- The sentiment stage. -/
def sentimentFilter (filters : Filters) (filtered : List FeedbackItem) : List FeedbackItem :=
  if filters.sentiment ≠ "all" then filtered.filter (sentimentMatches filters.sentiment)
  else filtered

/-- The callback `item => item.acknowledged === isAcknowledged`. -/
def acknowledgedMatches (isAcknowledged : Bool) (item : FeedbackItem) : Bool :=
  item.acknowledged == some isAcknowledged

/-- The acknowledged stage. -/
def acknowledgedFilter (filters : Filters) (filtered : List FeedbackItem) : List FeedbackItem :=
  if filters.acknowledged ≠ "all" then
    let isAcknowledged := decide (filters.acknowledged = "acknowledged")
    filtered.filter (acknowledgedMatches isAcknowledged)
  else filtered

/-- The time value of `filterDate` after the `switch` on `filters.dateRange`; both
`now` and `filterDate` are `new Date()` taken at the instant `now`. -/
def filterDate (h : Host) (now : Int) (dateRange : String) : Option Int :=
  match dateRange with
  | "week" => setDate h now (getDate h now - 7)
  | "month" => setMonth h now (getMonth h now - 1)
  | "quarter" => setMonth h now (getMonth h now - 3)
  | _ => some now

/-- The comparison `new Date(item.created_at) >= filterDate`: false when either
side is an invalid date. -/
def dateAtLeast (created_at cutoff : Option Int) : Bool :=
  match created_at, cutoff with
  | some c, some f => decide (f ≤ c)
  | _, _ => false

/-- The callback of the date-range stage. -/
def dateMatches (h : Host) (now : Int) (dateRange : String) (item : FeedbackItem) : Bool :=
  dateAtLeast item.created_at (filterDate h now dateRange)

/-- The date-range stage. -/
def dateFilter (h : Host) (now : Int) (filters : Filters) (filtered : List FeedbackItem) :
    List FeedbackItem :=
  if filters.dateRange ≠ "all" then filtered.filter (dateMatches h now filters.dateRange)
  else filtered

/-- The callback `item => item.tags?.some(tag => filters.tags.includes(tag))`. -/
def tagsMatch (facet : List Tag) (item : FeedbackItem) : Bool :=
  match item.tags with
  | none => false
  | some tags => tags.any (fun tag => tagsInclude facet tag)

/-- The tags stage: skipped when `filters.tags` is empty. -/
def tagsFilter (filters : Filters) (filtered : List FeedbackItem) : List FeedbackItem :=
  if filters.tags.length > 0 then filtered.filter (tagsMatch filters.tags) else filtered

/-- The lookup `sentimentOrder[s]`, `undefined` for any other or missing key. -/
def sentimentOrder (s : Option String) : Option Int :=
  match s with
  | some "positive" => some 3
  | some "neutral" => some 2
  | some "negative" => some 1
  | _ => none

/-- Subtraction of two numbers either of which may be `NaN` (or `undefined`). -/
def numSub (a b : Option Int) : Option Int :=
  match a, b with
  | some x, some y => some (x - y)
  | _, _ => none

/-- The comparator passed to `sort`. With `name`, calling `localeCompare` on a
missing `nameA` throws, while a missing `nameB` is compared as the string "undefined". -/
def compareItems (h : Host) (role sortBy : String) (a b : FeedbackItem) :
    Except JSError (Option Int) :=
  match sortBy with
  | "date_asc" => .ok (numSub a.created_at b.created_at)
  | "date_desc" => .ok (numSub b.created_at a.created_at)
  | "sentiment" => .ok (numSub (sentimentOrder b.sentiment) (sentimentOrder a.sentiment))
  | "name" =>
    match counterpartName role a with
    | none => .error (.typeError "Cannot read properties of undefined (reading localeCompare)")
    | some nameA => .ok (some (h.localeCompare nameA ((counterpartName role b).getD "undefined")))
  | _ => .ok (some 0)

/-- Whether a comparator result puts its first argument after its second: a
positive number; `NaN` counts as zero. -/
def isPositive (v : Option Int) : Bool :=
  match v with
  | some n => decide (0 < n)
  | none => false

/-- One insertion of the sort: `a` goes before the first element it is not after. -/
def insertE {α : Type} (cmp : α → α → Except JSError (Option Int)) (a : α) :
    List α → Except JSError (List α)
  | [] => .ok [a]
  | b :: l =>
    match cmp a b with
    | .error e => .error e
    | .ok v =>
      if isPositive v then
        match insertE cmp a l with
        | .error e => .error e
        | .ok rest => .ok (b :: rest)
      else .ok (a :: b :: l)

/-- The built-in `Array.prototype.sort` with a comparator that may throw. The
built-in is stable and leaves the sequence of comparator calls to the engine; this
is the stable insertion sort that calls the comparator on (earlier, later)
elements, and a throw of the comparator ends the sort. For a consistent comparator
every stable sort returns the same list as this one; for a comparator that is not
consistent (one that returns `NaN`) the result of the built-in is left to the
engine, and this is one possible engine. -/
def sortE {α : Type} (cmp : α → α → Except JSError (Option Int)) :
    List α → Except JSError (List α)
  | [] => .ok []
  | a :: l =>
    match sortE cmp l with
    | .error e => .error e
    | .ok sorted => insertE cmp a sorted

/-- The filtering stages of `filteredFeedback`, in source order. -/
def applyFilters (h : Host) (now : Int) (role searchTerm : String) (filters : Filters)
    (feedback : List FeedbackItem) : Except JSError (List FeedbackItem) :=
  match searchFilter h role searchTerm feedback with
  | .error e => .error e
  | .ok filtered =>
    .ok (tagsFilter filters (dateFilter h now filters
      (acknowledgedFilter filters (sentimentFilter filters filtered))))

/-- The body of the `useMemo` computing `filteredFeedback` (the engine `derive`):
the filters, then the sort of the filtered copy. -/
def filteredFeedback (h : Host) (now : Int) (role searchTerm : String) (filters : Filters)
    (sortBy : String) (feedback : List FeedbackItem) : Except JSError (List FeedbackItem) :=
  match applyFilters h now role searchTerm filters feedback with
  | .error e => .error e
  | .ok filtered => sortE (compareItems h role sortBy) filtered

/-- A comment entered locally, as `handleSubmitComment` builds it at time 42. -/
def localComment : Comment :=
  .mk 42 "Jane Employee" "employee" "Thanks, this is noted." 42 0 false (some [])

/-- A record with the given id and every other property missing. -/
def sampleItem (id : Nat) : FeedbackItem :=
  { id := id, strengths := none, areas_to_improve := none, employee_name := none,
    manager_name := none, sentiment := none, acknowledged := none, created_at := none,
    tags := none }

/-- Three records with sentiments positive, neutral and negative. -/
def threeSentiments : List FeedbackItem :=
  [ { sampleItem 1 with sentiment := some "positive", created_at := some 3000 },
    { sampleItem 2 with sentiment := some "neutral", created_at := some 2000 },
    { sampleItem 3 with sentiment := some "negative", created_at := some 1000 } ]

/-- The search predicate in the words of the specification: the lower-cased term
is a substring of the lower-cased strengths, or of the areas to improve, or of the
counterpart name of the viewer, which is `employee_name` for a manager and
`manager_name` for any other viewer, or of some tag label of the record. -/
def SearchHit (h : Host) (role searchTerm : String) (item : FeedbackItem) : Prop :=
  (∃ s, item.strengths = some s ∧ (h.toLowerCase searchTerm).data <:+: (h.toLowerCase s).data) ∨
  (∃ s, item.areas_to_improve = some s ∧
    (h.toLowerCase searchTerm).data <:+: (h.toLowerCase s).data) ∨
  (role = "manager" ∧ ∃ s, item.employee_name = some s ∧
    (h.toLowerCase searchTerm).data <:+: (h.toLowerCase s).data) ∨
  (role ≠ "manager" ∧ ∃ s, item.manager_name = some s ∧
    (h.toLowerCase searchTerm).data <:+: (h.toLowerCase s).data) ∨
  (∃ tags s, item.tags = some tags ∧ Tag.str s ∈ tags ∧
    (h.toLowerCase searchTerm).data <:+: (h.toLowerCase s).data)

/-- A record whose only texts are the name of the employee and of the manager. -/
def nameOnlyItem : FeedbackItem :=
  { sampleItem 2 with employee_name := some "Leah Park", manager_name := some "Omar Diaz" }

/-- A record whose only text is a tag labeled "Leadership". -/
def leadershipItem : FeedbackItem := { sampleItem 1 with tags := some [.str "Leadership"] }

/-- A record created on 2024-02-14 at 12:00 UTC. -/
def februaryItem : FeedbackItem := { sampleItem 1 with created_at := some 1707912000000 }

/-- A record tagged `communication` and `leadership`. -/
def taggedItem : FeedbackItem :=
  { sampleItem 1 with tags := some [.str "communication", .str "leadership"] }

/-- A filter state whose tag facet holds `leadership`. -/
def leadershipFacet : Filters := { Filters.initial with tags := [.str "leadership"] }

/-- A form whose strengths and areas to improve have 15 characters each. -/
def shortForm : FormData :=
  { initialFormData with strengths := "Great team work", areas_to_improve := "Be on time more" }

/-! ## Submission wizard: form actions, submit and events -/

/-- `handleTagToggle`: the new `formData`; a tag with the same `name` is removed,
otherwise the tag object is appended. -/
def handleTagToggle (prev : FormData) (tag : WizardTag) : FormData :=
  { prev with tags :=
      if prev.tags.any (fun t => t.name == tag.name) then
        prev.tags.filter (fun t => !(t.name == tag.name))
      else prev.tags ++ [tag] }

/-- `addActionItem`: the new `formData`; `now` is `Date.now()`. -/
def addActionItem (prev : FormData) (now : Nat) : FormData :=
  { prev with action_items := prev.action_items ++ [{ text := "", completed := false, id := now }] }

/-- The `map` of `updateActionItem` on the `action_items` array. -/
def updateItems (items : List ActionItem) (id : Nat) (text : String) : List ActionItem :=
  items.map (fun item => if item.id = id then { item with text := text } else item)

/-- `updateActionItem`: the new `formData`. -/
def updateActionItem (prev : FormData) (id : Nat) (text : String) : FormData :=
  { prev with action_items := updateItems prev.action_items id text }

/-- `removeActionItem`: the new `formData`. -/
def removeActionItem (prev : FormData) (id : Nat) : FormData :=
  { prev with action_items := prev.action_items.filter (fun item => !(item.id == id)) }

/-- The body of the `axios.post` of `handleSubmit`. -/
structure Payload where
  employee_id : String
  strengths : String
  areas_to_improve : String
  sentiment : String
  tags : List WizardTag
  priority : String
  goals : String
  action_items : List ActionItem
  deriving DecidableEq, Repr

/-- The request body built from `formData`. -/
def payloadOf (formData : FormData) : Payload :=
  { employee_id := formData.employee_id, strengths := formData.strengths,
    areas_to_improve := formData.areas_to_improve, sentiment := formData.sentiment,
    tags := formData.tags, priority := formData.priority, goals := formData.goals,
    action_items := formData.action_items }

/-- How the `axios.post` of `handleSubmit` ends: it resolves, or it rejects with an
error whose `response.data.message` may be missing. -/
inductive PostOutcome where
  | success
  | failure (message : Option String)
  deriving DecidableEq, Repr

/-- What `handleSubmit` leaves behind: the wizard, the request it issued if any,
the value given to `setError`, and whether `setSuccess(true)` was called. -/
structure SubmitResult where
  wizard : Wizard
  request : Option Payload
  error : String
  succeeded : Bool
  deriving DecidableEq, Repr

/-- `handleSubmit`. Only `validateStep(currentStep)` is run; with errors they are
stored and nothing is sent. Otherwise the request is issued: when it resolves the
draft of `formData.employee_id` is removed, when it rejects only the error is set. -/
def handleSubmit (outcome : PostOutcome) (w : Wizard) : SubmitResult :=
  let errors := validateStep w.formData w.currentStep
  if errors.keys.length > 0 then
    { wizard := { w with validationErrors := errors }, request := none, error := "",
      succeeded := false }
  else
    match outcome with
    | .success =>
      { wizard := { w with store := removeItem w.store (draftKey w.formData.employee_id) },
        request := some (payloadOf w.formData), error := "", succeeded := true }
    | .failure message =>
      { wizard := w, request := some (payloadOf w.formData),
        error := orDefault message "Failed to submit feedback", succeeded := false }

/-- What can happen to the wizard. `indicator i` is a click on the step indicator
of step `i + 1` (the `steps` array has four entries); `wait` is time passing. -/
inductive WizardEvent where
  | change (name : Field) (value : String) (answers : List Bool)
  | toggleTag (tag : WizardTag)
  | addItem
  | updateItem (id : Nat) (text : String)
  | removeItem (id : Nat)
  | next
  | previous
  | indicator (i : Fin 4)
  | submit (outcome : PostOutcome)
  | wait (ms : Nat) (storageOk : Bool)

/-- One event. An action that calls `setFormData` is followed by the effects of
the render; it leaves `employee_id` as it is, so no `window.confirm` is answered. -/
def Wizard.step (w : Wizard) : WizardEvent → Wizard
  | .change name value answers => handleChange name value answers w
  | .toggleTag tag => commitEffects [] { w with formData := handleTagToggle w.formData tag }
  | .addItem => commitEffects [] { w with formData := addActionItem w.formData w.clock }
  | .updateItem id text =>
    commitEffects [] { w with formData := updateActionItem w.formData id text }
  | .removeItem id => commitEffects [] { w with formData := removeActionItem w.formData id }
  | .next => { w with currentStep := handleNext w.formData w.currentStep }
  | .previous => { w with currentStep := handlePrevious w.currentStep }
  | .indicator i => { w with currentStep := i.val + 1 }
  | .submit outcome => (handleSubmit outcome w).wizard
  | .wait ms storageOk => elapse ms storageOk w

/-- The wizard after a sequence of events. -/
def Wizard.run (w : Wizard) (events : List WizardEvent) : Wizard := events.foldl Wizard.step w

/-- The Draft Store operation `save`: the `setItem` of `autoSave` under the key of
the employee. -/
def saveDraft (store : Storage) (employee_id : String) (snapshot : Snapshot) : Storage :=
  setItem store (draftKey employee_id) snapshot

/-- The Draft Store operation `load`: the `getItem` of the draft-load effect. -/
def loadDraft (store : Storage) (employee_id : String) : Option Snapshot :=
  getItem store (draftKey employee_id)

/-- The entry `leadership` of `availableTags.skills`. -/
def leadershipTag : WizardTag := { name := "leadership", label := "Leadership", color := "purple" }

/-- A tag object of the wizard as an element of a stored record's `tags` array. -/
def storedTag (ref : Nat) (tag : WizardTag) : Tag := .obj ref tag.name tag.label tag.color

/-- The rank of the sentiment sort, 0 for a sentiment outside the three values. -/
def sentimentRank (item : FeedbackItem) : Int := (sentimentOrder item.sentiment).getD 0

/-- The time value of a record, 0 for an invalid date. -/
def timeValue (item : FeedbackItem) : Int := item.created_at.getD 0

/-- A wizard opened on an empty store whose step indicator 4 was clicked at once. -/
def jumpToReview : Wizard := (Wizard.init [] 0).run [.indicator 3]

/-- A form ready for autosave: employee 7 with strengths entered. -/
def draftableForm : FormData :=
  { initialFormData with employee_id := "7", strengths := "Always delivers on time" }

/-- A wizard whose store holds a draft for employee 7 and in which strengths were
typed (on step 2, reached by the step indicator) before any employee is selected. -/
def typedThenSelect : Wizard :=
  (Wizard.init [(draftKey "7", draftData draftableForm 10)] 100).run
    [.indicator 1, .change .strengths "Typed before selecting" []]

/-- A snapshot field merged into a form field, in the words of the specification:
a field present in the snapshot has the snapshot value, a field absent from it
keeps the prior value. -/
def MergedField {α : Type} (snapshot : Option α) (prior result : α) : Prop :=
  (∀ v, snapshot = some v → result = v) ∧ (snapshot = none → result = prior)

/-- A wizard on step 4 with employee 7 selected and drafts stored for 7 and 9. -/
def submitReady : Wizard :=
  (Wizard.init [(draftKey "7", draftData draftableForm 10),
      (draftKey "9", draftData { draftableForm with employee_id := "9" } 20)] 100).run
    [.change .employee_id "7" [false], .indicator 3]

/-- A record whose `tags` array holds the `leadership` tag object of the wizard. -/
def wizardTaggedItem : FeedbackItem := { sampleItem 1 with tags := some [storedTag 0 leadershipTag] }

/-- Four records with sentiments neutral, positive, neutral, negative, in this order. -/
def mixedSentiments : List FeedbackItem :=
  [ { sampleItem 1 with sentiment := some "neutral", created_at := some 4000 },
    { sampleItem 2 with sentiment := some "positive", created_at := some 1000 },
    { sampleItem 3 with sentiment := some "neutral", created_at := some 3000 },
    { sampleItem 4 with sentiment := some "negative", created_at := some 2000 } ]

/-- Two action items, with ids 1 and 2. -/
def twoItems : List ActionItem :=
  [{ text := "Book a course", completed := false, id := 1 },
   { text := "Pair weekly", completed := true, id := 2 }]

/-! ## Comment thread: mutations -/

/-- The object `{ ...comment, comment_text: newText }`. -/
def Comment.setText : Comment → String → Comment
  | .mk id n r _ c l b rs, newText => .mk id n r newText c l b rs

/-- The object built by `handleLikeComment`: `likes` moves by one against
`liked_by_user`, which is negated. -/
def Comment.toggleLike : Comment → Comment
  | .mk id n r t c l b rs => .mk id n r t c (if b then l - 1 else l + 1) (!b) rs

/-- The object `{ ...comment, replies: [...(comment.replies || []), reply] }`. -/
def Comment.addReply : Comment → Comment → Comment
  | .mk id n r t c l b rs, reply => .mk id n r t c l b (some (rs.getD [] ++ [reply]))

/-- How a call without a used response ends (`put`, `delete`, the `post` of a like). -/
inductive CallOutcome where
  | success
  | failure

/-- How the `post` of a comment or reply ends: with a response whose
`data.comment` may be missing, or with an error. -/
inductive CreateOutcome where
  | success (comment : Option Comment)
  | failure

/-- The `newCommentObj` of the `catch` of `handleSubmitComment`; `now` is `Date.now()`. -/
def newCommentObj (user : Option User) (now : Nat) (newComment : String) : Comment :=
  .mk now (orDefault (user.map (fun u => u.name)) "You")
    (orDefault (user.map (fun u => u.role)) "employee") newComment now 0 false (some [])

/-- The `replyObj` of the `catch` of `handleReply`: it has no `replies` property. -/
def replyObj (user : Option User) (now : Nat) (replyText : String) : Comment :=
  .mk now (orDefault (user.map (fun u => u.name)) "You")
    (orDefault (user.map (fun u => u.role)) "employee") replyText now 0 false none

/-- `handleSubmitComment`: the `comments` state after the call. A blank text
returns at once; a response with a comment appends that comment, a response without
one changes nothing; the `catch` appends `newCommentObj`. -/
def handleSubmitComment (user : Option User) (now : Nat) (newComment : String)
    (outcome : CreateOutcome) (comments : List Comment) : List Comment :=
  if !strTruthy (jsTrim newComment) then comments
  else
    match outcome with
    | .success (some comment) => comments ++ [comment]
    | .success none => comments
    | .failure => comments ++ [newCommentObj user now newComment]

/-- The `disabled` attribute of the Post Comment button. -/
def postCommentDisabled (submitting : Bool) (newComment : String) : Bool :=
  submitting || !strTruthy (jsTrim newComment) || decide (jsLength newComment > 500)

/-- `handleEditComment`: both the `try` and the `catch` apply the same `map`. -/
def handleEditComment (commentId : Nat) (newText : String) (outcome : CallOutcome)
    (comments : List Comment) : List Comment :=
  match outcome with
  | .success => comments.map (fun c => if c.id = commentId then c.setText newText else c)
  | .failure => comments.map (fun c => if c.id = commentId then c.setText newText else c)

/-- `handleDeleteComment`; `confirmed` is the answer of `window.confirm`. -/
def handleDeleteComment (commentId : Nat) (confirmed : Bool) (outcome : CallOutcome)
    (comments : List Comment) : List Comment :=
  if !confirmed then comments
  else
    match outcome with
    | .success => comments.filter (fun c => !(c.id == commentId))
    | .failure => comments.filter (fun c => !(c.id == commentId))

/-- `handleLikeComment`: both the `try` and the `catch` apply the same `map`. -/
def handleLikeComment (commentId : Nat) (outcome : CallOutcome) (comments : List Comment) :
    List Comment :=
  match outcome with
  | .success => comments.map (fun c => if c.id = commentId then c.toggleLike else c)
  | .failure => comments.map (fun c => if c.id = commentId then c.toggleLike else c)

/-- `handleReply`: the `comments` state after the call. A blank text returns at
once; a response with a comment appends it to the replies of every top-level
comment with id `parentId`, a response without one changes nothing; the `catch`
appends `replyObj` in the same way. -/
def handleReply (parentId : Nat) (user : Option User) (now : Nat) (replyText : String)
    (outcome : CreateOutcome) (comments : List Comment) : List Comment :=
  if !strTruthy (jsTrim replyText) then comments
  else
    match outcome with
    | .success (some reply) =>
      comments.map (fun c => if c.id = parentId then c.addReply reply else c)
    | .success none => comments
    | .failure =>
      comments.map (fun c => if c.id = parentId then c.addReply (replyObj user now replyText)
        else c)

/-- The `disabled` attribute of the Reply button of the reply form. -/
def replyDisabled (submitting : Bool) (replyText : String) : Bool :=
  !strTruthy (jsTrim replyText) || submitting

/-- A comment with id 1, two likes, not liked by the user, and an empty replies list. -/
def likedTwice : Comment :=
  .mk 1 "Sarah Wilson" "manager" "Nice work." 0 2 false (some [])

/-- A text of 501 characters. -/
def longText : String := ⟨List.replicate 501 'a'⟩

/-- A reply as a server could return it, with a reply of its own. -/
def nestedReply : Comment :=
  .mk 7 "Mike Chen" "peer" "Agreed." 0 0 false
    (some [.mk 8 "Sarah Wilson" "manager" "Thanks." 0 0 false none])

/-! ## Action items as a sequence of operations -/

/-- An operation on the action items; `add now` is `addActionItem` called when
`Date.now()` reads `now`. -/
inductive ItemOp where
  | add (now : Nat)
  | update (id : Nat) (text : String)
  | remove (id : Nat)
  deriving DecidableEq, Repr

/-- One operation on the form. -/
def applyItemOp (formData : FormData) : ItemOp → FormData
  | .add now => addActionItem formData now
  | .update id text => updateActionItem formData id text
  | .remove id => removeActionItem formData id

/-- A sequence of operations on the form. -/
def runItemOps (formData : FormData) (ops : List ItemOp) : FormData :=
  ops.foldl applyItemOp formData

/-- The clock readings of the `add` operations of a sequence, in order. -/
def addReadings : List ItemOp → List Nat
  | [] => []
  | .add now :: ops => now :: addReadings ops
  | _ :: ops => addReadings ops

/-- The invariant of the Draft Store: every entry is stored under the key of the
`employee_id` it holds. -/
def StoreKeyed (store : Storage) : Prop :=
  ∀ e ∈ store, ∃ k, e.1 = draftKey k ∧ e.2.employee_id = some k

/-! ## Comment formatting (`formatComment`) -/

/-- The first `replace` of `formatComment`, on the remaining text with one unit of
fuel per position. At each position the three alternatives of the pattern are tried
in order: two stars, a non-empty run without stars, two stars; one star, such a
run, one star; one back quote, a non-empty run without back quotes, one back quote.
A match is replaced by the first group, which is the run for the first alternative
and undefined, hence the empty string, for the other two; without a match the
character is copied. -/
def stripMarkupAux : Nat → List Char → List Char
  | 0, cs => cs
  | _ + 1, [] => []
  | n + 1, c :: rest =>
    if c = '*' then
      match rest with
      | '*' :: rest2 =>
        match rest2.takeWhile (fun x => x != '*'), rest2.dropWhile (fun x => x != '*') with
        | r :: run, '*' :: '*' :: after => r :: run ++ stripMarkupAux n after
        | _, _ => '*' :: stripMarkupAux n rest
      | _ =>
        match rest.takeWhile (fun x => x != '*'), rest.dropWhile (fun x => x != '*') with
        | _ :: _, '*' :: after => stripMarkupAux n after
        | _, _ => '*' :: stripMarkupAux n rest
    else if c = '`' then
      match rest.takeWhile (fun x => x != '`'), rest.dropWhile (fun x => x != '`') with
      | _ :: _, '`' :: after => stripMarkupAux n after
      | _, _ => '`' :: stripMarkupAux n rest
    else c :: stripMarkupAux n rest

/-- The first `replace` of `formatComment`: every position gets its unit of fuel. -/
def stripMarkup (cs : List Char) : List Char := stripMarkupAux cs.length cs

/-- The second `replace` of `formatComment`: each line feed becomes `<br>`. -/
def breakLines : List Char → List Char
  | [] => []
  | c :: rest => if c = '\n' then '<' :: 'b' :: 'r' :: '>' :: breakLines rest
    else c :: breakLines rest

/-- The emoji of the third pattern that are one code point. -/
def singleEmoji : List Char := ['👍', '👎', '🙏', '💪', '🎯', '😊', '😔', '🚀', '✨', '💡', '🔥', '⭐']

/-- The match wrapped by the third `replace`. -/
def wrapSpan (matched : List Char) : List Char :=
  "<span class=\"text-lg\">".data ++ matched ++ "</span>".data

/-- The third `replace` of `formatComment`: each listed emoji is wrapped in a span;
the heart is the two code points U+2764 U+FE0F. -/
def wrapEmoji : List Char → List Char
  | [] => []
  | [c] => if c ∈ singleEmoji then wrapSpan [c] else [c]
  | c :: v :: rest =>
    if c ∈ singleEmoji then wrapSpan [c] ++ wrapEmoji (v :: rest)
    else if c = Char.ofNat 0x2764 ∧ v = Char.ofNat 0xFE0F then wrapSpan [c, v] ++ wrapEmoji rest
    else c :: wrapEmoji (v :: rest)

/-- `formatComment`: the three replacements in source order. -/
def formatComment (text : String) : String := ⟨wrapEmoji (breakLines (stripMarkup text.data))⟩

/-- The text of the second mock comment, which holds a `code` span. -/
def mockCodeText : String :=
  "I really appreciate the detailed feedback! 🙏\n\nI've already started working on improving my `presentation skills` by:\n- Joining the company Toastmasters group\n- Practicing with smaller team meetings\n- Watching online courses on public speaking\n\nLooking forward to our discussion!"

/-! ## Idempotence of the engine: comparator order and sample records -/

/-- The comparator returns on `(x, y)` and does not put `x` after `y`. -/
def NotAfter {α : Type} (cmp : α → α → Except JSError (Option Int)) (x y : α) : Prop :=
  ∃ v, cmp x y = .ok v ∧ isPositive v = false

/-- The record has what the comparator of the sort key reads: the counterpart name
for `name`, a sentiment of the table for `sentiment`, a valid date for the two date
keys. On such records the comparator is a consistent comparator. -/
def Sortable (role sortBy : String) (item : FeedbackItem) : Prop :=
  (sortBy = "name" → (counterpartName role item).isSome = true) ∧
  (sortBy = "sentiment" → item.sentiment = some "positive" ∨
    item.sentiment = some "neutral" ∨ item.sentiment = some "negative") ∧
  (sortBy = "date_asc" ∨ sortBy = "date_desc" → item.created_at.isSome = true)

/-- A negative record from manager Dana, tagged teamwork. -/
def danaRecord : FeedbackItem :=
  { sampleItem 1 with manager_name := some "Dana", sentiment := some "negative", created_at := some 1000, tags := some [.str "teamwork"] }

/-- A positive record from manager Ben, tagged teamwork. -/
def benRecord : FeedbackItem :=
  { sampleItem 2 with manager_name := some "Ben", sentiment := some "positive", created_at := some 3000, tags := some [.str "teamwork"] }

/-- A negative record from manager Cleo, tagged leadership. -/
def cleoRecord : FeedbackItem :=
  { sampleItem 3 with manager_name := some "Cleo", sentiment := some "negative", created_at := some 2000, tags := some [.str "leadership"] }

/-- A positive record from manager Abe, tagged teamwork. -/
def abeRecord : FeedbackItem :=
  { sampleItem 4 with manager_name := some "Abe", sentiment := some "positive", created_at := some 4000, tags := some [.str "teamwork"] }

/-- Four records with counterpart names and string tags. -/
def fourRecords : List FeedbackItem := [danaRecord, benRecord, cleoRecord, abeRecord]

/-- Four records for the tag facet: two string tags, no tags, an empty `tags`
array, and one other string tag. -/
def tagFacetRecords : List FeedbackItem :=
  [taggedItem, sampleItem 2, { sampleItem 3 with tags := some [] }, { sampleItem 4 with tags := some [.str "teamwork"] }]

/-- A record whose tag is an object with the content of `leadershipTag` that is not
the object of `wizardTaggedItem`. -/
def otherTaggedItem : FeedbackItem := { sampleItem 2 with tags := some [storedTag 1 leadershipTag] }

/-- A filter state whose tag facet holds the tag object of `wizardTaggedItem`. -/
def objectFacet : Filters := { Filters.initial with tags := [storedTag 0 leadershipTag] }

/-- An employee is selected on step 1. -/
def stepOneEvents : List WizardEvent := [.change .employee_id "7" []]

/-- An employee is selected, Next is clicked, and strengths and areas to improve of
more than 20 characters are entered on step 2. -/
def stepTwoEvents : List WizardEvent :=
  [.change .employee_id "7" [], .next, .change .strengths "Always delivers on time" [],
    .change .areas_to_improve "Could delegate more often" []]

/-! ## Theorems: submission wizard -/

/-- C1 (code defect): at step 1 with no employee selected, `validateStep` reports an
error under `employee_id`, and `handleNext` still moves the wizard to step 2,
because its condition tests the truthiness of the returned object. -/
theorem handleNext_advances_despite_errors :
    (validateStep initialFormData 1).employee_id = some "Please select a team member" ∧
    (validateStep initialFormData 1).keys ≠ [] ∧
    handleNext initialFormData 1 = 2 := by
  decide

/-- Whatever the form holds, `handleNext` moves to `min (currentStep + 1) 4`. -/
theorem handleNext_eq (formData : FormData) (currentStep : Nat) :
    handleNext formData currentStep = min (currentStep + 1) 4 := by
  simp [handleNext, Errors.truthy]

/-- The trimmed string is empty exactly when every code point is white space. -/
theorem jsTrim_empty_iff (s : String) :
    strTruthy (jsTrim s) = false ↔ ∀ c ∈ s.data, isJsWhiteSpace c = true := by
  simp only [strTruthy, jsTrim, Bool.not_eq_false', List.isEmpty_iff, List.reverse_eq_nil_iff,
    List.dropWhile_eq_nil_iff, List.mem_reverse]
  constructor
  · intro h
    have hnil : s.data.dropWhile isJsWhiteSpace = [] := by
      by_contra hne
      have hhead := List.head_dropWhile_not isJsWhiteSpace s.data hne
      have := h _ (List.head_mem hne)
      simp [this] at hhead
    exact List.dropWhile_eq_nil_iff.mp hnil
  · intro h c hc
    exact h c ((List.dropWhile_sublist isJsWhiteSpace).subset hc)

/-- C4 (refuted as stated): a strengths field of twenty spaces has 20 characters,
yet `validateStep 2` returns an error keyed to `strengths`. -/
theorem validateStep_blank_strengths_error :
    jsLength "                    " = 20 ∧
    (validateStep { initialFormData with strengths := "                    " } 2).strengths
      = some "Please provide strengths" := by
  decide

/-- C4 (amended): when the strengths field has 20 or more characters and is not
made of white space only, `validateStep 2` returns no error keyed to `strengths`. -/
theorem validateStep_strengths_ok (formData : FormData)
    (hlen : 20 ≤ jsLength formData.strengths)
    (hblank : ∃ c ∈ formData.strengths.data, isJsWhiteSpace c = false) :
    (validateStep formData 2).strengths = none := by
  have htrim : strTruthy (jsTrim formData.strengths) = true := by
    by_contra hne
    have hall := (jsTrim_empty_iff formData.strengths).mp (by simpa using hne)
    obtain ⟨c, hc, hw⟩ := hblank
    simp [hall c hc] at hw
  have hnot : ¬ jsLength formData.strengths < 20 := by omega
  simp only [validateStep, htrim, Bool.not_true, Bool.false_eq_true, if_false, hnot]
  split_ifs <;> rfl

/-- A strengths field of 20 characters that is not blank raises no error. -/
theorem validateStep_strengths_ok_witness :
    (validateStep { initialFormData with strengths := "Ships reliable code." } 2).strengths
      = none :=
  validateStep_strengths_ok { initialFormData with strengths := "Ships reliable code." }
    (by decide) ⟨'S', by decide, by decide⟩

/-- C5: when the strengths field has fewer than 20 characters, `validateStep 2`
returns under `strengths` exactly the minimum-length message, and likewise for
`areas_to_improve` under its own key. -/
theorem validateStep_short_fields (formData : FormData) :
    (jsLength formData.strengths < 20 →
      (validateStep formData 2).strengths
        = some "Please provide more detailed feedback (minimum 20 characters)") ∧
    (jsLength formData.areas_to_improve < 20 →
      (validateStep formData 2).areas_to_improve
        = some "Please provide more detailed feedback (minimum 20 characters)") := by
  constructor
  · intro h
    simp only [validateStep, h, if_true, msgMinLength]
    split_ifs <;> rfl
  · intro h
    simp only [validateStep, h, if_true, msgMinLength]

/-- The form `shortForm` has strengths and areas to improve of 15 characters each. -/
theorem validateStep_short_fields_witness :
    jsLength shortForm.strengths = 15 ∧ jsLength shortForm.areas_to_improve = 15 ∧
    (validateStep shortForm 2).strengths
      = some "Please provide more detailed feedback (minimum 20 characters)" ∧
    (validateStep shortForm 2).areas_to_improve
      = some "Please provide more detailed feedback (minimum 20 characters)" :=
  ⟨by decide, by decide,
   (validateStep_short_fields shortForm).1 (by decide),
   (validateStep_short_fields shortForm).2 (by decide)⟩

/-! ## Theorems: draft store and autosave -/

theorem getItem_setItem_same (store : Storage) (key : String) (value : Snapshot) :
    getItem (setItem store key value) key = some value := by
  simp [getItem, setItem]

theorem getItem_setItem_other (store : Storage) (key other : String) (value : Snapshot)
    (hne : other ≠ key) : getItem (setItem store key value) other = getItem store other := by
  have hk : (key == other) = false := by simpa using fun e => hne e.symm
  simp only [getItem, setItem, List.find?_cons, hk]
  congr 1
  induction store with
  | nil => rfl
  | cons e rest ih =>
    by_cases he : e.1 = key
    · have ho : ¬ e.1 = other := fun e' => hne (e'.symm.trans he)
      simp [List.filter_cons, he, List.find?_cons, ho, hk, ih]
    · by_cases ho : e.1 = other
      · simp [List.filter_cons, he, List.find?_cons, ho, hne]
      · simp [List.filter_cons, he, List.find?_cons, ho, ih]

theorem draftKey_ne (a b : String) (hne : a ≠ b) : draftKey a ≠ draftKey b := by
  intro h
  apply hne
  have hd := congrArg String.data h
  simp only [draftKey, String.data_append] at hd
  exact String.ext (List.append_cancel_left hd)

/-- When no draft is resumed, the renders after a `setFormData` leave the form, the
store and the clock as they are and hold one timer, armed with the current form. -/
theorem commitEffects_no_resume (answers : List Bool) (w : Wizard)
    (hnodraft : getItem w.store (draftKey w.formData.employee_id) = none ∨
      answers.head? ≠ some true) :
    (commitEffects answers w).formData = w.formData ∧
    (commitEffects answers w).store = w.store ∧
    (commitEffects answers w).clock = w.clock ∧
    (commitEffects answers w).autoSaveTimer = some ⟨w.clock + 3000, w.formData⟩ := by
  cases answers with
  | nil =>
    simp only [commitEffects, armAutoSave]
    split_ifs <;> simp
  | cons answer rest =>
    cases answer with
    | false =>
      simp only [commitEffects, armAutoSave, Bool.false_eq_true, if_false]
      by_cases h1 : w.formData.employee_id = w.loadedFor
      · simp [h1]
      · by_cases h2 : (!strTruthy w.formData.employee_id) = true
        · simp [h1, h2]
        · cases hg : getItem w.store (draftKey w.formData.employee_id) <;> simp [h1, h2]
    | true =>
      have hn : getItem w.store (draftKey w.formData.employee_id) = none := by
        rcases hnodraft with hn | ha
        · exact hn
        · simp at ha
      simp only [commitEffects, armAutoSave, hn]
      split_ifs <;> simp

/-- C2 (refuted as stated): employee 7 is selected and strengths are typed; one
second later, with the autosave timer still pending (due at 4000 ms, clock at 2000
ms), employee 9 is selected and nothing else is edited. When the timer fires, the
Draft Store holds under the key of employee 9 a draft with the strengths typed for
employee 7. -/
theorem switch_contaminates_draft :
    beforeSwitch.formData.employee_id = "7" ∧
    beforeSwitch.formData.strengths = "Always delivers on time and helps others" ∧
    beforeSwitch.clock = 2000 ∧
    beforeSwitch.autoSaveTimer.map (fun t => t.due) = some 4000 ∧
    (getItem switchScenario.store (draftKey "9")).bind (fun d => d.strengths)
      = some "Always delivers on time and helps others" := by
  decide

/-- C2 (amended): let an employee be selected with strengths or areas to improve
entered, and let the selection change to another employee `new` with no draft of
`new` resumed and no further edit. Then, once three seconds have passed, the Draft
Store holds under the key of `new` the snapshot of the current form, that is the
text entered so far with `employee_id` set to `new`, saved at the due time of the
re-armed timer; and the entry under the key of the employee selected before is as
it was before the switch (the timer pending for that selection was cancelled). -/
theorem switch_saves_current_form (w : Wizard) (new : String) (answers : List Bool)
    (ms : Nat) (hne : new ≠ w.formData.employee_id) (hnew : strTruthy new = true)
    (htext : strTruthy w.formData.strengths = true ∨
      strTruthy w.formData.areas_to_improve = true)
    (hnodraft : getItem w.store (draftKey new) = none ∨ answers.head? ≠ some true)
    (hms : 3000 ≤ ms) :
    getItem (elapse ms true (handleChange .employee_id new answers w)).store (draftKey new)
      = some (draftData { w.formData with employee_id := new } (w.clock + 3000)) ∧
    getItem (elapse ms true (handleChange .employee_id new answers w)).store
        (draftKey w.formData.employee_id)
      = getItem w.store (draftKey w.formData.employee_id) := by
  obtain ⟨_, hs, hc, ht⟩ := commitEffects_no_resume answers
    { w with formData := w.formData.set .employee_id new,
             validationErrors := w.validationErrors.clear .employee_id }
    (by simpa [FormData.set] using hnodraft)
  have hdue : w.clock + 3000 ≤ w.clock + ms := by omega
  have hsave : autoSave { w.formData with employee_id := new } (w.clock + 3000) true w.store
      = setItem w.store (draftKey new)
          (draftData { w.formData with employee_id := new } (w.clock + 3000)) := by
    rcases htext with h | h <;> simp [autoSave, hnew, h]
  have hstore : (elapse ms true (handleChange .employee_id new answers w)).store
      = setItem w.store (draftKey new)
          (draftData { w.formData with employee_id := new } (w.clock + 3000)) := by
    simp only [handleChange, elapse, ht, hc, hs]
    simp only [FormData.set, hdue, if_true, hsave]
  rw [hstore]
  exact ⟨getItem_setItem_same _ _ _,
    getItem_setItem_other _ _ _ _ (draftKey_ne _ _ (fun e => hne e.symm))⟩

/-- The switch from employee 7 to employee 9 of `switchScenario`: the draft under
the key of employee 9 is the form typed for employee 7 with `employee_id` 9, and
the entry under the key of employee 7 is as before. -/
theorem switch_saves_current_form_witness :
    getItem (elapse 3000 true (handleChange .employee_id "9" [] beforeSwitch)).store
        (draftKey "9")
      = some (draftData { beforeSwitch.formData with employee_id := "9" }
          (beforeSwitch.clock + 3000)) ∧
    getItem (elapse 3000 true (handleChange .employee_id "9" [] beforeSwitch)).store
        (draftKey beforeSwitch.formData.employee_id)
      = getItem beforeSwitch.store (draftKey beforeSwitch.formData.employee_id) :=
  switch_saves_current_form beforeSwitch "9" [] 3000 (by decide) (by decide)
    (Or.inl (by decide)) (Or.inl (by decide)) (by decide)

/-! ## Theorems: comment thread -/

/-- C3 (refuted as stated): with one local comment (id 42) in the list, a failed
fetch for feedback 5 leaves a list that no longer contains that comment. -/
theorem fetch_failure_drops_local_comment :
    localComment ∈ [localComment] ∧
    localComment ∉ fetchComments (some 5) none 1000 .failure [localComment] := by
  constructor
  · simp
  · simp [fetchComments, mockComments, localComment]

/-- C3 (amended): when the network call of `fetchComments` fails for an open thread
(a non-zero `feedbackId`), the local list becomes the three built-in demo comments
with ids 1, 2 and 3, whatever it held before. -/
theorem fetch_failure_loads_demo (feedbackId : Nat) (user : Option User) (now : Int)
    (comments : List Comment) (hid : feedbackId ≠ 0) :
    fetchComments (some feedbackId) user now .failure comments = mockComments user now ∧
    (fetchComments (some feedbackId) user now .failure comments).map Comment.id = [1, 2, 3] := by
  cases feedbackId with
  | zero => exact absurd rfl hid
  | succ n => exact ⟨rfl, rfl⟩

/-- A failed fetch for feedback 5 with a local comment in the list. -/
theorem fetch_failure_loads_demo_witness :
    fetchComments (some 5) none 1000 .failure [localComment] = mockComments none 1000 ∧
    (fetchComments (some 5) none 1000 .failure [localComment]).map Comment.id = [1, 2, 3] :=
  fetch_failure_loads_demo 5 none 1000 [localComment] (by decide)

/-! ## Theorems: dates -/

theorem dayFromYear_succ (y : Int) : DayFromYear (y + 1) = DayFromYear y + DaysInYear y := by
  unfold DayFromYear DaysInYear
  split_ifs <;> omega

theorem dayFromYear_upper (y : Int) : 400 * DayFromYear y ≤ 146097 * (y - 1970) + 589 := by
  unfold DayFromYear
  omega

theorem dayFromYear_lower (y : Int) : 146097 * (y - 1970) - 506 ≤ 400 * DayFromYear y := by
  unfold DayFromYear
  omega

theorem yearFromTime_spec (t : Int) :
    DayFromYear (YearFromTime t) ≤ Day t ∧ Day t < DayFromYear (YearFromTime t + 1) := by
  unfold YearFromTime
  simp only
  generalize Day t = d
  have hu := dayFromYear_upper (1970 + d * 400 / 146097 - 1)
  have hl := dayFromYear_lower (1970 + d * 400 / 146097 + 1 + 1)
  have e : (1970 + d * 400 / 146097 - 1 + 1 : Int) = 1970 + d * 400 / 146097 := by omega
  split_ifs with h1 h2
  · exact ⟨h1, by omega⟩
  · exact ⟨h2, by omega⟩
  · rw [e]
    exact ⟨by omega, by omega⟩

theorem daysInYear_cases (y : Int) : DaysInYear y = 365 ∨ DaysInYear y = 366 := by
  unfold DaysInYear
  split_ifs <;> simp

theorem monthOfDay_range (d leap : Int) : 0 ≤ monthOfDay d leap ∧ monthOfDay d leap ≤ 11 := by
  unfold monthOfDay
  by_cases h0 : d < 31
  · rw [if_pos h0]
    omega
  rw [if_neg h0]
  by_cases h1 : d < 59 + leap
  · rw [if_pos h1]
    omega
  rw [if_neg h1]
  by_cases h2 : d < 90 + leap
  · rw [if_pos h2]
    omega
  rw [if_neg h2]
  by_cases h3 : d < 120 + leap
  · rw [if_pos h3]
    omega
  rw [if_neg h3]
  by_cases h4 : d < 151 + leap
  · rw [if_pos h4]
    omega
  rw [if_neg h4]
  by_cases h5 : d < 181 + leap
  · rw [if_pos h5]
    omega
  rw [if_neg h5]
  by_cases h6 : d < 212 + leap
  · rw [if_pos h6]
    omega
  rw [if_neg h6]
  by_cases h7 : d < 243 + leap
  · rw [if_pos h7]
    omega
  rw [if_neg h7]
  by_cases h8 : d < 273 + leap
  · rw [if_pos h8]
    omega
  rw [if_neg h8]
  by_cases h9 : d < 304 + leap
  · rw [if_pos h9]
    omega
  rw [if_neg h9]
  by_cases h10 : d < 334 + leap
  · rw [if_pos h10]
    omega
  rw [if_neg h10]
  omega

theorem monthFromTime_range (t : Int) : 0 ≤ MonthFromTime t ∧ MonthFromTime t ≤ 11 :=
  monthOfDay_range _ _

/-- The day number of `t` from its year, month and day of the month. -/
theorem day_eq_civil (t : Int) :
    Day t = DayFromYear (YearFromTime t)
      + daysBeforeMonth (MonthFromTime t) (if DaysInYear (YearFromTime t) = 366 then 1 else 0)
      + DateFromTime t - 1 := by
  unfold DateFromTime DayWithinYear InLeapYear
  omega

/-- Moving the day of the month back by seven moves the day number back by seven. -/
theorem makeDay_week (t : Int) :
    MakeDay (YearFromTime t) (MonthFromTime t) (DateFromTime t - 7) = Day t - 7 := by
  have hM := monthFromTime_range t
  have hq : MonthFromTime t / 12 = 0 := by omega
  have hr : MonthFromTime t % 12 = MonthFromTime t := by omega
  have hday := day_eq_civil t
  unfold MakeDay
  rw [hq, hr, add_zero]
  omega

/-- A year has 366 days exactly when it is a leap year of the Gregorian calendar. -/
theorem daysInYear_leap (y : Int) :
    DaysInYear y = 366 ↔ (y % 4 = 0 ∧ y % 100 ≠ 0) ∨ y % 400 = 0 := by
  unfold DaysInYear
  split_ifs <;> omega

/-- Day `d` of the month before month `m` of year `y`, for `m` in 0..11, lies as
many days before day `d` of month `m` as the month before has days. -/
theorem makeDay_month_back (y m d : Int) (hm : 0 ≤ m ∧ m ≤ 11) :
    MakeDay y (m - 1) d
      = DayFromYear y + daysBeforeMonth m (if DaysInYear y = 366 then 1 else 0) + d - 1
        - daysInMonthsBefore y m 1 := by
  have hs := dayFromYear_succ (y + -1)
  rw [show y + -1 + 1 = y by omega] at hs
  have hc := daysInYear_cases (y + -1)
  have hl := daysInYear_leap y
  obtain ⟨h0, h11⟩ := hm
  interval_cases m
  all_goals
    unfold MakeDay daysBeforeMonth daysInMonthsBefore daysInMonthsBefore daysInMonth
    norm_num
    (try split_ifs) <;> omega

/-- Day `d` of the month three months before month `m` of year `y`, for `m` in
0..11, lies as many days before day `d` of month `m` as the three months before
have days. -/
theorem makeDay_quarter_back (y m d : Int) (hm : 0 ≤ m ∧ m ≤ 11) :
    MakeDay y (m - 3) d
      = DayFromYear y + daysBeforeMonth m (if DaysInYear y = 366 then 1 else 0) + d - 1
        - daysInMonthsBefore y m 3 := by
  have hs := dayFromYear_succ (y + -1)
  rw [show y + -1 + 1 = y by omega] at hs
  have hc := daysInYear_cases (y + -1)
  have hl := daysInYear_leap y
  have hl2 := daysInYear_leap (y + -1)
  obtain ⟨h0, h11⟩ := hm
  interval_cases m
  all_goals
    unfold MakeDay daysBeforeMonth
    simp only [daysInMonthsBefore, daysInMonth]
    norm_num
    (try split_ifs) <;> omega

/-- The month of day `d` of a year is the one between whose first day and the first
day of the next month `d` lies. -/
theorem monthOfDay_cases (d leap : Int) :
    (d < 31 ∧ monthOfDay d leap = 0) ∨
    (31 ≤ d ∧ d < 59 + leap ∧ monthOfDay d leap = 1) ∨
    (59 + leap ≤ d ∧ d < 90 + leap ∧ monthOfDay d leap = 2) ∨
    (90 + leap ≤ d ∧ d < 120 + leap ∧ monthOfDay d leap = 3) ∨
    (120 + leap ≤ d ∧ d < 151 + leap ∧ monthOfDay d leap = 4) ∨
    (151 + leap ≤ d ∧ d < 181 + leap ∧ monthOfDay d leap = 5) ∨
    (181 + leap ≤ d ∧ d < 212 + leap ∧ monthOfDay d leap = 6) ∨
    (212 + leap ≤ d ∧ d < 243 + leap ∧ monthOfDay d leap = 7) ∨
    (243 + leap ≤ d ∧ d < 273 + leap ∧ monthOfDay d leap = 8) ∨
    (273 + leap ≤ d ∧ d < 304 + leap ∧ monthOfDay d leap = 9) ∨
    (304 + leap ≤ d ∧ d < 334 + leap ∧ monthOfDay d leap = 10) ∨
    (334 + leap ≤ d ∧ monthOfDay d leap = 11) := by
  unfold monthOfDay
  by_cases h0 : d < 31
  · rw [if_pos h0]
    exact Or.inl ⟨h0, rfl⟩
  rw [if_neg h0]
  by_cases h1 : d < 59 + leap
  · rw [if_pos h1]
    exact Or.inr (Or.inl ⟨by omega, h1, rfl⟩)
  rw [if_neg h1]
  by_cases h2 : d < 90 + leap
  · rw [if_pos h2]
    exact Or.inr (Or.inr (Or.inl ⟨by omega, h2, rfl⟩))
  rw [if_neg h2]
  by_cases h3 : d < 120 + leap
  · rw [if_pos h3]
    exact Or.inr (Or.inr (Or.inr (Or.inl ⟨by omega, h3, rfl⟩)))
  rw [if_neg h3]
  by_cases h4 : d < 151 + leap
  · rw [if_pos h4]
    exact Or.inr (Or.inr (Or.inr (Or.inr (Or.inl ⟨by omega, h4, rfl⟩))))
  rw [if_neg h4]
  by_cases h5 : d < 181 + leap
  · rw [if_pos h5]
    exact Or.inr (Or.inr (Or.inr (Or.inr (Or.inr (Or.inl ⟨by omega, h5, rfl⟩)))))
  rw [if_neg h5]
  by_cases h6 : d < 212 + leap
  · rw [if_pos h6]
    exact Or.inr (Or.inr (Or.inr (Or.inr (Or.inr (Or.inr (Or.inl ⟨by omega, h6, rfl⟩))))))
  rw [if_neg h6]
  by_cases h7 : d < 243 + leap
  · rw [if_pos h7]
    exact Or.inr (Or.inr (Or.inr (Or.inr (Or.inr (Or.inr (Or.inr (Or.inl ⟨by omega, h7, rfl⟩)))))))
  rw [if_neg h7]
  by_cases h8 : d < 273 + leap
  · rw [if_pos h8]
    exact Or.inr (Or.inr (Or.inr (Or.inr (Or.inr (Or.inr (Or.inr (Or.inr (Or.inl ⟨by omega, h8, rfl⟩))))))))
  rw [if_neg h8]
  by_cases h9 : d < 304 + leap
  · rw [if_pos h9]
    exact Or.inr (Or.inr (Or.inr (Or.inr (Or.inr (Or.inr (Or.inr (Or.inr (Or.inr (Or.inl ⟨by omega, h9, rfl⟩)))))))))
  rw [if_neg h9]
  by_cases h10 : d < 334 + leap
  · rw [if_pos h10]
    exact Or.inr (Or.inr (Or.inr (Or.inr (Or.inr (Or.inr (Or.inr (Or.inr (Or.inr (Or.inr (Or.inl ⟨by omega, h10, rfl⟩))))))))))
  rw [if_neg h10]
  exact Or.inr (Or.inr (Or.inr (Or.inr (Or.inr (Or.inr (Or.inr (Or.inr (Or.inr (Or.inr (Or.inr (⟨by omega, rfl⟩)))))))))))

/-- The days of the months of a year before month `m`, for `m` in 0..11, add up to
the number of days before month `m`. -/
theorem daysInMonthsBefore_year (y m : Int) (hm : 0 ≤ m ∧ m ≤ 11) :
    daysInMonthsBefore y m m.toNat
      = daysBeforeMonth m (if DaysInYear y = 366 then 1 else 0) := by
  have hl := daysInYear_leap y
  have step : ∀ (k : Int) (n : Nat), k ≠ 0 →
      daysInMonthsBefore y k (n + 1) = daysInMonth y (k - 1) + daysInMonthsBefore y (k - 1) n := by
    intro k n hk
    rw [daysInMonthsBefore, if_neg hk]
  have g0 : daysInMonthsBefore y 0 0 = 0 := rfl
  have d0 : daysInMonth y 0 = 31 := by
    unfold daysInMonth
    norm_num
  have g1 : daysInMonthsBefore y 1 1 = 31 := by
    have e := step 1 0 (by norm_num)
    rw [show (1 : Int) - 1 = 0 by norm_num] at e
    rw [e, g0, d0]
    norm_num
  have d1 : daysInMonth y 1 = (if DaysInYear y = 366 then 29 else 28) := by
    unfold daysInMonth
    by_cases hy : DaysInYear y = 366
    · rw [if_pos rfl, if_pos (hl.mp hy), if_pos hy]
    · rw [if_pos rfl, if_neg (fun e => hy (hl.mpr e)), if_neg hy]
  have g2 : daysInMonthsBefore y 2 2 = 59 + (if DaysInYear y = 366 then 1 else 0) := by
    have e := step 2 1 (by norm_num)
    rw [show (2 : Int) - 1 = 1 by norm_num] at e
    rw [e, g1, d1]
    split_ifs <;> omega
  have d2 : daysInMonth y 2 = 31 := by
    unfold daysInMonth
    norm_num
  have g3 : daysInMonthsBefore y 3 3 = 90 + (if DaysInYear y = 366 then 1 else 0) := by
    have e := step 3 2 (by norm_num)
    rw [show (3 : Int) - 1 = 2 by norm_num] at e
    rw [e, g2, d2]
    split_ifs <;> omega
  have d3 : daysInMonth y 3 = 30 := by
    unfold daysInMonth
    norm_num
  have g4 : daysInMonthsBefore y 4 4 = 120 + (if DaysInYear y = 366 then 1 else 0) := by
    have e := step 4 3 (by norm_num)
    rw [show (4 : Int) - 1 = 3 by norm_num] at e
    rw [e, g3, d3]
    split_ifs <;> omega
  have d4 : daysInMonth y 4 = 31 := by
    unfold daysInMonth
    norm_num
  have g5 : daysInMonthsBefore y 5 5 = 151 + (if DaysInYear y = 366 then 1 else 0) := by
    have e := step 5 4 (by norm_num)
    rw [show (5 : Int) - 1 = 4 by norm_num] at e
    rw [e, g4, d4]
    split_ifs <;> omega
  have d5 : daysInMonth y 5 = 30 := by
    unfold daysInMonth
    norm_num
  have g6 : daysInMonthsBefore y 6 6 = 181 + (if DaysInYear y = 366 then 1 else 0) := by
    have e := step 6 5 (by norm_num)
    rw [show (6 : Int) - 1 = 5 by norm_num] at e
    rw [e, g5, d5]
    split_ifs <;> omega
  have d6 : daysInMonth y 6 = 31 := by
    unfold daysInMonth
    norm_num
  have g7 : daysInMonthsBefore y 7 7 = 212 + (if DaysInYear y = 366 then 1 else 0) := by
    have e := step 7 6 (by norm_num)
    rw [show (7 : Int) - 1 = 6 by norm_num] at e
    rw [e, g6, d6]
    split_ifs <;> omega
  have d7 : daysInMonth y 7 = 31 := by
    unfold daysInMonth
    norm_num
  have g8 : daysInMonthsBefore y 8 8 = 243 + (if DaysInYear y = 366 then 1 else 0) := by
    have e := step 8 7 (by norm_num)
    rw [show (8 : Int) - 1 = 7 by norm_num] at e
    rw [e, g7, d7]
    split_ifs <;> omega
  have d8 : daysInMonth y 8 = 30 := by
    unfold daysInMonth
    norm_num
  have g9 : daysInMonthsBefore y 9 9 = 273 + (if DaysInYear y = 366 then 1 else 0) := by
    have e := step 9 8 (by norm_num)
    rw [show (9 : Int) - 1 = 8 by norm_num] at e
    rw [e, g8, d8]
    split_ifs <;> omega
  have d9 : daysInMonth y 9 = 31 := by
    unfold daysInMonth
    norm_num
  have g10 : daysInMonthsBefore y 10 10 = 304 + (if DaysInYear y = 366 then 1 else 0) := by
    have e := step 10 9 (by norm_num)
    rw [show (10 : Int) - 1 = 9 by norm_num] at e
    rw [e, g9, d9]
    split_ifs <;> omega
  have d10 : daysInMonth y 10 = 30 := by
    unfold daysInMonth
    norm_num
  have g11 : daysInMonthsBefore y 11 11 = 334 + (if DaysInYear y = 366 then 1 else 0) := by
    have e := step 11 10 (by norm_num)
    rw [show (11 : Int) - 1 = 10 by norm_num] at e
    rw [e, g10, d10]
    split_ifs <;> omega
  obtain ⟨h0, h11⟩ := hm
  interval_cases m
  · show daysInMonthsBefore y 0 0 = _
    rw [g0]
    unfold daysBeforeMonth
    norm_num
  · show daysInMonthsBefore y 1 1 = _
    rw [g1]
    unfold daysBeforeMonth
    norm_num
  · show daysInMonthsBefore y 2 2 = _
    rw [g2]
    unfold daysBeforeMonth
    norm_num
  · show daysInMonthsBefore y 3 3 = _
    rw [g3]
    unfold daysBeforeMonth
    norm_num
  · show daysInMonthsBefore y 4 4 = _
    rw [g4]
    unfold daysBeforeMonth
    norm_num
  · show daysInMonthsBefore y 5 5 = _
    rw [g5]
    unfold daysBeforeMonth
    norm_num
  · show daysInMonthsBefore y 6 6 = _
    rw [g6]
    unfold daysBeforeMonth
    norm_num
  · show daysInMonthsBefore y 7 7 = _
    rw [g7]
    unfold daysBeforeMonth
    norm_num
  · show daysInMonthsBefore y 8 8 = _
    rw [g8]
    unfold daysBeforeMonth
    norm_num
  · show daysInMonthsBefore y 9 9 = _
    rw [g9]
    unfold daysBeforeMonth
    norm_num
  · show daysInMonthsBefore y 10 10 = _
    rw [g10]
    unfold daysBeforeMonth
    norm_num
  · show daysInMonthsBefore y 11 11 = _
    rw [g11]
    unfold daysBeforeMonth
    norm_num

/-- The year, month and day of the month of a time value are its date in the
Gregorian calendar: the month is one of the twelve, the day is a day of that month,
and the day number is the first day of the year plus the days of the months before
plus the day of the month less one. -/
theorem civil_date_spec (t : Int) :
    0 ≤ MonthFromTime t ∧ MonthFromTime t ≤ 11 ∧
    1 ≤ DateFromTime t ∧
    DateFromTime t ≤ daysInMonth (YearFromTime t) (MonthFromTime t) ∧
    Day t = DayFromYear (YearFromTime t)
      + daysInMonthsBefore (YearFromTime t) (MonthFromTime t) (MonthFromTime t).toNat
      + DateFromTime t - 1 := by
  have hM := monthFromTime_range t
  have hy := yearFromTime_spec t
  have hs := dayFromYear_succ (YearFromTime t)
  have hc := daysInYear_cases (YearFromTime t)
  have hl := daysInYear_leap (YearFromTime t)
  have hsum := daysInMonthsBefore_year (YearFromTime t) (MonthFromTime t) hM
  have hday := day_eq_civil t
  refine ⟨hM.1, hM.2, ?_, ?_, by rw [hsum]; exact hday⟩
  all_goals
    have hm : MonthFromTime t = monthOfDay (DayWithinYear t) (InLeapYear t) := rfl
    have hd : DayWithinYear t = Day t - DayFromYear (YearFromTime t) := rfl
    have hleap : InLeapYear t = if DaysInYear (YearFromTime t) = 366 then 1 else 0 := rfl
    have hcases := monthOfDay_cases (DayWithinYear t) (InLeapYear t)
    unfold DateFromTime
    rw [← hm] at hcases
    generalize MonthFromTime t = m at hcases ⊢
    generalize DayWithinYear t = d at hcases hd ⊢
    generalize InLeapYear t = leap at hcases hleap ⊢
    rcases hcases with ⟨_, rfl⟩ | ⟨_, _, rfl⟩ | ⟨_, _, rfl⟩ | ⟨_, _, rfl⟩ | ⟨_, _, rfl⟩ |
      ⟨_, _, rfl⟩ | ⟨_, _, rfl⟩ | ⟨_, _, rfl⟩ | ⟨_, _, rfl⟩ | ⟨_, _, rfl⟩ | ⟨_, _, rfl⟩ |
      ⟨_, rfl⟩
    all_goals
      unfold daysBeforeMonth
      try unfold daysInMonth
      norm_num
      (try split_ifs at hleap ⊢) <;> omega

/-- Rebuilding a wall-clock reading from its day number moved back `L` days and its
time within the day gives the instant at which the wall clock shows the reading of
`L` days earlier. -/
theorem utc_makeDate_back (h : Host) (now L : Int) :
    UTC h (MakeDate (Day (LocalTime h now) - L) (TimeWithinDay (LocalTime h now)))
      = now - L * 86400000
        + (h.localTZA now true
          - h.localTZA (now + h.localTZA now true - L * 86400000) false) := by
  have e : MakeDate (Day (LocalTime h now) - L) (TimeWithinDay (LocalTime h now))
      = now + h.localTZA now true - L * 86400000 := by
    simp only [MakeDate, Day, TimeWithinDay, LocalTime, msPerDay]
    have := Int.ediv_add_emod (now + h.localTZA now true) 86400000
    linarith
  rw [e]
  simp only [UTC]
  ring

theorem timeClip_in_range (t : Int) (hlo : -8640000000000000 ≤ t) (hhi : t ≤ 8640000000000000) :
    TimeClip t = some t := by
  unfold TimeClip
  rw [if_neg (by omega)]

theorem dateAtLeast_some (created_at : Option Int) (cutoff : Int) :
    dateAtLeast created_at (some cutoff) = true ↔ ∃ c, created_at = some c ∧ cutoff ≤ c := by
  cases created_at <;> simp [dateAtLeast]

/-! ## Theorems: filter and sort engine -/

theorem insertE_perm {α : Type} (cmp : α → α → Except JSError (Option Int)) (a : α) :
    ∀ (l out : List α), insertE cmp a l = .ok out → out.Perm (a :: l)
  | [], out, h => by
    simp only [insertE, Except.ok.injEq] at h
    subst h
    exact List.Perm.refl _
  | b :: l, out, h => by
    simp only [insertE] at h
    cases hc : cmp a b with
    | error e => simp [hc] at h
    | ok v =>
      simp only [hc] at h
      by_cases hp : isPositive v = true
      · simp only [hp, if_true] at h
        cases hi : insertE cmp a l with
        | error e => simp [hi] at h
        | ok rest =>
          simp only [hi, Except.ok.injEq] at h
          subst h
          exact ((insertE_perm cmp a l rest hi).cons b).trans (List.Perm.swap a b l)
      · rw [if_neg hp] at h
        simp only [Except.ok.injEq] at h
        subst h
        exact List.Perm.refl _

theorem sortE_perm {α : Type} (cmp : α → α → Except JSError (Option Int)) :
    ∀ (l out : List α), sortE cmp l = .ok out → out.Perm l
  | [], out, h => by
    simp only [sortE, Except.ok.injEq] at h
    subst h
    exact List.Perm.refl _
  | a :: l, out, h => by
    simp only [sortE] at h
    cases hs : sortE cmp l with
    | error e => simp [hs] at h
    | ok sorted =>
      simp only [hs] at h
      exact (insertE_perm cmp a sorted out h).trans ((sortE_perm cmp l sorted hs).cons a)

theorem insertE_ok {α : Type} (cmp : α → α → Except JSError (Option Int)) (a : α) :
    ∀ (l : List α), (∀ b ∈ l, ∃ v, cmp a b = .ok v) → ∃ out, insertE cmp a l = .ok out
  | [], _ => ⟨[a], rfl⟩
  | b :: l, h => by
    obtain ⟨v, hv⟩ := h b (List.mem_cons_self b l)
    obtain ⟨rest, hrest⟩ := insertE_ok cmp a l (fun c hc => h c (List.mem_cons_of_mem b hc))
    simp only [insertE, hv, hrest]
    split_ifs
    · exact ⟨_, rfl⟩
    · exact ⟨_, rfl⟩

/-- The sort returns when the comparator does not throw on the elements of the list. -/
theorem sortE_ok {α : Type} (cmp : α → α → Except JSError (Option Int)) :
    ∀ (l : List α), (∀ a ∈ l, ∀ b ∈ l, ∃ v, cmp a b = .ok v) → ∃ out, sortE cmp l = .ok out
  | [], _ => ⟨[], rfl⟩
  | a :: l, h => by
    obtain ⟨sorted, hs⟩ := sortE_ok cmp l
      (fun x hx y hy => h x (List.mem_cons_of_mem a hx) y (List.mem_cons_of_mem a hy))
    have hmem : ∀ b ∈ sorted, ∃ v, cmp a b = .ok v := fun b hb =>
      h a (List.mem_cons_self a l) b
        (List.mem_cons_of_mem a ((sortE_perm cmp l sorted hs).mem_iff.mp hb))
    obtain ⟨out, ho⟩ := insertE_ok cmp a sorted hmem
    exact ⟨out, by simp only [sortE, hs, ho]⟩

/-- The comparator throws only for the sort key `name` on a record without the
counterpart name as its first argument. -/
theorem compareItems_ok (h : Host) (role sortBy : String) (a b : FeedbackItem)
    (hname : sortBy = "name" → (counterpartName role a).isSome = true) :
    ∃ v, compareItems h role sortBy a b = .ok v := by
  unfold compareItems
  split
  · exact ⟨_, rfl⟩
  · exact ⟨_, rfl⟩
  · exact ⟨_, rfl⟩
  · cases hc : counterpartName role a with
    | none => simp [hc] at hname
    | some nameA => exact ⟨_, rfl⟩
  · exact ⟨_, rfl⟩

/-- With an empty search term and all facets `all` the filtering stages keep every record. -/
theorem applyFilters_initial (h : Host) (now : Int) (role : String)
    (feedback : List FeedbackItem) :
    applyFilters h now role "" Filters.initial feedback = .ok feedback := by
  simp [applyFilters, searchFilter, strTruthy, tagsFilter, dateFilter, acknowledgedFilter,
    sentimentFilter, Filters.initial]

/-- Identity filter law where the sort returns: with an empty search term, all
facets `all` and no tag selected, for a sort key other than `name`, or with the
counterpart name present in every record, the engine returns a permutation of its
input. -/
theorem identity_filter_perm (h : Host) (now : Int) (role sortBy : String)
    (feedback : List FeedbackItem)
    (hname : sortBy = "name" → ∀ item ∈ feedback, (counterpartName role item).isSome = true) :
    ∃ out, filteredFeedback h now role "" Filters.initial sortBy feedback = .ok out ∧
      out.Perm feedback := by
  obtain ⟨out, ho⟩ := sortE_ok (compareItems h role sortBy) feedback
    (fun a ha b _ => compareItems_ok h role sortBy a b (fun e => hname e a ha))
  exact ⟨out, by simp only [filteredFeedback, applyFilters_initial, ho],
    sortE_perm _ _ _ ho⟩

/-- C6 (code defect): with an empty search term, all facets `all`, no tag selected,
a manager viewer and the sort key `name`, two records without `employee_name` make
the engine throw a `TypeError` instead of returning the two records. -/
theorem identity_filter_name_sort_throws (h : Host) (now : Int) :
    filteredFeedback h now "manager" "" Filters.initial "name" [sampleItem 1, sampleItem 2]
      = .error (.typeError "Cannot read properties of undefined (reading localeCompare)") := by
  rfl

/-- C7: with a sentiment facet `f` other than `all`, the other facets `all` and an
empty search term, the engine returns exactly the input records whose sentiment
equals `f` (a record without sentiment is not among them), in some order. The sort
key is free; for the key `name` the kept records are to carry the counterpart name,
without which the comparator throws. -/
theorem sentiment_facet_exact (h : Host) (now : Int) (role sortBy f : String)
    (feedback : List FeedbackItem) (hf : f ≠ "all")
    (hname : sortBy = "name" → ∀ item ∈ feedback, item.sentiment = some f →
      (counterpartName role item).isSome = true) :
    ∃ out, filteredFeedback h now role "" { Filters.initial with sentiment := f } sortBy
        feedback = .ok out ∧
      out.Perm (feedback.filter (fun item => decide (item.sentiment = some f))) := by
  have hfilt : applyFilters h now role "" { Filters.initial with sentiment := f } feedback
      = .ok (feedback.filter (fun item => decide (item.sentiment = some f))) := by
    have hpred : sentimentMatches f = fun item => decide (item.sentiment = some f) := by
      funext item
      by_cases hi : item.sentiment = some f <;> simp [sentimentMatches, hi]
    simp only [applyFilters, searchFilter, strTruthy, tagsFilter, dateFilter,
      acknowledgedFilter, sentimentFilter, Filters.initial, hpred]
    simp [hf]
  obtain ⟨out, ho⟩ := sortE_ok (compareItems h role sortBy)
    (feedback.filter (fun item => decide (item.sentiment = some f)))
    (fun a ha b _ => compareItems_ok h role sortBy a b (fun e => by
      simp only [List.mem_filter, decide_eq_true_eq] at ha
      exact hname e a ha.1 ha.2))
  exact ⟨out, by simp only [filteredFeedback, hfilt, ho], sortE_perm _ _ _ ho⟩

/-- Records with sentiments positive, neutral and negative filtered by `negative`:
the engine returns exactly the one negative record. -/
theorem sentiment_facet_exact_witness :
    (∃ out, filteredFeedback asciiHost 5000 "manager" ""
        { Filters.initial with sentiment := "negative" } "date_desc" threeSentiments = .ok out ∧
      out.Perm (threeSentiments.filter (fun item => decide (item.sentiment = some "negative")))) ∧
    filteredFeedback asciiHost 5000 "manager" ""
        { Filters.initial with sentiment := "negative" } "date_desc" threeSentiments
      = .ok [{ sampleItem 3 with sentiment := some "negative", created_at := some 1000 }] :=
  ⟨sentiment_facet_exact asciiHost 5000 "manager" "date_desc" "negative" threeSentiments
    (by decide) (by intro e; exact absurd e (by decide)), by decide⟩

theorem jsIncludes_iff (hay needle : String) :
    jsIncludes hay needle = true ↔ needle.data <:+: hay.data := by
  simp only [jsIncludes, List.any_eq_true, List.mem_tails, List.isPrefixOf_iff_prefix,
    List.infix_iff_prefix_suffix]
  constructor
  · rintro ⟨t, ht, hp⟩
    exact ⟨t, hp, ht⟩
  · rintro ⟨t, hp, ht⟩
    exact ⟨t, ht, hp⟩

theorem fieldIncludes_iff (h : Host) (field : Option String) (searchTerm : String) :
    fieldIncludes h field searchTerm = true ↔
      ∃ s, field = some s ∧ (h.toLowerCase searchTerm).data <:+: (h.toLowerCase s).data := by
  cases field with
  | none => simp [fieldIncludes]
  | some s => simp [fieldIncludes, jsIncludes_iff]

/-- On an array of string tags the callback of `some` never throws, and `some`
returns true exactly when a tag contains the term. -/
theorem someE_tagIncludes (h : Host) (searchTerm : String) :
    ∀ tags : List Tag, (∀ t ∈ tags, ∃ s, t = Tag.str s) →
      ∃ b, someE (tagIncludes h searchTerm) tags = .ok b ∧
        (b = true ↔ ∃ s, Tag.str s ∈ tags ∧
          (h.toLowerCase searchTerm).data <:+: (h.toLowerCase s).data)
  | [], _ => ⟨false, rfl, by simp⟩
  | t :: tags, ht => by
    obtain ⟨s, hs⟩ := ht t (List.mem_cons_self t tags)
    obtain ⟨b, hb, hiff⟩ := someE_tagIncludes h searchTerm tags
      (fun u hu => ht u (List.mem_cons_of_mem t hu))
    subst hs
    by_cases hi : jsIncludes (h.toLowerCase s) (h.toLowerCase searchTerm) = true
    · refine ⟨true, by simp [someE, tagIncludes, hi], ?_⟩
      simp only [true_iff]
      exact ⟨s, List.mem_cons_self _ _, (jsIncludes_iff _ _).mp hi⟩
    · have hi2 : jsIncludes (h.toLowerCase s) (h.toLowerCase searchTerm) = false := by
        simpa using hi
      refine ⟨b, by simp [someE, tagIncludes, hi2, hb], ?_⟩
      rw [hiff]
      constructor
      · rintro ⟨u, hu, hinf⟩
        exact ⟨u, List.mem_cons_of_mem _ hu, hinf⟩
      · rintro ⟨u, hu, hinf⟩
        rcases List.mem_cons.mp hu with heq | hmem
        · cases heq
          exact absurd ((jsIncludes_iff _ _).mpr hinf) hi
        · exact ⟨u, hmem, hinf⟩

/-- The counterpart name of the viewer is `employee_name` for a manager and
`manager_name` for any other viewer. -/
theorem counterpartName_hit_iff (role : String) (item : FeedbackItem) (P : String → Prop) :
    (∃ s, counterpartName role item = some s ∧ P s) ↔
      (role = "manager" ∧ ∃ s, item.employee_name = some s ∧ P s) ∨
      (role ≠ "manager" ∧ ∃ s, item.manager_name = some s ∧ P s) := by
  unfold counterpartName
  by_cases hr : role = "manager"
  · simp [hr]
  · simp [hr]

/-- On a record whose tags are strings the search callback returns, and returns
true exactly when one of the four fields it reads contains the term. -/
theorem matchesSearch_fields (h : Host) (role searchTerm : String) (item : FeedbackItem)
    (htags : ∀ tags, item.tags = some tags → ∀ t ∈ tags, ∃ s, t = Tag.str s) :
    ∃ b, matchesSearch h role searchTerm item = .ok b ∧
      (b = true ↔
        (∃ s, item.strengths = some s ∧
          (h.toLowerCase searchTerm).data <:+: (h.toLowerCase s).data) ∨
        (∃ s, item.areas_to_improve = some s ∧
          (h.toLowerCase searchTerm).data <:+: (h.toLowerCase s).data) ∨
        (∃ s, counterpartName role item = some s ∧
          (h.toLowerCase searchTerm).data <:+: (h.toLowerCase s).data) ∨
        (∃ tags s, item.tags = some tags ∧ Tag.str s ∈ tags ∧
          (h.toLowerCase searchTerm).data <:+: (h.toLowerCase s).data)) := by
  unfold matchesSearch
  by_cases h1 : fieldIncludes h item.strengths searchTerm = true
  · exact ⟨true, by simp [h1], by simpa using Or.inl ((fieldIncludes_iff _ _ _).mp h1)⟩
  by_cases h2 : fieldIncludes h item.areas_to_improve searchTerm = true
  · exact ⟨true, by simp [h1, h2],
      by simpa using Or.inr (Or.inl ((fieldIncludes_iff _ _ _).mp h2))⟩
  by_cases h3 : fieldIncludes h (counterpartName role item) searchTerm = true
  · exact ⟨true, by simp [h1, h2, h3],
      by simpa using Or.inr (Or.inr (Or.inl ((fieldIncludes_iff _ _ _).mp h3)))⟩
  have n1 := fun e => h1 ((fieldIncludes_iff h item.strengths searchTerm).mpr e)
  have n2 := fun e => h2 ((fieldIncludes_iff h item.areas_to_improve searchTerm).mpr e)
  have n3 := fun e => h3 ((fieldIncludes_iff h (counterpartName role item) searchTerm).mpr e)
  cases htg : item.tags with
  | none =>
    refine ⟨false, by simp [h1, h2, h3], ?_⟩
    simp only [Bool.false_eq_true, false_iff]
    rintro (e | e | e | ⟨tags, s, e, _⟩)
    · exact n1 e
    · exact n2 e
    · exact n3 e
    · simp at e
  | some tags =>
    obtain ⟨b, hb, hiff⟩ := someE_tagIncludes h searchTerm tags (htags tags htg)
    refine ⟨b, by simp [h1, h2, h3, hb], ?_⟩
    rw [hiff]
    constructor
    · rintro ⟨s, hs, hinf⟩
      exact Or.inr (Or.inr (Or.inr ⟨tags, s, rfl, hs, hinf⟩))
    · rintro (e | e | e | ⟨tags2, s, e, hs, hinf⟩)
      · exact absurd e n1
      · exact absurd e n2
      · exact absurd e n3
      · cases e
        exact ⟨s, hs, hinf⟩

/-- On a record whose tags are strings the search callback returns, and returns
true exactly when the record is a hit in the words of the specification. -/
theorem matchesSearch_spec (h : Host) (role searchTerm : String) (item : FeedbackItem)
    (htags : ∀ tags, item.tags = some tags → ∀ t ∈ tags, ∃ s, t = Tag.str s) :
    ∃ b, matchesSearch h role searchTerm item = .ok b ∧
      (b = true ↔ SearchHit h role searchTerm item) := by
  obtain ⟨b, hb, hiff⟩ := matchesSearch_fields h role searchTerm item htags
  refine ⟨b, hb, ?_⟩
  rw [hiff, counterpartName_hit_iff]
  unfold SearchHit
  simp only [or_assoc]

/-- A filter whose callback returns on every element keeps the elements on which
it returns true. -/
theorem filterE_spec {α : Type} (p : α → Except JSError Bool) (P : α → Prop) :
    ∀ l : List α, (∀ a ∈ l, ∃ b, p a = .ok b ∧ (b = true ↔ P a)) →
      ∃ out, filterE p l = .ok out ∧ ∀ a, a ∈ out ↔ a ∈ l ∧ P a
  | [], _ => ⟨[], rfl, by simp⟩
  | x :: l, hx => by
    obtain ⟨b, hb, hiff⟩ := hx x (List.mem_cons_self x l)
    obtain ⟨rest, hrest, hmem⟩ := filterE_spec p P l
      (fun a ha => hx a (List.mem_cons_of_mem x ha))
    refine ⟨if b then x :: rest else rest, by simp [filterE, hb, hrest], ?_⟩
    intro a
    cases b with
    | false =>
      have hnP : ¬ P x := fun hP => by simpa using hiff.mpr hP
      simp only [Bool.false_eq_true, if_false, hmem, List.mem_cons]
      constructor
      · rintro ⟨ha, hP⟩
        exact ⟨Or.inr ha, hP⟩
      · rintro ⟨ha | ha, hP⟩
        · exact absurd (ha ▸ hP) hnP
        · exact ⟨ha, hP⟩
    | true =>
      have hPx : P x := hiff.mp rfl
      simp only [if_true, List.mem_cons, hmem]
      constructor
      · rintro (ha | ⟨ha, hP⟩)
        · exact ⟨Or.inl ha, ha ▸ hPx⟩
        · exact ⟨Or.inr ha, hP⟩
      · rintro ⟨ha | ha, hP⟩
        · exact Or.inl ha
        · exact Or.inr ⟨ha, hP⟩

/-- C8: for a non-empty search term and any viewer role, on records whose tags are
strings (the labels the list view renders), the search stage returns, and a record
passes it exactly when the lower-cased term is a substring of the lower-cased
strengths, or of the areas to improve, or of the counterpart name of the viewer
(`employee_name` for a manager, `manager_name` otherwise), or of some tag label. -/
theorem search_passes_iff (h : Host) (role searchTerm : String) (feedback : List FeedbackItem)
    (hterm : searchTerm ≠ "")
    (htags : ∀ item ∈ feedback, ∀ tags, item.tags = some tags → ∀ t ∈ tags, ∃ s, t = Tag.str s) :
    ∃ out, searchFilter h role searchTerm feedback = .ok out ∧
      ∀ item, item ∈ out ↔ item ∈ feedback ∧
        ((∃ s, item.strengths = some s ∧
          (h.toLowerCase searchTerm).data <:+: (h.toLowerCase s).data) ∨
        (∃ s, item.areas_to_improve = some s ∧
          (h.toLowerCase searchTerm).data <:+: (h.toLowerCase s).data) ∨
        (role = "manager" ∧ ∃ s, item.employee_name = some s ∧
          (h.toLowerCase searchTerm).data <:+: (h.toLowerCase s).data) ∨
        (role ≠ "manager" ∧ ∃ s, item.manager_name = some s ∧
          (h.toLowerCase searchTerm).data <:+: (h.toLowerCase s).data) ∨
        (∃ tags s, item.tags = some tags ∧ Tag.str s ∈ tags ∧
          (h.toLowerCase searchTerm).data <:+: (h.toLowerCase s).data)) := by
  have htruthy : strTruthy searchTerm = true := by
    cases hd : searchTerm.data with
    | nil => exact absurd (String.ext hd) hterm
    | cons c cs => simp [strTruthy, hd]
  simp only [searchFilter, htruthy, if_true]
  exact filterE_spec _ (SearchHit h role searchTerm) feedback
    (fun item hi => matchesSearch_spec h role searchTerm item (htags item hi))

/-- A record whose only matching field is a tag labeled "Leadership" passes the
search for "leadership". A record whose only texts are the names passes the search
for the name of the employee for a manager and not for an employee, and the search
for the name of the manager for an employee and not for a manager. -/
theorem search_passes_iff_witness :
    searchFilter asciiHost "employee" "leadership" [leadershipItem, nameOnlyItem]
      = .ok [leadershipItem] ∧
    searchFilter asciiHost "manager" "leah" [leadershipItem, nameOnlyItem]
      = .ok [nameOnlyItem] ∧
    searchFilter asciiHost "employee" "leah" [leadershipItem, nameOnlyItem] = .ok [] ∧
    searchFilter asciiHost "employee" "omar" [leadershipItem, nameOnlyItem]
      = .ok [nameOnlyItem] ∧
    searchFilter asciiHost "manager" "omar" [leadershipItem, nameOnlyItem] = .ok [] ∧
    ∃ out, searchFilter asciiHost "manager" "leah" [leadershipItem, nameOnlyItem] = .ok out ∧
      ∀ item, item ∈ out ↔ item ∈ [leadershipItem, nameOnlyItem] ∧
        ((∃ s, item.strengths = some s ∧
          (asciiHost.toLowerCase "leah").data <:+: (asciiHost.toLowerCase s).data) ∨
        (∃ s, item.areas_to_improve = some s ∧
          (asciiHost.toLowerCase "leah").data <:+: (asciiHost.toLowerCase s).data) ∨
        ("manager" = "manager" ∧ ∃ s, item.employee_name = some s ∧
          (asciiHost.toLowerCase "leah").data <:+: (asciiHost.toLowerCase s).data) ∨
        ("manager" ≠ "manager" ∧ ∃ s, item.manager_name = some s ∧
          (asciiHost.toLowerCase "leah").data <:+: (asciiHost.toLowerCase s).data) ∨
        (∃ tags s, item.tags = some tags ∧ Tag.str s ∈ tags ∧
          (asciiHost.toLowerCase "leah").data <:+: (asciiHost.toLowerCase s).data)) :=
  ⟨by decide, by decide, by decide, by decide, by decide,
   search_passes_iff asciiHost "manager" "leah" [leadershipItem, nameOnlyItem]
     (by decide) (by
       intro item hi tags ht t hm
       simp only [List.mem_cons, List.mem_singleton, List.not_mem_nil, or_false] at hi
       rcases hi with rfl | rfl
       · simp only [leadershipItem, sampleItem, Option.some.injEq] at ht
         subst ht
         simp only [List.mem_singleton] at hm
         exact ⟨_, hm⟩
       · simp [nameOnlyItem, sampleItem] at ht)⟩

theorem filterDate_week (h : Host) (now : Int) :
    filterDate h now "week" = TimeClip (now - 7 * 86400000
      + (h.localTZA now true - h.localTZA (now + h.localTZA now true - 7 * 86400000) false)) := by
  simp only [filterDate, setDate, getDate, makeDay_week, utc_makeDate_back]

theorem filterDate_month (h : Host) (now : Int) :
    filterDate h now "month" = TimeClip (now
      - daysInMonthsBefore (YearFromTime (now + h.localTZA now true))
          (MonthFromTime (now + h.localTZA now true)) 1 * 86400000
      + (h.localTZA now true - h.localTZA (now + h.localTZA now true
          - daysInMonthsBefore (YearFromTime (now + h.localTZA now true))
              (MonthFromTime (now + h.localTZA now true)) 1 * 86400000) false)) := by
  have hL := makeDay_month_back (YearFromTime (LocalTime h now))
    (MonthFromTime (LocalTime h now)) (DateFromTime (LocalTime h now))
    (monthFromTime_range _)
  rw [← day_eq_civil] at hL
  simp only [filterDate, setMonth, getMonth, hL, utc_makeDate_back]
  simp only [LocalTime]

theorem filterDate_quarter (h : Host) (now : Int) :
    filterDate h now "quarter" = TimeClip (now
      - daysInMonthsBefore (YearFromTime (now + h.localTZA now true))
          (MonthFromTime (now + h.localTZA now true)) 3 * 86400000
      + (h.localTZA now true - h.localTZA (now + h.localTZA now true
          - daysInMonthsBefore (YearFromTime (now + h.localTZA now true))
              (MonthFromTime (now + h.localTZA now true)) 3 * 86400000) false)) := by
  have hL := makeDay_quarter_back (YearFromTime (LocalTime h now))
    (MonthFromTime (LocalTime h now)) (DateFromTime (LocalTime h now))
    (monthFromTime_range _)
  rw [← day_eq_civil] at hL
  simp only [filterDate, setMonth, getMonth, hL, utc_makeDate_back]
  simp only [LocalTime]

/-- A record passes a cut-off that `TimeClip` accepts exactly when its date is
valid and not before the cut-off; no record passes a cut-off that it rejects. -/
theorem dateAtLeast_timeClip (created_at : Option Int) (cut : Int) :
    dateAtLeast created_at (TimeClip cut) = true ↔
      ∃ c, created_at = some c ∧ cut ≤ c ∧
        -8640000000000000 ≤ cut ∧ cut ≤ 8640000000000000 := by
  unfold TimeClip
  by_cases hr : cut < -8640000000000000 ∨ 8640000000000000 < cut
  · rw [if_pos hr]
    cases created_at with
    | none => simp [dateAtLeast]
    | some c =>
      simp [dateAtLeast]
      omega
  · rw [if_neg hr]
    cases created_at with
    | none => simp [dateAtLeast]
    | some c =>
      simp [dateAtLeast]
      omega

/-- C9 (refuted as stated): on 2024-03-15 at 00:00 UTC a record created on
2024-02-14 at 12:00 UTC is later than now minus 30 days, and the `month` range
excludes it: the cut-off is 2024-02-15 at 00:00, 29 days before now. -/
theorem month_window_is_not_thirty_days :
    februaryItem.created_at = some 1707912000000 ∧
    (1710460800000 : Int) - 30 * msPerDay ≤ 1707912000000 ∧
    filterDate asciiHost 1710460800000 "month" = some (1710460800000 - 29 * msPerDay) ∧
    dateMatches asciiHost 1710460800000 "month" februaryItem = false := by
  decide

/-- C9 (amended): let `lt` be the wall-clock reading at the current instant `now`,
and let `days` be 7 for the range `week`, the number of days of the calendar month
before the month of `lt` for `month`, and of the three calendar months before it for
`quarter`. The cut-off is `now` minus `days` days, plus the change of the offset of
local time between the cut-off and `now`; so it is `now` minus exactly `days` days
when the offset is the same at both ends. A record passes the range exactly when its
`created_at` is a valid date at or after the cut-off and the cut-off is a valid
date. With the range `all` the stage keeps every record. The year, month and day of
the month of `lt` are its date in the Gregorian calendar: the day is a day of the
month, and the day number of `lt` is the first day of the year plus the days of the
months before plus the day of the month less one. -/
theorem date_facet_windows (h : Host) (now lt : Int) (hlt : lt = now + h.localTZA now true) :
    (∀ (dateRange : String) (days cut : Int),
      (dateRange = "week" ∧ days = 7) ∨
      (dateRange = "month" ∧
        days = daysInMonthsBefore (YearFromTime lt) (MonthFromTime lt) 1) ∨
      (dateRange = "quarter" ∧
        days = daysInMonthsBefore (YearFromTime lt) (MonthFromTime lt) 3) →
      cut = now - days * 86400000
        + (h.localTZA now true - h.localTZA (lt - days * 86400000) false) →
      ∀ item, dateMatches h now dateRange item = true ↔
        ∃ c, item.created_at = some c ∧ cut ≤ c ∧
          -8640000000000000 ≤ cut ∧ cut ≤ 8640000000000000) ∧
    (∀ (filters : Filters) (feedback : List FeedbackItem), filters.dateRange = "all" →
      dateFilter h now filters feedback = feedback) ∧
    (0 ≤ MonthFromTime lt ∧ MonthFromTime lt ≤ 11 ∧ 1 ≤ DateFromTime lt ∧
      DateFromTime lt ≤ daysInMonth (YearFromTime lt) (MonthFromTime lt) ∧
      lt / 86400000 = DayFromYear (YearFromTime lt)
        + daysInMonthsBefore (YearFromTime lt) (MonthFromTime lt) (MonthFromTime lt).toNat
        + DateFromTime lt - 1 ∧
      DayFromYear (YearFromTime lt) ≤ lt / 86400000 ∧
      lt / 86400000 < DayFromYear (YearFromTime lt + 1)) := by
  subst hlt
  refine ⟨?_, ?_, ?_⟩
  · intro dateRange days cut hrange hcut item
    subst hcut
    rcases hrange with ⟨hr, hd⟩ | ⟨hr, hd⟩ | ⟨hr, hd⟩
    · subst hr hd
      rw [dateMatches, filterDate_week, dateAtLeast_timeClip]
    · subst hr hd
      rw [dateMatches, filterDate_month, dateAtLeast_timeClip]
    · subst hr hd
      rw [dateMatches, filterDate_quarter, dateAtLeast_timeClip]
  · intro filters feedback hall
    simp [dateFilter, hall]
  · obtain ⟨c1, c2, c3, c4, c5⟩ := civil_date_spec (now + h.localTZA now true)
    exact ⟨c1, c2, c3, c4, c5, yearFromTime_spec _⟩

/-- On 2024-03-15 at 00:00 UTC the `month` cut-off is 29 days back, the length of
February 2024. On 2024-05-31 at 10:00 UTC the `quarter` cut-off is 90 days back, the
length of February, March and April 2024. On 2024-04-03 at 12:00 UTC in a zone that
moved its clocks forward on 2024-03-31 the `week` cut-off is 7 days less one hour
back, and a record created 7 days less half an hour before is excluded. -/
theorem date_facet_windows_witness :
    (∀ item, dateMatches asciiHost 1710460800000 "month" item = true ↔
      ∃ c, item.created_at = some c ∧ 1707955200000 ≤ c ∧
        -8640000000000000 ≤ (1707955200000 : Int) ∧ (1707955200000 : Int) ≤ 8640000000000000) ∧
    (∀ item, dateMatches asciiHost 1717149600000 "quarter" item = true ↔
      ∃ c, item.created_at = some c ∧ 1709373600000 ≤ c ∧
        -8640000000000000 ≤ (1709373600000 : Int) ∧ (1709373600000 : Int) ≤ 8640000000000000) ∧
    (∀ item, dateMatches springForwardHost 1712145600000 "week" item = true ↔
      ∃ c, item.created_at = some c ∧ 1711544400000 ≤ c ∧
        -8640000000000000 ≤ (1711544400000 : Int) ∧ (1711544400000 : Int) ≤ 8640000000000000) ∧
    (1711544400000 : Int) = 1712145600000 - 7 * 86400000 + 3600000 ∧
    YearFromTime 1710460800000 = 2024 ∧ MonthFromTime 1710460800000 = 2 ∧
    DateFromTime 1710460800000 = 15 ∧
    dateMatches springForwardHost 1712145600000 "week"
      { sampleItem 1 with created_at := some 1711542600000 } = false ∧
    (1712145600000 : Int) - 7 * 86400000 ≤ 1711542600000 :=
  ⟨(date_facet_windows asciiHost 1710460800000 1710460800000 (by decide)).1
      "month" 29 1707955200000 (by decide) (by decide),
   (date_facet_windows asciiHost 1717149600000 1717149600000 (by decide)).1
      "quarter" 90 1709373600000 (by decide) (by decide),
   (date_facet_windows springForwardHost 1712145600000 1712152800000 (by decide)).1
      "week" 7 1711544400000 (by decide) (by decide),
   by decide, by decide, by decide, by decide, by decide, by decide⟩

theorem tagsMatch_iff (facet : List Tag) (item : FeedbackItem) :
    tagsMatch facet item = true ↔
      ∃ tags, item.tags = some tags ∧ ∃ t ∈ tags, ∃ u ∈ facet, sameValueZero u t = true := by
  cases ht : item.tags with
  | none => simp [tagsMatch, ht]
  | some tags => simp [tagsMatch, ht, tagsInclude]

/-- On string tags `SameValueZero` is equality. -/
theorem sameValueZero_str (u : Tag) (s : String) :
    sameValueZero u (.str s) = true ↔ u = .str s := by
  cases u <;> simp [sameValueZero]

/-- `SameValueZero` holds of two tags exactly when they are equal strings or the
same object. -/
theorem sameValueZero_iff (u t : Tag) :
    sameValueZero u t = true ↔
      (∃ s, t = .str s ∧ u = .str s) ∨
      (∃ r n l c m k d, t = .obj r n l c ∧ u = .obj r m k d) := by
  cases u with
  | str a =>
    cases t with
    | str b =>
      simp only [sameValueZero, beq_iff_eq]
      constructor
      · rintro rfl
        exact Or.inl ⟨a, rfl, rfl⟩
      · rintro (⟨s, h1, h2⟩ | ⟨r, n, l, c, m, k, d, h1, _⟩)
        · cases h1
          cases h2
          rfl
        · cases h1
    | obj r n l c =>
      simp only [sameValueZero, Bool.false_eq_true, false_iff]
      rintro (⟨s, h1, _⟩ | ⟨_, _, _, _, _, _, _, _, h2⟩)
      · cases h1
      · cases h2
  | obj q m k d =>
    cases t with
    | str b =>
      simp only [sameValueZero, Bool.false_eq_true, false_iff]
      rintro (⟨s, _, h2⟩ | ⟨_, _, _, _, _, _, _, h1, _⟩)
      · cases h2
      · cases h1
    | obj r n l c =>
      simp only [sameValueZero, beq_iff_eq]
      constructor
      · rintro rfl
        exact Or.inr ⟨q, n, l, c, m, k, d, rfl, rfl⟩
      · rintro (⟨s, h1, _⟩ | ⟨r2, n2, l2, c2, m2, k2, d2, h1, h2⟩)
        · cases h1
        · cases h1
          cases h2
          rfl

/-- C10: with a non-empty tag facet, a record passes the tags stage exactly when
it has a `tags` array at least one element of which is a member of the facet: the
two are equal strings, or the same object; so a record with missing or empty tags is
excluded. With an empty tag facet the stage keeps every record. -/
theorem tag_facet_iff (filters : Filters) (feedback : List FeedbackItem) :
    (filters.tags ≠ [] → ∀ item, item ∈ tagsFilter filters feedback ↔
      item ∈ feedback ∧
        ∃ tags, item.tags = some tags ∧
          ∃ t ∈ tags, ∃ u ∈ filters.tags,
            (∃ s, t = .str s ∧ u = .str s) ∨
            (∃ r n l c m k d, t = .obj r n l c ∧ u = .obj r m k d)) ∧
    (filters.tags ≠ [] → ∀ item ∈ tagsFilter filters feedback,
      ∃ tags, item.tags = some tags ∧ tags ≠ []) ∧
    (filters.tags = [] → tagsFilter filters feedback = feedback) := by
  have hmain : filters.tags ≠ [] → ∀ item, item ∈ tagsFilter filters feedback ↔
      item ∈ feedback ∧
        ∃ tags, item.tags = some tags ∧
          ∃ t ∈ tags, ∃ u ∈ filters.tags,
            (∃ s, t = .str s ∧ u = .str s) ∨
            (∃ r n l c m k d, t = .obj r n l c ∧ u = .obj r m k d) := by
    intro hne item
    have hpos : filters.tags.length > 0 := List.length_pos.mpr hne
    simp only [tagsFilter, hpos, if_true, List.mem_filter, tagsMatch_iff, sameValueZero_iff]
  refine ⟨hmain, ?_, ?_⟩
  · intro hne item hi
    obtain ⟨_, tags, ht, t, hmem, _⟩ := (hmain hne item).mp hi
    exact ⟨tags, ht, List.ne_nil_of_mem hmem⟩
  · intro hnil
    simp [tagsFilter, hnil]

/-- With the facet `leadership`, a record tagged `communication` and `leadership`
passes; a record without tags, a record with an empty `tags` array and a record
tagged `teamwork` do not; with no tag selected all four are kept. With a tag object
as the facet, the record holding that object passes and a record holding another
object of the same content does not. -/
theorem tag_facet_iff_witness :
    taggedItem ∈ tagsFilter leadershipFacet tagFacetRecords ∧
    tagsFilter leadershipFacet tagFacetRecords = [taggedItem] ∧
    tagsFilter Filters.initial tagFacetRecords = tagFacetRecords ∧
    tagsFilter objectFacet [wizardTaggedItem, otherTaggedItem] = [wizardTaggedItem] :=
  ⟨((tag_facet_iff leadershipFacet tagFacetRecords).1 (by decide) taggedItem).mpr
      ⟨by decide, [.str "communication", .str "leadership"], rfl, .str "leadership",
        by decide, .str "leadership", by decide, Or.inl ⟨"leadership", rfl, rfl⟩⟩,
   by decide,
   (tag_facet_iff Filters.initial tagFacetRecords).2.2 rfl,
   by decide⟩

/-! ## Theorems: submit, drafts and action items -/

theorem errors_keys_nil (e : Errors) :
    e.keys = [] ↔ e.employee_id = none ∧ e.strengths = none ∧ e.areas_to_improve = none := by
  obtain ⟨a, b, c⟩ := e
  cases a <;> cases b <;> cases c <;> simp [Errors.keys]

theorem validateStep_one_ok (formData : FormData)
    (h : (validateStep formData 1).employee_id = none) :
    strTruthy formData.employee_id = true := by
  by_contra hne
  have hf : strTruthy formData.employee_id = false := by simpa using hne
  simp [validateStep, hf] at h

theorem validateStep_two_strengths_ok (formData : FormData)
    (h : (validateStep formData 2).strengths = none) :
    20 ≤ jsLength formData.strengths ∧ strTruthy (jsTrim formData.strengths) = true := by
  by_cases hlen : jsLength formData.strengths < 20
  · simp only [validateStep, hlen, if_true] at h
    split_ifs at h
  · refine ⟨by omega, ?_⟩
    by_contra hne
    have hf : strTruthy (jsTrim formData.strengths) = false := by simpa using hne
    simp only [validateStep, hf, Bool.not_false, if_true, hlen, if_false] at h
    split_ifs at h

theorem validateStep_two_areas_ok (formData : FormData)
    (h : (validateStep formData 2).areas_to_improve = none) :
    20 ≤ jsLength formData.areas_to_improve ∧
      strTruthy (jsTrim formData.areas_to_improve) = true := by
  by_cases hlen : jsLength formData.areas_to_improve < 20
  · simp only [validateStep, hlen, if_true] at h
    cases h
  · refine ⟨by omega, ?_⟩
    by_contra hne
    have hf : strTruthy (jsTrim formData.areas_to_improve) = false := by simpa using hne
    simp only [validateStep, hf, Bool.not_false, if_true, hlen, if_false] at h
    split_ifs at h

/-- C14 (refuted as stated): the wizard is opened and the step indicator of step 4
is clicked; Submit then issues the creation request with no employee selected and
with empty strengths and areas to improve. -/
theorem submit_sends_unvalidated_record :
    jumpToReview.currentStep = 4 ∧
    (handleSubmit .success jumpToReview).request = some (payloadOf initialFormData) ∧
    (payloadOf initialFormData).employee_id = "" ∧
    (payloadOf initialFormData).strengths = "" ∧
    (payloadOf initialFormData).areas_to_improve = "" := by
  decide

/-- C14 (amended): in every wizard state reached from the initial state by any
sequence of events, if Submit issues the creation request then the request body is
the current form and `validateStep` reports no error for the step the wizard is on:
on step 1 an employee is selected, on step 2 strengths and areas to improve are not
blank and have at least 20 characters; on the other steps, step 4 with its submit
button included, nothing is required of the record. -/
theorem submit_validates_current_step (store : Storage) (clock : Nat)
    (events : List WizardEvent) (outcome : PostOutcome) (p : Payload)
    (hreq : (handleSubmit outcome ((Wizard.init store clock).run events)).request = some p) :
    p = payloadOf ((Wizard.init store clock).run events).formData ∧
    (validateStep ((Wizard.init store clock).run events).formData
      ((Wizard.init store clock).run events).currentStep).keys = [] ∧
    (((Wizard.init store clock).run events).currentStep = 1 →
      strTruthy p.employee_id = true) ∧
    (((Wizard.init store clock).run events).currentStep = 2 →
      20 ≤ jsLength p.strengths ∧ strTruthy (jsTrim p.strengths) = true ∧
      20 ≤ jsLength p.areas_to_improve ∧ strTruthy (jsTrim p.areas_to_improve) = true) := by
  generalize (Wizard.init store clock).run events = w at hreq ⊢
  have hkeys : (validateStep w.formData w.currentStep).keys = [] := by
    by_contra hne
    have hpos : (validateStep w.formData w.currentStep).keys.length > 0 :=
      List.length_pos.mpr hne
    simp [handleSubmit, hpos] at hreq
  have hlen : ¬ (validateStep w.formData w.currentStep).keys.length > 0 := by simp [hkeys]
  have hp : p = payloadOf w.formData := by
    cases outcome <;> simp [handleSubmit, hlen] at hreq <;> exact hreq.symm
  obtain ⟨h1, h2, h3⟩ := (errors_keys_nil _).mp hkeys
  refine ⟨hp, hkeys, ?_, ?_⟩
  · intro hs
    rw [hs] at h1
    rw [hp]
    exact validateStep_one_ok w.formData h1
  · intro hs
    rw [hs] at h2 h3
    rw [hp]
    obtain ⟨a, b⟩ := validateStep_two_strengths_ok w.formData h2
    obtain ⟨c, d⟩ := validateStep_two_areas_ok w.formData h3
    exact ⟨a, b, c, d⟩

/-- On step 2 with an employee selected and strengths and areas to improve of 23
and 25 characters, Submit issues the request with the current form and both texts
pass the checks of step 2; on step 1 with employee 7 selected, Submit issues the
request and the record has the employee. -/
theorem submit_validates_current_step_witness :
    ((Wizard.init [] 0).run stepTwoEvents).currentStep = 2 ∧
    (handleSubmit .success ((Wizard.init [] 0).run stepTwoEvents)).request
      = some (payloadOf ((Wizard.init [] 0).run stepTwoEvents).formData) ∧
    (payloadOf ((Wizard.init [] 0).run stepTwoEvents).formData).strengths
      = "Always delivers on time" ∧
    (20 ≤ jsLength (payloadOf ((Wizard.init [] 0).run stepTwoEvents).formData).strengths ∧
      strTruthy (jsTrim (payloadOf ((Wizard.init [] 0).run stepTwoEvents).formData).strengths)
        = true ∧
      20 ≤ jsLength (payloadOf ((Wizard.init [] 0).run stepTwoEvents).formData).areas_to_improve ∧
      strTruthy (jsTrim
        (payloadOf ((Wizard.init [] 0).run stepTwoEvents).formData).areas_to_improve) = true) ∧
    ((Wizard.init [] 0).run stepOneEvents).currentStep = 1 ∧
    (handleSubmit .success ((Wizard.init [] 0).run stepOneEvents)).request
      = some (payloadOf ((Wizard.init [] 0).run stepOneEvents).formData) ∧
    strTruthy (payloadOf ((Wizard.init [] 0).run stepOneEvents).formData).employee_id = true :=
  ⟨by decide, by decide, by decide,
   (submit_validates_current_step [] 0 stepTwoEvents .success
      (payloadOf ((Wizard.init [] 0).run stepTwoEvents).formData) (by decide)).2.2.2 (by decide),
   by decide, by decide,
   (submit_validates_current_step [] 0 stepOneEvents .success
      (payloadOf ((Wizard.init [] 0).run stepOneEvents).formData) (by decide)).2.2.1 (by decide)⟩

theorem getItem_removeItem_same (store : Storage) (key : String) :
    getItem (removeItem store key) key = none := by
  simp [getItem, removeItem]

theorem getItem_removeItem_other (store : Storage) (key other : String) (hne : other ≠ key) :
    getItem (removeItem store key) other = getItem store other := by
  have hk : (key == other) = false := by simpa using fun e => hne e.symm
  simp only [getItem, removeItem]
  congr 1
  induction store with
  | nil => rfl
  | cons e rest ih =>
    by_cases he : e.1 = key
    · have ho : ¬ e.1 = other := fun e' => hne (e'.symm.trans he)
      simp [List.filter_cons, he, List.find?_cons, ho, hk, ih]
    · by_cases ho : e.1 = other
      · simp [List.filter_cons, he, List.find?_cons, ho, hne]
      · simp [List.filter_cons, he, List.find?_cons, ho, ih]

/-- C15: for a form that passes the validation of the current step, so that Submit
issues the request: when the request succeeds the store has no entry under the key
of the selected employee and the entry under every other key is as before; when the
request fails the store, the form data and the current step are unchanged. -/
theorem submit_clears_current_draft (w : Wizard) (message : Option String)
    (hvalid : (validateStep w.formData w.currentStep).keys = []) :
    (handleSubmit .success w).request = some (payloadOf w.formData) ∧
    getItem (handleSubmit .success w).wizard.store (draftKey w.formData.employee_id) = none ∧
    (∀ key, key ≠ draftKey w.formData.employee_id →
      getItem (handleSubmit .success w).wizard.store key = getItem w.store key) ∧
    (handleSubmit (.failure message) w).request = some (payloadOf w.formData) ∧
    (handleSubmit (.failure message) w).wizard.store = w.store ∧
    (handleSubmit (.failure message) w).wizard.formData = w.formData ∧
    (handleSubmit (.failure message) w).wizard.currentStep = w.currentStep := by
  have hlen : ¬ (validateStep w.formData w.currentStep).keys.length > 0 := by simp [hvalid]
  refine ⟨by simp [handleSubmit, hlen], by simp [handleSubmit, hlen, getItem_removeItem_same],
    ?_, by simp [handleSubmit, hlen], by simp [handleSubmit, hlen],
    by simp [handleSubmit, hlen], by simp [handleSubmit, hlen]⟩
  intro key hne
  simp only [handleSubmit, hlen, if_false]
  exact getItem_removeItem_other _ _ _ hne

/-- A wizard on step 4 whose store holds drafts for employees 7 and 9 and whose
form selects employee 7. -/
theorem submit_clears_current_draft_witness :
    (handleSubmit .success submitReady).request = some (payloadOf submitReady.formData) ∧
    getItem (handleSubmit .success submitReady).wizard.store
      (draftKey submitReady.formData.employee_id) = none ∧
    (∀ key, key ≠ draftKey submitReady.formData.employee_id →
      getItem (handleSubmit .success submitReady).wizard.store key
        = getItem submitReady.store key) ∧
    (handleSubmit (.failure none) submitReady).request
      = some (payloadOf submitReady.formData) ∧
    (handleSubmit (.failure none) submitReady).wizard.store = submitReady.store ∧
    (handleSubmit (.failure none) submitReady).wizard.formData = submitReady.formData ∧
    (handleSubmit (.failure none) submitReady).wizard.currentStep = submitReady.currentStep :=
  submit_clears_current_draft submitReady none (by decide)

/-- When `localStorage.setItem` throws, the `catch` of `autoSave` only logs: the
store is unchanged whatever the form holds. -/
theorem autoSave_storage_failure (formData : FormData) (now : Nat) (store : Storage) :
    autoSave formData now false store = store := by
  simp [autoSave]

/-- C16: when the autosave fires on a form state, on a store that accepts the
write, it writes exactly when `employee_id` is set and at least one of strengths
and areas to improve is non-empty. When it writes, the entry under the key
`feedback_draft_` followed by `employee_id` carries every field of the form, with
`isDraft` true and the time of the save; when it does not write, the store is
unchanged. -/
theorem autoSave_write_condition (formData : FormData) (now : Nat) (store : Storage) :
    ((strTruthy formData.employee_id = true ∧
        (strTruthy formData.strengths = true ∨ strTruthy formData.areas_to_improve = true)) →
      autoSave formData now true store
        = setItem store ("feedback_draft_" ++ formData.employee_id) (draftData formData now) ∧
      getItem (autoSave formData now true store) ("feedback_draft_" ++ formData.employee_id)
        = some (draftData formData now) ∧
      (draftData formData now).employee_id = some formData.employee_id ∧
      (draftData formData now).strengths = some formData.strengths ∧
      (draftData formData now).areas_to_improve = some formData.areas_to_improve ∧
      (draftData formData now).sentiment = some formData.sentiment ∧
      (draftData formData now).tags = some formData.tags ∧
      (draftData formData now).priority = some formData.priority ∧
      (draftData formData now).goals = some formData.goals ∧
      (draftData formData now).action_items = some formData.action_items ∧
      (draftData formData now).isDraft = some true ∧
      (draftData formData now).lastSaved = some now) ∧
    (¬ (strTruthy formData.employee_id = true ∧
        (strTruthy formData.strengths = true ∨ strTruthy formData.areas_to_improve = true)) →
      autoSave formData now true store = store) := by
  constructor
  · rintro ⟨he, ht⟩
    have hsave : autoSave formData now true store
        = setItem store ("feedback_draft_" ++ formData.employee_id)
            (draftData formData now) := by
      rcases ht with h | h <;> simp [autoSave, he, h, draftKey]
    refine ⟨hsave, ?_, rfl, rfl, rfl, rfl, rfl, rfl, rfl, rfl, rfl, rfl⟩
    rw [hsave]
    exact getItem_setItem_same _ _ _
  · intro hnot
    unfold autoSave
    by_cases he : strTruthy formData.employee_id = true
    · by_cases hs : strTruthy formData.strengths = true
      · exact absurd ⟨he, Or.inl hs⟩ hnot
      · by_cases ha : strTruthy formData.areas_to_improve = true
        · exact absurd ⟨he, Or.inr ha⟩ hnot
        · simp [he, hs, ha]
    · simp [he]

/-- The autosave of a form with employee 7 and strengths entered, and of the
initial form. -/
theorem autoSave_write_condition_witness :
    getItem (autoSave draftableForm 5000 true []) ("feedback_draft_" ++ "7")
      = some (draftData draftableForm 5000) ∧
    autoSave initialFormData 5000 true [] = [] :=
  ⟨((autoSave_write_condition draftableForm 5000 []).1
      ⟨by decide, Or.inl (by decide)⟩).2.1,
   (autoSave_write_condition initialFormData 5000 []).2 (by decide)⟩

/-- C17: for every store, employee and snapshot, `save` followed by `load` returns
the snapshot saved, also when the store held a snapshot for the employee before, and
the store then holds exactly one entry under the key of the employee. -/
theorem draft_round_trip (store : Storage) (employee_id : String) (snapshot : Snapshot) :
    loadDraft (saveDraft store employee_id snapshot) employee_id = some snapshot ∧
    ((saveDraft store employee_id snapshot).filter
      (fun e => e.1 == draftKey employee_id)).length = 1 := by
  constructor
  · exact getItem_setItem_same _ _ _
  · simp [saveDraft, setItem, List.filter_cons, List.filter_filter]

/-- C18: when a newly selected employee has a stored snapshot and the user confirms,
the form becomes the merge of the snapshot into the form: every field present in
the snapshot has the snapshot value, every field absent from it keeps its prior
value (for `employee_id` the employee just selected), and `isDraft` is false. -/
theorem resume_merges_snapshot (w : Wizard) (e : String) (d : Snapshot)
    (hsel : e ≠ w.loadedFor) (he : strTruthy e = true)
    (hd : getItem w.store (draftKey e) = some d) :
    (handleChange .employee_id e [true] w).formData
      = mergeDraft { w.formData with employee_id := e } d ∧
    MergedField d.employee_id e (handleChange .employee_id e [true] w).formData.employee_id ∧
    MergedField d.strengths w.formData.strengths
      (handleChange .employee_id e [true] w).formData.strengths ∧
    MergedField d.areas_to_improve w.formData.areas_to_improve
      (handleChange .employee_id e [true] w).formData.areas_to_improve ∧
    MergedField d.sentiment w.formData.sentiment
      (handleChange .employee_id e [true] w).formData.sentiment ∧
    MergedField d.tags w.formData.tags (handleChange .employee_id e [true] w).formData.tags ∧
    MergedField d.priority w.formData.priority
      (handleChange .employee_id e [true] w).formData.priority ∧
    MergedField d.goals w.formData.goals (handleChange .employee_id e [true] w).formData.goals ∧
    MergedField d.action_items w.formData.action_items
      (handleChange .employee_id e [true] w).formData.action_items ∧
    (∀ v, d.lastSaved = some v →
      (handleChange .employee_id e [true] w).formData.lastSaved = some v) ∧
    (d.lastSaved = none →
      (handleChange .employee_id e [true] w).formData.lastSaved = w.formData.lastSaved) ∧
    (handleChange .employee_id e [true] w).formData.isDraft = some false := by
  have hform : (handleChange .employee_id e [true] w).formData
      = mergeDraft { w.formData with employee_id := e } d := by
    have he2 : (!strTruthy e) = false := by simp [he]
    simp only [handleChange, commitEffects, armAutoSave, FormData.set, hsel, if_false, he2,
      Bool.false_eq_true, hd, if_true]
    split_ifs <;> rfl
  rw [hform]
  refine ⟨rfl, ?_, ?_, ?_, ?_, ?_, ?_, ?_, ?_, fun v hv => by simp [mergeDraft, hv],
    fun hn => by simp [mergeDraft, hn], rfl⟩ <;>
    exact ⟨fun v hv => by simp [mergeDraft, hv], fun hn => by simp [mergeDraft, hn]⟩

/-- Employee 7, who has a stored draft, is selected in a form that holds other
strengths, and the user confirms: the strengths of the draft replace them. -/
theorem resume_merges_snapshot_witness :
    (handleChange .employee_id "7" [true] typedThenSelect).formData.strengths
      = "Always delivers on time" ∧
    (handleChange .employee_id "7" [true] typedThenSelect).formData.isDraft = some false :=
  ⟨((resume_merges_snapshot typedThenSelect "7" (draftData draftableForm 10)
      (by decide) (by decide) (by decide)).2.2.1).1 _ rfl,
   (resume_merges_snapshot typedThenSelect "7" (draftData draftableForm 10)
      (by decide) (by decide) (by decide)).2.2.2.2.2.2.2.2.2.2.2⟩

/-- C19 (refuted as stated): strengths are typed, then employee 7, who has a stored
draft, is selected and the user declines to resume: the stored draft is unchanged
but the form still holds the strengths typed before. -/
theorem declined_resume_form_not_empty :
    typedThenSelect.formData.strengths = "Typed before selecting" ∧
    getItem typedThenSelect.store (draftKey "7") = some (draftData draftableForm 10) ∧
    (handleChange .employee_id "7" [false] typedThenSelect).store = typedThenSelect.store ∧
    (handleChange .employee_id "7" [false] typedThenSelect).formData.strengths
      = "Typed before selecting" ∧
    (handleChange .employee_id "7" [false] typedThenSelect).formData.strengths
      ≠ initialFormData.strengths := by
  decide

/-- C19 (amended): when a newly selected employee has a stored snapshot and the
user declines to resume, the store, the snapshot included, is unchanged and the
form keeps every value it held before the selection, with `employee_id` set to the
employee selected. -/
theorem declined_resume_keeps_form (w : Wizard) (e : String) (d : Snapshot)
    (rest : List Bool) (hd : getItem w.store (draftKey e) = some d) :
    (handleChange .employee_id e (false :: rest) w).store = w.store ∧
    getItem (handleChange .employee_id e (false :: rest) w).store (draftKey e) = some d ∧
    (handleChange .employee_id e (false :: rest) w).formData
      = { w.formData with employee_id := e } := by
  obtain ⟨hf, hs, _, _⟩ := commitEffects_no_resume (false :: rest)
    { w with formData := w.formData.set .employee_id e,
             validationErrors := w.validationErrors.clear .employee_id }
    (Or.inr (by simp))
  have hstore : (handleChange .employee_id e (false :: rest) w).store = w.store := hs
  refine ⟨hstore, ?_, hf⟩
  rw [hstore]
  exact hd

/-- Declining the draft of employee 7 in a form with strengths typed before. -/
theorem declined_resume_keeps_form_witness :
    (handleChange .employee_id "7" [false] typedThenSelect).store = typedThenSelect.store ∧
    getItem (handleChange .employee_id "7" [false] typedThenSelect).store (draftKey "7")
      = some (draftData draftableForm 10) ∧
    (handleChange .employee_id "7" [false] typedThenSelect).formData
      = { typedThenSelect.formData with employee_id := "7" } :=
  declined_resume_keeps_form typedThenSelect "7" (draftData draftableForm 10) [] (by decide)

/-- C20: `updateActionItem` changes only `action_items`, which keeps its length,
and at every position an entry whose id differs from the given id is unchanged while
an entry with the given id has the new text and its own id and completed flag. -/
theorem updateActionItem_framed (prev : FormData) (id : Nat) (text : String) :
    (updateActionItem prev id text).action_items.length = prev.action_items.length ∧
    (∀ (i : Nat) (item : ActionItem), prev.action_items[i]? = some item →
      (item.id ≠ id → (updateActionItem prev id text).action_items[i]? = some item) ∧
      (item.id = id → (updateActionItem prev id text).action_items[i]?
        = some { text := text, completed := item.completed, id := item.id })) ∧
    updateActionItem prev id text
      = { prev with action_items := (updateActionItem prev id text).action_items } := by
  refine ⟨by simp [updateActionItem, updateItems], ?_, rfl⟩
  intro i item hi
  constructor
  · intro hne
    simp [updateActionItem, updateItems, List.getElem?_map, hi, hne]
  · intro heq
    simp [updateActionItem, updateItems, List.getElem?_map, hi, heq]

/-- Updating the item with id 2 of a list of two items. -/
theorem updateActionItem_framed_witness :
    (updateActionItem { initialFormData with action_items := twoItems } 2
        "Pair twice a week").action_items[0]?
      = some { text := "Book a course", completed := false, id := 1 } ∧
    (updateActionItem { initialFormData with action_items := twoItems } 2
        "Pair twice a week").action_items[1]?
      = some { text := "Pair twice a week", completed := true, id := 2 } :=
  ⟨((updateActionItem_framed { initialFormData with action_items := twoItems } 2
      "Pair twice a week").2.1 0 { text := "Book a course", completed := false, id := 1 }
      rfl).1 (by decide),
   ((updateActionItem_framed { initialFormData with action_items := twoItems } 2
      "Pair twice a week").2.1 1 { text := "Pair weekly", completed := true, id := 2 }
      rfl).2 rfl⟩

/-! ## Theorems: sorting -/

theorem filterE_sublist {α : Type} (p : α → Except JSError Bool) :
    ∀ (l out : List α), filterE p l = .ok out → out.Sublist l
  | [], out, h => by
    simp only [filterE, Except.ok.injEq] at h
    subst h
    exact List.Sublist.refl _
  | a :: l, out, h => by
    simp only [filterE] at h
    cases hp : p a with
    | error e => simp [hp] at h
    | ok keep =>
      cases hr : filterE p l with
      | error e => simp [hp, hr] at h
      | ok rest =>
        simp only [hp, hr, Except.ok.injEq] at h
        subst h
        have ih := filterE_sublist p l rest hr
        cases keep
        · exact ih.cons a
        · exact ih.cons₂ a

/-- The filtering stages return a sublist of the records. -/
theorem applyFilters_sublist (h : Host) (now : Int) (role searchTerm : String)
    (filters : Filters) (feedback filtered : List FeedbackItem)
    (hf : applyFilters h now role searchTerm filters feedback = .ok filtered) :
    filtered.Sublist feedback := by
  unfold applyFilters at hf
  cases hs : searchFilter h role searchTerm feedback with
  | error e => simp [hs] at hf
  | ok searched =>
    simp only [hs, Except.ok.injEq] at hf
    subst hf
    have h1 : searched.Sublist feedback := by
      unfold searchFilter at hs
      split_ifs at hs
      · exact filterE_sublist _ _ _ hs
      · simp only [Except.ok.injEq] at hs
        subst hs
        exact List.Sublist.refl _
    have h2 : (sentimentFilter filters searched).Sublist searched := by
      unfold sentimentFilter
      split_ifs
      · exact List.filter_sublist _
      · exact List.Sublist.refl _
    have h3 : ∀ l, (acknowledgedFilter filters l).Sublist l := by
      intro l
      unfold acknowledgedFilter
      split_ifs
      · exact List.filter_sublist _
      · exact List.Sublist.refl _
    have h4 : ∀ l, (dateFilter h now filters l).Sublist l := by
      intro l
      unfold dateFilter
      split_ifs
      · exact List.filter_sublist _
      · exact List.Sublist.refl _
    have h5 : ∀ l, (tagsFilter filters l).Sublist l := by
      intro l
      unfold tagsFilter
      split_ifs
      · exact List.filter_sublist _
      · exact List.Sublist.refl _
    exact (h5 _).trans ((h4 _).trans ((h3 _).trans (h2.trans h1)))

/-- One insertion into a list in descending key order, for a comparator that
returns the key of its second argument minus the key of its first: the result is
in descending key order and elements of equal key keep their order. -/
theorem insertE_by_key {α : Type} (cmp : α → α → Except JSError (Option Int))
    (key : α → Int) (a : α) :
    ∀ sorted : List α, (∀ b ∈ sorted, cmp a b = .ok (some (key b - key a))) →
      sorted.Pairwise (fun x y => key y ≤ key x) →
      ∃ out, insertE cmp a sorted = .ok out ∧ out.Perm (a :: sorted) ∧
        out.Pairwise (fun x y => key y ≤ key x) ∧
        ∀ k, out.filter (fun x => decide (key x = k))
          = (a :: sorted).filter (fun x => decide (key x = k))
  | [], _, _ => ⟨[a], rfl, List.Perm.refl _, by simp, fun _ => rfl⟩
  | b :: l, hcmp, hs => by
    have hb := hcmp b (List.mem_cons_self b l)
    obtain ⟨hbl, hl⟩ := List.pairwise_cons.mp hs
    by_cases hlt : key a < key b
    · obtain ⟨rest, hrest, hperm, hpw, hfil⟩ := insertE_by_key cmp key a l
        (fun c hc => hcmp c (List.mem_cons_of_mem b hc)) hl
      have hpos : isPositive (some (key b - key a)) = true := by
        simp only [isPositive, decide_eq_true_eq]
        omega
      refine ⟨b :: rest, by simp only [insertE, hb, hpos, if_true, hrest], ?_, ?_, ?_⟩
      · exact (hperm.cons b).trans (List.Perm.swap a b l)
      · refine List.pairwise_cons.mpr ⟨?_, hpw⟩
        intro x hx
        rcases List.mem_cons.mp (hperm.mem_iff.mp hx) with rfl | hx
        · omega
        · exact hbl x hx
      · intro k
        have hk := hfil k
        by_cases hbk : key b = k
        · have hak : ¬ key a = k := by omega
          simp only [List.filter_cons, hbk, hak, decide_True, decide_False, if_true,
            Bool.false_eq_true, if_false] at hk ⊢
          rw [hk]
        · simp only [List.filter_cons, hbk, decide_False, Bool.false_eq_true, if_false] at hk ⊢
          rw [hk]
    · have hpos : isPositive (some (key b - key a)) = false := by
        simp only [isPositive, decide_eq_false_iff_not]
        omega
      refine ⟨a :: b :: l, by simp [insertE, hb, hpos], List.Perm.refl _, ?_, fun _ => rfl⟩
      refine List.pairwise_cons.mpr ⟨?_, hs⟩
      intro x hx
      rcases List.mem_cons.mp hx with rfl | hx
      · omega
      · have := hbl x hx
        omega

/-- The sort by a key in descending order: for a comparator that returns the key
of its second argument minus the key of its first, the sort returns a permutation
in descending key order in which elements of equal key keep their input order. -/
theorem sortE_by_key {α : Type} (cmp : α → α → Except JSError (Option Int)) (key : α → Int) :
    ∀ l : List α, (∀ a ∈ l, ∀ b ∈ l, cmp a b = .ok (some (key b - key a))) →
      ∃ out, sortE cmp l = .ok out ∧ out.Perm l ∧
        out.Pairwise (fun x y => key y ≤ key x) ∧
        ∀ k, out.filter (fun x => decide (key x = k)) = l.filter (fun x => decide (key x = k))
  | [], _ => ⟨[], rfl, List.Perm.refl _, List.Pairwise.nil, fun _ => rfl⟩
  | a :: l, hcmp => by
    obtain ⟨sorted, hsort, hperm, hpw, hfil⟩ := sortE_by_key cmp key l
      (fun x hx y hy => hcmp x (List.mem_cons_of_mem a hx) y (List.mem_cons_of_mem a hy))
    obtain ⟨out, hout, hperm2, hpw2, hfil2⟩ := insertE_by_key cmp key a sorted
      (fun b hb => hcmp a (List.mem_cons_self a l) b
        (List.mem_cons_of_mem a (hperm.mem_iff.mp hb))) hpw
    refine ⟨out, by simp only [sortE, hsort, hout], hperm2.trans (hperm.cons a), hpw2, ?_⟩
    intro k
    rw [hfil2 k]
    simp only [List.filter_cons, hfil k]

theorem sentimentOrder_eq_rank (item : FeedbackItem)
    (hs : item.sentiment = some "positive" ∨ item.sentiment = some "neutral" ∨
      item.sentiment = some "negative") :
    sentimentOrder item.sentiment = some (sentimentRank item) := by
  rcases hs with h | h | h <;> simp [sentimentRank, sentimentOrder, h]

/-- C11: for records whose sentiments are positive, neutral or negative, when the
filtering stages return the list `filtered`, the engine with the sort key
`sentiment` returns a permutation of `filtered` in non-increasing rank (positive 3,
neutral 2, negative 1) in which, for every rank, the records of that rank are in
the same order as in `filtered`. -/
theorem sentiment_sort_stable (h : Host) (now : Int) (role searchTerm : String)
    (filters : Filters) (feedback filtered : List FeedbackItem)
    (hsent : ∀ item ∈ feedback, item.sentiment = some "positive" ∨
      item.sentiment = some "neutral" ∨ item.sentiment = some "negative")
    (hfilt : applyFilters h now role searchTerm filters feedback = .ok filtered) :
    ∃ out, filteredFeedback h now role searchTerm filters "sentiment" feedback = .ok out ∧
      out.Perm filtered ∧
      out.Pairwise (fun a b => sentimentRank b ≤ sentimentRank a) ∧
      (∀ k, out.filter (fun a => decide (sentimentRank a = k))
        = filtered.filter (fun a => decide (sentimentRank a = k))) ∧
      (∀ item ∈ out, (item.sentiment = some "positive" ∧ sentimentRank item = 3) ∨
        (item.sentiment = some "neutral" ∧ sentimentRank item = 2) ∨
        (item.sentiment = some "negative" ∧ sentimentRank item = 1)) := by
  have hsub := (applyFilters_sublist h now role searchTerm filters feedback filtered hfilt).subset
  obtain ⟨out, hout, hperm, hpw, hfil⟩ := sortE_by_key (compareItems h role "sentiment")
    sentimentRank filtered (fun a ha b hb => by
      simp [compareItems, sentimentOrder_eq_rank a (hsent a (hsub ha)),
        sentimentOrder_eq_rank b (hsent b (hsub hb)), numSub])
  refine ⟨out, by simp only [filteredFeedback, hfilt, hout], hperm, hpw, hfil, ?_⟩
  intro item hi
  rcases hsent item (hsub (hperm.mem_iff.mp hi)) with hs | hs | hs
  · exact Or.inl ⟨hs, by simp [sentimentRank, sentimentOrder, hs]⟩
  · exact Or.inr (Or.inl ⟨hs, by simp [sentimentRank, sentimentOrder, hs]⟩)
  · exact Or.inr (Or.inr ⟨hs, by simp [sentimentRank, sentimentOrder, hs]⟩)

/-- Records with sentiments neutral, positive, neutral, negative (ids 1 to 4) are
returned in the order 2, 1, 3, 4: the two neutral records keep their order. -/
theorem sentiment_sort_stable_witness :
    (∃ out, filteredFeedback asciiHost 5000 "manager" "" Filters.initial "sentiment"
        mixedSentiments = .ok out ∧
      out.Perm mixedSentiments ∧
      out.Pairwise (fun a b => sentimentRank b ≤ sentimentRank a) ∧
      (∀ k, out.filter (fun a => decide (sentimentRank a = k))
        = mixedSentiments.filter (fun a => decide (sentimentRank a = k))) ∧
      (∀ item ∈ out, (item.sentiment = some "positive" ∧ sentimentRank item = 3) ∨
        (item.sentiment = some "neutral" ∧ sentimentRank item = 2) ∨
        (item.sentiment = some "negative" ∧ sentimentRank item = 1))) ∧
    (filteredFeedback asciiHost 5000 "manager" "" Filters.initial "sentiment"
        mixedSentiments).map (fun out => out.map (fun item => item.id)) = .ok [2, 1, 3, 4] :=
  ⟨sentiment_sort_stable asciiHost 5000 "manager" "" Filters.initial mixedSentiments
    mixedSentiments (by decide) (by decide), by decide⟩

/-- With valid and pairwise distinct time values, the ascending date sort of a list
is the reverse of its descending date sort. -/
theorem date_asc_eq_reverse_desc (h : Host) (role : String) (filtered : List FeedbackItem)
    (hvalid : ∀ item ∈ filtered, item.created_at.isSome = true)
    (hdistinct : filtered.Pairwise (fun a b => a.created_at ≠ b.created_at)) :
    ∃ desc, sortE (compareItems h role "date_desc") filtered = .ok desc ∧
      sortE (compareItems h role "date_asc") filtered = .ok desc.reverse ∧
      desc.Perm filtered ∧ desc.Pairwise (fun a b => timeValue b ≤ timeValue a) := by
  have hsome : ∀ item ∈ filtered, item.created_at = some (timeValue item) := by
    intro item hi
    have := hvalid item hi
    cases hc : item.created_at with
    | none => simp [hc] at this
    | some c => simp [timeValue, hc]
  obtain ⟨desc, hdesc, hpd, hsd, _⟩ := sortE_by_key (compareItems h role "date_desc")
    timeValue filtered (fun a ha b hb => by
      simp [compareItems, hsome a ha, hsome b hb, numSub])
  obtain ⟨asc, hasc, hpa, hsa, _⟩ := sortE_by_key (compareItems h role "date_asc")
    (fun item => - timeValue item) filtered (fun a ha b hb => by
      simp only [compareItems, hsome a ha, hsome b hb, numSub, Except.ok.injEq,
        Option.some.injEq]
      omega)
  have hinj : ∀ a ∈ filtered, ∀ b ∈ filtered, timeValue a = timeValue b → a = b := by
    intro a ha b hb heq
    by_contra hne
    have hsymm : Symmetric (fun a b : FeedbackItem => a.created_at ≠ b.created_at) :=
      fun _ _ hxy e => hxy e.symm
    exact List.Pairwise.forall hsymm hdistinct ha hb hne
      (by rw [hsome a ha, hsome b hb, heq])
  have hrev : desc.reverse.Pairwise (fun x y => - timeValue y ≤ - timeValue x) := by
    rw [List.pairwise_reverse]
    exact hsd.imp (fun hxy => by omega)
  have heq : asc = desc.reverse := by
    refine List.Perm.eq_of_sorted ?_ hsa hrev (hpa.trans (hpd.symm.trans
      (List.reverse_perm desc).symm))
    intro a b ha hb hab hba
    exact hinj a (hpa.mem_iff.mp ha) b (hpd.mem_iff.mp (List.mem_reverse.mp hb)) (by omega)
  exact ⟨desc, hdesc, heq ▸ hasc, hpd, hsd⟩

/-- C12: for records whose `created_at` are valid dates with pairwise distinct time
values, and for every search term and filter state, the result of the engine with
the sort key `date_asc` is the result with the sort key `date_desc` reversed; and
when the filtering stages return, the engine with `date_desc` returns the filtered
records in descending order of their time values. -/
theorem date_sorts_are_reverses (h : Host) (now : Int) (role searchTerm : String)
    (filters : Filters) (feedback : List FeedbackItem)
    (hvalid : ∀ item ∈ feedback, item.created_at.isSome = true)
    (hdistinct : feedback.Pairwise (fun a b => a.created_at ≠ b.created_at)) :
    filteredFeedback h now role searchTerm filters "date_asc" feedback
      = (filteredFeedback h now role searchTerm filters "date_desc" feedback).map
          List.reverse ∧
    (∀ filtered, applyFilters h now role searchTerm filters feedback = .ok filtered →
      ∃ desc, filteredFeedback h now role searchTerm filters "date_desc" feedback = .ok desc ∧
        filteredFeedback h now role searchTerm filters "date_asc" feedback
          = .ok desc.reverse ∧
        desc.Perm filtered ∧ desc.Pairwise (fun a b => timeValue b ≤ timeValue a)) := by
  have key : ∀ filtered, applyFilters h now role searchTerm filters feedback = .ok filtered →
      ∃ desc, filteredFeedback h now role searchTerm filters "date_desc" feedback = .ok desc ∧
        filteredFeedback h now role searchTerm filters "date_asc" feedback
          = .ok desc.reverse ∧
        desc.Perm filtered ∧ desc.Pairwise (fun a b => timeValue b ≤ timeValue a) := by
    intro filtered hf
    have hsub := applyFilters_sublist h now role searchTerm filters feedback filtered hf
    obtain ⟨desc, hd, ha, hp, hs⟩ := date_asc_eq_reverse_desc h role filtered
      (fun item hi => hvalid item (hsub.subset hi)) (hdistinct.sublist hsub)
    exact ⟨desc, by simp only [filteredFeedback, hf, hd],
      by simp only [filteredFeedback, hf, ha], hp, hs⟩
  refine ⟨?_, key⟩
  cases hf : applyFilters h now role searchTerm filters feedback with
  | error e => simp [filteredFeedback, hf, Except.map]
  | ok filtered =>
    obtain ⟨desc, hd, ha, _, _⟩ := key filtered hf
    rw [hd, ha]
    rfl

/-- Four records with distinct dates: ascending is the reverse of descending. -/
theorem date_sorts_are_reverses_witness :
    (filteredFeedback asciiHost 5000 "manager" "" Filters.initial "date_asc" mixedSentiments
      = (filteredFeedback asciiHost 5000 "manager" "" Filters.initial "date_desc"
          mixedSentiments).map List.reverse) ∧
    (filteredFeedback asciiHost 5000 "manager" "" Filters.initial "date_desc"
        mixedSentiments).map (fun out => out.map (fun item => item.id)) = .ok [1, 3, 4, 2] ∧
    (filteredFeedback asciiHost 5000 "manager" "" Filters.initial "date_asc"
        mixedSentiments).map (fun out => out.map (fun item => item.id)) = .ok [2, 4, 3, 1] :=
  ⟨(date_sorts_are_reverses asciiHost 5000 "manager" "" Filters.initial mixedSentiments
      (by decide) (by decide)).1, by decide, by decide⟩

/-- C13 (code defect): the engine throws a `TypeError` in two cases the claim
covers. A record whose `tags` array holds the tag object that `handleTagToggle`
puts into the form, and whose other text fields are missing, makes the search
callback call `toLowerCase` on an object; and two records without `employee_name`
make the comparator of the sort key `name` call `localeCompare` on `undefined`. -/
theorem engine_throws_on_tag_objects_and_missing_names (h : Host) (now : Int) :
    (handleTagToggle initialFormData leadershipTag).tags = [leadershipTag] ∧
    wizardTaggedItem.tags = some [storedTag 0 leadershipTag] ∧
    filteredFeedback h now "employee" "lead" Filters.initial "date_desc" [wizardTaggedItem]
      = .error (.typeError "tag.toLowerCase is not a function") ∧
    filteredFeedback h now "manager" "" Filters.initial "name" [sampleItem 1, sampleItem 2]
      = .error (.typeError "Cannot read properties of undefined (reading localeCompare)") := by
  exact ⟨by decide, rfl, rfl, rfl⟩


/-! ## Theorems: comment mutations -/

theorem toggleLike_id (c : Comment) : c.toggleLike.id = c.id := by
  cases c
  rfl

theorem toggleLike_toggleLike (c : Comment) : c.toggleLike.toggleLike = c := by
  obtain ⟨id, n, r, t, ca, l, b, rs⟩ := c
  cases b <;> simp [Comment.toggleLike]

theorem handleLikeComment_eq (commentId : Nat) (outcome : CallOutcome)
    (comments : List Comment) :
    handleLikeComment commentId outcome comments
      = comments.map (fun c => if c.id = commentId then c.toggleLike else c) := by
  cases outcome <;> rfl

/-- C21: applying `handleLikeComment` to an id twice returns the original list,
whatever the two network calls do; after one application every comment with
another id is unchanged and every comment with the id has its like toggled; and a
comment with 2 likes, not liked, becomes one with 3 likes, liked, and back. -/
theorem toggleLike_involution (commentId : Nat) (o1 o2 : CallOutcome)
    (comments : List Comment) :
    handleLikeComment commentId o2 (handleLikeComment commentId o1 comments) = comments ∧
    (∀ (i : Nat) (c : Comment), comments[i]? = some c →
      (c.id ≠ commentId → (handleLikeComment commentId o1 comments)[i]? = some c) ∧
      (c.id = commentId →
        (handleLikeComment commentId o1 comments)[i]? = some c.toggleLike)) ∧
    (∀ (id : Nat) (n r t : String) (ca : Int) (rs : Option (List Comment)),
      (Comment.mk id n r t ca 2 false rs).toggleLike = .mk id n r t ca 3 true rs ∧
      (Comment.mk id n r t ca 3 true rs).toggleLike = .mk id n r t ca 2 false rs) := by
  refine ⟨?_, ?_, ?_⟩
  · rw [handleLikeComment_eq, handleLikeComment_eq, List.map_map]
    conv_rhs => rw [← List.map_id comments]
    apply List.map_congr_left
    intro c _
    by_cases hc : c.id = commentId
    · simp [hc, toggleLike_id, toggleLike_toggleLike]
    · simp [hc]
  · intro i c hi
    rw [handleLikeComment_eq]
    constructor
    · intro hne
      simp [List.getElem?_map, hi, hne]
    · intro heq
      simp [List.getElem?_map, hi, heq]
  · intro id n r t ca rs
    exact ⟨rfl, rfl⟩

/-- A comment with two likes, not liked by the user, is liked and then restored;
the comment at position 0 of the list is the toggled one after the first click. -/
theorem toggleLike_involution_witness :
    handleLikeComment 1 .success (handleLikeComment 1 .failure [likedTwice]) = [likedTwice] ∧
    (handleLikeComment 1 .failure [likedTwice])[0]? = some likedTwice.toggleLike :=
  ⟨(toggleLike_involution 1 .failure .success [likedTwice]).1,
   ((toggleLike_involution 1 .failure .success [likedTwice]).2.1 0 likedTwice rfl).2 rfl⟩

/-- C23: for an open thread (a non-zero `feedbackId`), a successful fetch sets the
local list to the list of the response, and to the empty list when the response
has none, whatever the local list held. -/
theorem fetch_success_replaces_list (feedbackId : Nat) (user : Option User) (now : Int)
    (localList serverList : List Comment) (hid : feedbackId ≠ 0) :
    fetchComments (some feedbackId) user now (.success (some serverList)) localList
      = serverList ∧
    fetchComments (some feedbackId) user now (.success none) localList = [] := by
  cases feedbackId with
  | zero => exact absurd rfl hid
  | succ n => exact ⟨rfl, rfl⟩

/-- A local comment that the server list does not contain is gone after the fetch. -/
theorem fetch_success_replaces_list_witness :
    (fetchComments (some 5) none 1000 (.success (some [likedTwice])) [likedTwice, localComment]
      = [likedTwice] ∧
     fetchComments (some 5) none 1000 (.success none) [likedTwice, localComment] = []) ∧
    localComment ∉
      fetchComments (some 5) none 1000 (.success (some [likedTwice])) [likedTwice, localComment] :=
  ⟨fetch_success_replaces_list 5 none 1000 [likedTwice, localComment] [likedTwice]
    (by decide), by simp [fetchComments, localComment, likedTwice]⟩

theorem addReply_replies (c reply : Comment) :
    (c.addReply reply).replies = some (c.replies.getD [] ++ [reply]) := by
  cases c
  rfl

theorem addReply_id (c reply : Comment) : (c.addReply reply).id = c.id := by
  cases c
  rfl

/-- C22 (refuted as stated): a non-blank reply to comment 1 whose network call
succeeds with a response that carries no comment leaves the replies of comment 1
empty; and a response whose comment carries a reply of its own is stored as it is. -/
theorem reply_depends_on_response :
    likedTwice.id = 1 ∧ likedTwice.replies = some [] ∧
    strTruthy (jsTrim "I agree") = true ∧
    handleReply 1 none 5 "I agree" (.success none) [likedTwice] = [likedTwice] ∧
    handleReply 1 none 5 "I agree" (.success (some nestedReply)) [likedTwice]
      = [likedTwice.addReply nestedReply] ∧
    (nestedReply.replies.map List.length) = some 1 := by
  refine ⟨rfl, rfl, by decide, ?_, ?_, rfl⟩
  · have h : strTruthy (jsTrim "I agree") = true := by decide
    simp [handleReply, h]
  · have h : strTruthy (jsTrim "I agree") = true := by decide
    simp [handleReply, h, likedTwice, Comment.id]

/-- C22 (amended): for a non-blank reply text, `handleReply` adds no top-level
comment and leaves every comment with another id unchanged. On a comment with the
parent id: when the call fails, the reply built locally, with the given text and no
replies list, is appended as the last reply; when the call succeeds with a comment
in the response, that comment is appended as the last reply as the server returned
it; when the response carries no comment, the comment is unchanged. -/
theorem reply_appended_to_parent (parentId : Nat) (user : Option User) (now : Nat)
    (replyText : String) (comments : List Comment)
    (htext : strTruthy (jsTrim replyText) = true) :
    (∀ outcome, (handleReply parentId user now replyText outcome comments).length
      = comments.length) ∧
    (∀ (i : Nat) (c : Comment), comments[i]? = some c →
      (c.id ≠ parentId → ∀ outcome,
        (handleReply parentId user now replyText outcome comments)[i]? = some c) ∧
      (c.id = parentId →
        (handleReply parentId user now replyText .failure comments)[i]?
          = some (c.addReply (replyObj user now replyText)) ∧
        (∀ reply, (handleReply parentId user now replyText (.success (some reply)) comments)[i]?
          = some (c.addReply reply)) ∧
        (handleReply parentId user now replyText (.success none) comments)[i]? = some c)) ∧
    (∀ c reply : Comment, ((c.addReply reply).replies.getD []).getLast? = some reply ∧
      (c.addReply reply).id = c.id) ∧
    (replyObj user now replyText).replies = none ∧
    (replyObj user now replyText).comment_text = replyText := by
  have hb : (!strTruthy (jsTrim replyText)) = false := by simp [htext]
  refine ⟨?_, ?_, ?_, rfl, rfl⟩
  · intro outcome
    rcases outcome with (_ | _) | _ <;> simp [handleReply, hb]
  · intro i c hi
    constructor
    · intro hne outcome
      rcases outcome with (_ | _) | _ <;> simp [handleReply, hb, List.getElem?_map, hi, hne]
    · intro heq
      refine ⟨?_, ?_, ?_⟩
      · simp [handleReply, hb, List.getElem?_map, hi, heq]
      · intro reply
        simp [handleReply, hb, List.getElem?_map, hi, heq]
      · simp [handleReply, hb, hi]
  · intro c reply
    refine ⟨?_, addReply_id c reply⟩
    rw [addReply_replies]
    simp

/-- A reply to comment 1 whose network call fails. -/
theorem reply_appended_to_parent_witness :
    (handleReply 1 none 5 "I agree" .failure [likedTwice])[0]?
      = some (likedTwice.addReply (replyObj none 5 "I agree")) :=
  (((reply_appended_to_parent 1 none 5 "I agree" [likedTwice] (by decide)).2.1 0 likedTwice
    rfl).2 rfl).1

theorem jsLength_replicate (n : Nat) : jsLength ⟨List.replicate n 'a'⟩ = n := by
  have hunit : utf16Units 'a' = 1 := by decide
  simp [jsLength, List.map_replicate, List.sum_replicate, hunit]

theorem jsLength_longText : jsLength longText = 501 := jsLength_replicate 501

theorem longText_truthy : strTruthy (jsTrim longText) = true := by
  by_contra hne
  have hall := (jsTrim_empty_iff longText).mp (by simpa using hne)
  have hmem : 'a' ∈ longText.data := by
    show 'a' ∈ List.replicate 501 'a'
    exact List.mem_replicate.mpr ⟨by decide, rfl⟩
  have ha := hall 'a' hmem
  exact absurd ha (by decide)

/-- C24 (code defect): a text of 501 characters disables the Post Comment button,
but the Reply button stays enabled and `handleReply` appends the reply, and
`handleEditComment` sets the text of the comment; `handleSubmitComment` itself has
no length check either. -/
theorem long_reply_and_edit_accepted :
    jsLength longText = 501 ∧
    postCommentDisabled false longText = true ∧
    replyDisabled false longText = false ∧
    handleReply 1 none 5 longText .failure [likedTwice]
      = [likedTwice.addReply (replyObj none 5 longText)] ∧
    (replyObj none 5 longText).comment_text = longText ∧
    handleEditComment 1 longText .success [likedTwice] = [likedTwice.setText longText] ∧
    (likedTwice.setText longText).comment_text = longText ∧
    handleSubmitComment none 5 longText .failure [] = [newCommentObj none 5 longText] := by
  have hb : (!strTruthy (jsTrim longText)) = false := by simp [longText_truthy]
  refine ⟨jsLength_longText, ?_, ?_, ?_, rfl, ?_, rfl, ?_⟩
  · simp [postCommentDisabled, jsLength_longText]
  · simp [replyDisabled, longText_truthy]
  · simp [handleReply, hb, likedTwice, Comment.id]
  · simp [handleEditComment, likedTwice, Comment.id]
  · simp [handleSubmitComment, hb]

/-- C25 (refuted as stated): a non-blank comment whose network call succeeds with a
response that carries no comment leaves the list empty: no comment with the given
text is present. -/
theorem create_without_response_comment_adds_nothing :
    strTruthy (jsTrim "Well done") = true ∧
    handleSubmitComment none 5 "Well done" (.success none) [] = [] := by
  refine ⟨by decide, ?_⟩
  have h : strTruthy (jsTrim "Well done") = true := by decide
  simp [handleSubmitComment, h]

theorem setText_text (c : Comment) (t : String) : (c.setText t).comment_text = t := by
  cases c
  rfl

theorem setText_id (c : Comment) (t : String) : (c.setText t).id = c.id := by
  cases c
  rfl

/-- C25 (amended): edit, delete (once confirmed) and like change the local list
in the same way when the network call succeeds and when it fails: every comment
with the id has the edited text, no comment with the id remains, every comment with
the id has its like toggled, and comments with other ids are kept as they are. A
create with non-blank text appends the locally built comment with the given text
when the call fails, appends the comment of the response when the call succeeds
with one, and changes nothing when the response carries none. -/
theorem mutations_applied_locally (commentId : Nat) (user : Option User) (now : Nat)
    (text : String) (comments : List Comment) :
    (∀ outcome, handleEditComment commentId text outcome comments
      = comments.map (fun c => if c.id = commentId then c.setText text else c)) ∧
    (∀ outcome, ∀ c ∈ handleEditComment commentId text outcome comments,
      c.id = commentId → c.comment_text = text) ∧
    (∀ outcome, handleDeleteComment commentId true outcome comments
      = comments.filter (fun c => !(c.id == commentId))) ∧
    (∀ outcome, ∀ c ∈ handleDeleteComment commentId true outcome comments,
      c.id ≠ commentId) ∧
    (∀ outcome, handleLikeComment commentId outcome comments
      = comments.map (fun c => if c.id = commentId then c.toggleLike else c)) ∧
    (strTruthy (jsTrim text) = true →
      handleSubmitComment user now text .failure comments
        = comments ++ [newCommentObj user now text] ∧
      (newCommentObj user now text).comment_text = text ∧
      (∀ c, handleSubmitComment user now text (.success (some c)) comments
        = comments ++ [c]) ∧
      handleSubmitComment user now text (.success none) comments = comments) := by
  have hedit : ∀ outcome, handleEditComment commentId text outcome comments
      = comments.map (fun c => if c.id = commentId then c.setText text else c) := by
    intro outcome
    cases outcome <;> rfl
  have hdel : ∀ outcome, handleDeleteComment commentId true outcome comments
      = comments.filter (fun c => !(c.id == commentId)) := by
    intro outcome
    cases outcome <;> rfl
  refine ⟨hedit, ?_, hdel, ?_, fun outcome => handleLikeComment_eq _ _ _, ?_⟩
  · intro outcome c hc hid
    rw [hedit] at hc
    obtain ⟨d, _, hd⟩ := List.mem_map.mp hc
    by_cases hdi : d.id = commentId
    · rw [if_pos hdi] at hd
      rw [← hd]
      exact setText_text d text
    · rw [if_neg hdi] at hd
      rw [hd] at hdi
      exact absurd hid hdi
  · intro outcome c hc
    rw [hdel] at hc
    simpa using (List.mem_filter.mp hc).2
  · intro htext
    have hb : (!strTruthy (jsTrim text)) = false := by simp [htext]
    refine ⟨by simp [handleSubmitComment, hb], rfl, fun c => by simp [handleSubmitComment, hb],
      by simp [handleSubmitComment, hb]⟩

/-- A comment whose network call fails is appended with its text. -/
theorem mutations_applied_locally_witness :
    handleSubmitComment none 5 "Well done" .failure [likedTwice]
      = [likedTwice] ++ [newCommentObj none 5 "Well done"] :=
  ((mutations_applied_locally 1 none 5 "Well done" [likedTwice]).2.2.2.2.2 (by decide)).1

/-! ## Theorems: wizard invariants -/

theorem commitEffects_frame : ∀ (answers : List Bool) (w : Wizard),
    (commitEffects answers w).currentStep = w.currentStep ∧
    (commitEffects answers w).store = w.store
  | [], w => by
    simp only [commitEffects, armAutoSave]
    split_ifs <;> exact ⟨rfl, rfl⟩
  | answer :: rest, w => by
    simp only [commitEffects, armAutoSave]
    by_cases h1 : w.formData.employee_id = w.loadedFor
    · simp [h1]
    · by_cases h2 : (!strTruthy w.formData.employee_id) = true
      · simp [h1, h2]
      · cases hg : getItem w.store (draftKey w.formData.employee_id) with
        | none => simp [h1, h2]
        | some d =>
          cases answer with
          | false => simp [h1, h2]
          | true =>
            simp only [h1, h2, if_false, if_true]
            exact commitEffects_frame rest _

theorem step_currentStep_range (w : Wizard) (event : WizardEvent)
    (h : 1 ≤ w.currentStep ∧ w.currentStep ≤ 4) :
    1 ≤ (w.step event).currentStep ∧ (w.step event).currentStep ≤ 4 := by
  cases event with
  | change name value answers =>
    simp only [Wizard.step, handleChange, (commitEffects_frame _ _).1]
    exact h
  | toggleTag tag =>
    simp only [Wizard.step, (commitEffects_frame _ _).1]
    exact h
  | addItem =>
    simp only [Wizard.step, (commitEffects_frame _ _).1]
    exact h
  | updateItem id text =>
    simp only [Wizard.step, (commitEffects_frame _ _).1]
    exact h
  | removeItem id =>
    simp only [Wizard.step, (commitEffects_frame _ _).1]
    exact h
  | next =>
    simp only [Wizard.step, handleNext, Errors.truthy, if_true]
    omega
  | previous =>
    simp only [Wizard.step, handlePrevious]
    omega
  | indicator i =>
    simp only [Wizard.step]
    omega
  | submit outcome =>
    simp only [Wizard.step, handleSubmit]
    split_ifs
    · exact h
    · cases outcome <;> exact h
  | wait ms storageOk =>
    simp only [Wizard.step, elapse]
    cases w.autoSaveTimer with
    | none => exact h
    | some t =>
      simp only
      split_ifs <;> exact h

theorem run_currentStep_range : ∀ (events : List WizardEvent) (w : Wizard),
    (1 ≤ w.currentStep ∧ w.currentStep ≤ 4) →
    1 ≤ (w.run events).currentStep ∧ (w.run events).currentStep ≤ 4
  | [], _, h => h
  | event :: events, w, h =>
    run_currentStep_range events (w.step event) (step_currentStep_range w event h)

/-- C26: starting from step 1, after every finite sequence of events, Next,
Previous and step-indicator clicks included, the current step is one of 1, 2, 3, 4;
Next from step `s` with no validation error yields `min (s + 1) 4`, and Previous
from step `s` yields `max (s - 1) 1`. -/
theorem wizard_step_in_range (store : Storage) (clock : Nat) (events : List WizardEvent) :
    (Wizard.init store clock).currentStep = 1 ∧
    (((Wizard.init store clock).run events).currentStep = 1 ∨
      ((Wizard.init store clock).run events).currentStep = 2 ∨
      ((Wizard.init store clock).run events).currentStep = 3 ∨
      ((Wizard.init store clock).run events).currentStep = 4) ∧
    (∀ (formData : FormData) (s : Nat), (validateStep formData s).keys = [] →
      handleNext formData s = min (s + 1) 4) ∧
    (∀ s : Nat, handlePrevious s = max (s - 1) 1) := by
  refine ⟨rfl, ?_, fun formData s _ => by simp [handleNext, Errors.truthy], fun s => rfl⟩
  have h0 : (Wizard.init store clock).currentStep = 1 := rfl
  have h := run_currentStep_range events (Wizard.init store clock) ⟨by omega, by omega⟩
  omega

/-- Next on step 3 with nothing to validate moves to step 4, and stays there. -/
theorem wizard_step_in_range_witness :
    handleNext initialFormData 3 = min (3 + 1) 4 ∧ handleNext initialFormData 4 = min (4 + 1) 4 :=
  ⟨(wizard_step_in_range [] 0 []).2.2.1 initialFormData 3 (by decide),
   (wizard_step_in_range [] 0 []).2.2.1 initialFormData 4 (by decide)⟩

theorem applyItemOp_ids (formData : FormData) (op : ItemOp) :
    (applyItemOp formData op).action_items.map (fun item => item.id)
      = match op with
        | .add now => formData.action_items.map (fun item => item.id) ++ [now]
        | .update _ _ => formData.action_items.map (fun item => item.id)
        | .remove id =>
          (formData.action_items.map (fun item => item.id)).filter (fun x => !(x == id)) := by
  cases op with
  | add now => simp [applyItemOp, addActionItem]
  | update id text =>
    simp only [applyItemOp, updateActionItem, updateItems, List.map_map]
    apply List.map_congr_left
    intro item _
    by_cases h : item.id = id <;> simp [h]
  | remove id =>
    simp only [applyItemOp, removeActionItem, List.filter_map]
    rfl

theorem runItemOps_nodup : ∀ (ops : List ItemOp) (formData : FormData),
    (formData.action_items.map (fun item => item.id)).Nodup →
    (∀ x ∈ formData.action_items.map (fun item => item.id), x ∉ addReadings ops) →
    (addReadings ops).Nodup →
    ((runItemOps formData ops).action_items.map (fun item => item.id)).Nodup
  | [], _, h, _, _ => h
  | .add now :: ops, formData, h, hd, hr => by
    simp only [addReadings, List.nodup_cons] at hr
    refine runItemOps_nodup ops (applyItemOp formData (.add now)) ?_ ?_ hr.2
    · rw [applyItemOp_ids]
      refine List.nodup_append.mpr ⟨h, List.nodup_singleton now, ?_⟩
      intro x hx hx2
      have hxn : x = now := by simpa using hx2
      exact hd x hx (by simp [addReadings, hxn])
    · rw [applyItemOp_ids]
      intro x hx
      rcases List.mem_append.mp hx with hx | hx
      · exact fun hmem => hd x hx (by simp [addReadings, hmem])
      · have hxn : x = now := by simpa using hx
        rw [hxn]
        exact hr.1
  | .update id text :: ops, formData, h, hd, hr => by
    refine runItemOps_nodup ops (applyItemOp formData (.update id text)) ?_ ?_ hr
    · rw [applyItemOp_ids]
      exact h
    · rw [applyItemOp_ids]
      exact hd
  | .remove id :: ops, formData, h, hd, hr => by
    refine runItemOps_nodup ops (applyItemOp formData (.remove id)) ?_ ?_ hr
    · rw [applyItemOp_ids]
      exact h.filter _
    · rw [applyItemOp_ids]
      intro x hx
      exact hd x (List.mem_filter.mp hx).1

/-- C27 (refuted as stated): two `addActionItem` calls at the same clock reading
give two entries with the same id, and an update by that id changes both. -/
theorem same_reading_same_id :
    (runItemOps initialFormData [.add 1000, .add 1000]).action_items.map (fun item => item.id)
      = [1000, 1000] ∧
    (runItemOps initialFormData [.add 1000, .add 1000, .update 1000 "Book a course"]).action_items
      = [{ text := "Book a course", completed := false, id := 1000 },
         { text := "Book a course", completed := false, id := 1000 }] := by
  decide

/-- C27 (amended): for every sequence of `addActionItem`, `updateActionItem` and
`removeActionItem` operations starting from the empty list in which the clock
readings of the `addActionItem` calls are pairwise distinct, the ids in the list are
pairwise distinct, so at most one entry has a given id. -/
theorem item_ids_distinct (ops : List ItemOp) (hreadings : (addReadings ops).Nodup) :
    ((runItemOps initialFormData ops).action_items.map (fun item => item.id)).Nodup ∧
    ∀ id : Nat, ((runItemOps initialFormData ops).action_items.filter
      (fun item => item.id == id)).length ≤ 1 := by
  have hnodup := runItemOps_nodup ops initialFormData (by simp [initialFormData])
    (by simp [initialFormData]) hreadings
  refine ⟨hnodup, ?_⟩
  intro id
  have hcount := List.nodup_iff_count_le_one.mp hnodup id
  rw [List.count_eq_countP, List.countP_map, List.countP_eq_length_filter] at hcount
  exact hcount

/-- Two items added at different clock readings, one of them updated. -/
theorem item_ids_distinct_witness :
    ((runItemOps initialFormData [.add 1000, .add 1001, .update 1000 "Book a course"]).action_items.map
      (fun item => item.id)).Nodup ∧
    ∀ id : Nat, ((runItemOps initialFormData
      [.add 1000, .add 1001, .update 1000 "Book a course"]).action_items.filter
      (fun item => item.id == id)).length ≤ 1 :=
  item_ids_distinct [.add 1000, .add 1001, .update 1000 "Book a course"] (by decide)

theorem getItem_mem (store : Storage) (key : String) (d : Snapshot)
    (h : getItem store key = some d) : (key, d) ∈ store := by
  simp only [getItem, Option.map_eq_some'] at h
  obtain ⟨e, he, hd⟩ := h
  have hk := List.find?_some he
  have hm := List.mem_of_find?_eq_some he
  have hkey : e.1 = key := by simpa using hk
  have : e = (key, d) := by
    cases e
    simp only [Prod.mk.injEq]
    exact ⟨hkey, hd⟩
  rw [← this]
  exact hm

theorem storeKeyed_setItem (store : Storage) (formData : FormData) (now : Nat)
    (h : StoreKeyed store) :
    StoreKeyed (setItem store (draftKey formData.employee_id) (draftData formData now)) := by
  intro e he
  simp only [setItem, List.mem_cons] at he
  rcases he with rfl | he
  · exact ⟨formData.employee_id, rfl, rfl⟩
  · exact h e (List.mem_filter.mp he).1

theorem storeKeyed_autoSave (store : Storage) (formData : FormData) (now : Nat)
    (storageOk : Bool) (h : StoreKeyed store) :
    StoreKeyed (autoSave formData now storageOk store) := by
  unfold autoSave
  split_ifs
  · exact h
  · exact storeKeyed_setItem store formData now h
  · exact h

theorem step_storeKeyed (w : Wizard) (event : WizardEvent) (h : StoreKeyed w.store) :
    StoreKeyed (w.step event).store := by
  cases event with
  | change name value answers =>
    simp only [Wizard.step, handleChange, (commitEffects_frame _ _).2]
    exact h
  | toggleTag tag =>
    simp only [Wizard.step, (commitEffects_frame _ _).2]
    exact h
  | addItem =>
    simp only [Wizard.step, (commitEffects_frame _ _).2]
    exact h
  | updateItem id text =>
    simp only [Wizard.step, (commitEffects_frame _ _).2]
    exact h
  | removeItem id =>
    simp only [Wizard.step, (commitEffects_frame _ _).2]
    exact h
  | next => exact h
  | previous => exact h
  | indicator i => exact h
  | submit outcome =>
    simp only [Wizard.step, handleSubmit]
    split_ifs
    · exact h
    · cases outcome with
      | success =>
        intro e he
        exact h e (List.mem_filter.mp he).1
      | failure message => exact h
  | wait ms storageOk =>
    simp only [Wizard.step, elapse]
    cases w.autoSaveTimer with
    | none => exact h
    | some t =>
      simp only
      split_ifs
      · exact storeKeyed_autoSave _ _ _ _ h
      · exact h

theorem run_storeKeyed : ∀ (events : List WizardEvent) (w : Wizard),
    StoreKeyed w.store → StoreKeyed (w.run events).store
  | [], _, h => h
  | event :: events, w, h => run_storeKeyed events (w.step event) (step_storeKeyed w event h)

/-- On a store in which every draft is keyed by its own `employee_id`, the effects
that follow a `setFormData` leave `employee_id` as it is, whatever is answered. -/
theorem commitEffects_employee_id : ∀ (answers : List Bool) (w : Wizard),
    StoreKeyed w.store →
    (commitEffects answers w).formData.employee_id = w.formData.employee_id
  | [], w, _ => by
    simp only [commitEffects, armAutoSave]
    split_ifs <;> rfl
  | answer :: rest, w, hk => by
    simp only [commitEffects, armAutoSave]
    by_cases h1 : w.formData.employee_id = w.loadedFor
    · simp [h1]
    · by_cases h2 : (!strTruthy w.formData.employee_id) = true
      · simp [h1, h2]
      · cases hg : getItem w.store (draftKey w.formData.employee_id) with
        | none => simp [h1, h2]
        | some d =>
          cases answer with
          | false => simp [h1, h2]
          | true =>
            simp only [h1, h2, if_false, if_true, Bool.false_eq_true]
            obtain ⟨k, hkey, hemp⟩ := hk _ (getItem_mem _ _ _ hg)
            have hke : k = w.formData.employee_id := by
              by_contra hne
              exact draftKey_ne _ _ hne hkey.symm
            have hrest := commitEffects_employee_id rest
              { w with formData := mergeDraft w.formData d,
                       autoSaveTimer := some ⟨w.clock + 3000, w.formData⟩,
                       loadedFor := w.formData.employee_id } hk
            have hd : d.employee_id = some w.formData.employee_id := by
              rw [← hke]
              exact hemp
            exact hrest.trans (by simp [mergeDraft, hd])

/-- C30: starting from an empty Draft Store, after every sequence of events (form
edits, employee selections with confirmed or declined resumes, autosave firings and
submits), every snapshot in the store is stored under the key `feedback_draft_`
followed by the `employee_id` it holds; consequently selecting an employee leaves
that employee selected, whatever is answered to the resume prompts. -/
theorem draft_keys_match_contents (clock : Nat) (events : List WizardEvent) :
    (∀ (key : String) (snapshot : Snapshot),
      (key, snapshot) ∈ ((Wizard.init [] clock).run events).store →
      ∃ k, key = "feedback_draft_" ++ k ∧ snapshot.employee_id = some k) ∧
    (∀ (e : String) (snapshot : Snapshot),
      getItem ((Wizard.init [] clock).run events).store ("feedback_draft_" ++ e) = some snapshot →
      snapshot.employee_id = some e) ∧
    (∀ (e : String) (answers : List Bool),
      (handleChange .employee_id e answers
        ((Wizard.init [] clock).run events)).formData.employee_id = e) := by
  have hk : StoreKeyed ((Wizard.init [] clock).run events).store :=
    run_storeKeyed events (Wizard.init [] clock) (by intro e he; simp [Wizard.init] at he)
  refine ⟨fun key snapshot hm => hk (key, snapshot) hm, ?_, ?_⟩
  · intro e snapshot hg
    obtain ⟨k, hkey, hemp⟩ := hk _ (getItem_mem _ _ _ hg)
    have hke : k = e := by
      by_contra hne
      exact draftKey_ne _ _ hne hkey.symm
    rw [hemp, hke]
  · intro e answers
    generalize (Wizard.init [] clock).run events = w at hk
    exact commitEffects_employee_id answers
      { w with formData := w.formData.set .employee_id e,
               validationErrors := w.validationErrors.clear .employee_id } hk

/-- Employee 7 is selected, strengths are typed, the autosave fires, and the
employee is selected again with the resume confirmed: the draft is keyed by 7,
holds `employee_id` 7, and employee 7 stays selected. -/
theorem draft_keys_match_contents_witness :
    (getItem ((Wizard.init [] 0).run [.change .employee_id "7" [],
        .change .strengths "Always delivers on time" [], .wait 3000 true]).store
      ("feedback_draft_" ++ "7")).bind (fun d => d.employee_id) = some "7" ∧
    (handleChange .employee_id "7" [true] ((Wizard.init [] 0).run
      [.change .employee_id "7" [], .change .strengths "Always delivers on time" [],
        .wait 3000 true, .change .employee_id "9" []])).formData.employee_id = "7" :=
  ⟨by decide,
   (draft_keys_match_contents 0 [.change .employee_id "7" [],
      .change .strengths "Always delivers on time" [], .wait 3000 true,
      .change .employee_id "9" []]).2.2 "7" [true]⟩

/-! ## Theorems: comment formatting -/

/-- C28 (code defect): `formatComment` replaces every match of its first pattern by
the first group, which only the bold alternative sets. The inner text of a bold span
is kept, but an italic span and a code span are deleted together with their inner
text, although the help text under the comment form offers all three. The second
mock comment holds the code span "presentation skills"; its formatted text no longer
contains these words. -/
theorem formatComment_drops_italic_and_code :
    formatComment "**bold**" = "bold"
    ∧ formatComment "*italic*" = ""
    ∧ formatComment "`code`" = ""
    ∧ formatComment "Use **bold**, *italic*, `code` here" = "Use bold, ,  here"
    ∧ mockCodeText ∈ (mockComments none 0).map Comment.comment_text
    ∧ jsIncludes mockCodeText "presentation skills" = true
    ∧ jsIncludes (formatComment mockCodeText) "presentation skills" = false := by
  refine ⟨by decide, by decide, by decide, by decide, ?_, ?_, ?_⟩
  · simp [mockComments, Comment.comment_text, mockCodeText]
  · set_option maxRecDepth 100000 in decide
  · set_option maxRecDepth 100000 in decide

/-! ## Theorems: idempotence of the engine -/

/-- The records kept by a filter pass its callback. -/
theorem filterE_mem_pass {α : Type} (p : α → Except JSError Bool) :
    ∀ (l out : List α), filterE p l = .ok out → ∀ a ∈ out, p a = .ok true
  | [], out, h => by
    simp only [filterE, Except.ok.injEq] at h
    subst h
    intro a ha
    cases ha
  | x :: l, out, h => by
    simp only [filterE] at h
    cases hp : p x with
    | error e => simp [hp] at h
    | ok keep =>
      cases hr : filterE p l with
      | error e => simp [hp, hr] at h
      | ok rest =>
        simp only [hp, hr, Except.ok.injEq] at h
        subst h
        have ih := filterE_mem_pass p l rest hr
        intro a ha
        cases keep with
        | false => exact ih a (by simpa using ha)
        | true =>
          simp only [if_true, List.mem_cons] at ha
          rcases ha with rfl | ha
          · exact hp
          · exact ih a ha

/-- A filter returns its argument when every element passes the callback. -/
theorem filterE_all_pass {α : Type} (p : α → Except JSError Bool) :
    ∀ (l : List α), (∀ a ∈ l, p a = .ok true) → filterE p l = .ok l
  | [], _ => rfl
  | x :: l, h => by
    have hx := h x (List.mem_cons_self x l)
    have hl := filterE_all_pass p l (fun a ha => h a (List.mem_cons_of_mem x ha))
    simp [filterE, hx, hl]

/-- A record kept by a conditional stage was in the list and passes the callback
when the stage is active. -/
theorem stage_mem {α : Type} (c : Prop) [Decidable c] (p : α → Bool) (l : List α) (a : α)
    (h : a ∈ (if c then l.filter p else l)) : a ∈ l ∧ (c → p a = true) := by
  by_cases hc : c
  · rw [if_pos hc] at h
    exact ⟨(List.mem_filter.mp h).1, fun _ => (List.mem_filter.mp h).2⟩
  · rw [if_neg hc] at h
    exact ⟨h, fun e => absurd e hc⟩

/-- A conditional stage returns its argument when every element passes. -/
theorem stage_fix {α : Type} (c : Prop) [Decidable c] (p : α → Bool) (l : List α)
    (h : ∀ a ∈ l, c → p a = true) : (if c then l.filter p else l) = l := by
  by_cases hc : c
  · rw [if_pos hc]
    exact List.filter_eq_self.mpr (fun a ha => h a ha hc)
  · rw [if_neg hc]

/-- The filtering stages return any list of records that all passed them before. -/
theorem applyFilters_fix (h : Host) (now : Int) (role searchTerm : String)
    (filters : Filters) (feedback filtered out : List FeedbackItem)
    (hf : applyFilters h now role searchTerm filters feedback = .ok filtered)
    (hsub : ∀ a ∈ out, a ∈ filtered) :
    applyFilters h now role searchTerm filters out = .ok out := by
  unfold applyFilters at hf
  cases hs : searchFilter h role searchTerm feedback with
  | error e => simp [hs] at hf
  | ok searched =>
    simp only [hs, Except.ok.injEq] at hf
    subst hf
    have hall : ∀ a ∈ out,
        (filters.tags.length > 0 → tagsMatch filters.tags a = true) ∧
        (filters.dateRange ≠ "all" → dateMatches h now filters.dateRange a = true) ∧
        (filters.acknowledged ≠ "all" →
          acknowledgedMatches (decide (filters.acknowledged = "acknowledged")) a = true) ∧
        (filters.sentiment ≠ "all" → sentimentMatches filters.sentiment a = true) ∧
        a ∈ searched := by
      intro a ha
      have h5 := stage_mem _ _ _ a (hsub a ha)
      have h4 := stage_mem _ _ _ a h5.1
      have h3 := stage_mem _ _ _ a h4.1
      have h2 := stage_mem _ _ _ a h3.1
      exact ⟨h5.2, h4.2, h3.2, h2.2, h2.1⟩
    have hsearch : searchFilter h role searchTerm out = .ok out := by
      unfold searchFilter at hs ⊢
      by_cases ht : strTruthy searchTerm = true
      · rw [if_pos ht] at hs ⊢
        exact filterE_all_pass _ _
          (fun a ha => filterE_mem_pass _ _ _ hs a (hall a ha).2.2.2.2)
      · rw [if_neg ht]
    have e1 : sentimentFilter filters out = out :=
      stage_fix _ _ _ (fun a ha => (hall a ha).2.2.2.1)
    have e2 : acknowledgedFilter filters out = out :=
      stage_fix _ _ _ (fun a ha => (hall a ha).2.2.1)
    have e3 : dateFilter h now filters out = out :=
      stage_fix _ _ _ (fun a ha => (hall a ha).2.1)
    have e4 : tagsFilter filters out = out :=
      stage_fix _ _ _ (fun a ha => (hall a ha).1)
    unfold applyFilters
    rw [hsearch]
    simp only [e1, e2, e3, e4]

/-- One insertion into a list whose neighbours are in comparator order keeps the
neighbours in order, and the first element of the result is the inserted element
or the first element of the list. -/
theorem insertE_chain {α : Type} (cmp : α → α → Except JSError (Option Int)) (a : α) :
    ∀ (l out : List α),
      (∀ b ∈ l, ∀ v, cmp a b = .ok v → isPositive v = true → NotAfter cmp b a) →
      List.Chain' (NotAfter cmp) l → insertE cmp a l = .ok out →
      List.Chain' (NotAfter cmp) out ∧ ∀ x, out.head? = some x → x = a ∨ l.head? = some x
  | [], out, _, _, h => by
    simp only [insertE, Except.ok.injEq] at h
    subst h
    exact ⟨List.chain'_singleton a, fun x hx => Or.inl (by simpa using hx.symm)⟩
  | b :: l, out, hanti, hch, h => by
    simp only [insertE] at h
    cases hc : cmp a b with
    | error e => simp [hc] at h
    | ok v =>
      simp only [hc] at h
      by_cases hp : isPositive v = true
      · simp only [hp, if_true] at h
        cases hi : insertE cmp a l with
        | error e => simp [hi] at h
        | ok rest =>
          simp only [hi, Except.ok.injEq] at h
          subst h
          obtain ⟨hrest, hhead⟩ := insertE_chain cmp a l rest
            (fun c hcm => hanti c (List.mem_cons_of_mem b hcm)) hch.tail hi
          refine ⟨List.Chain'.cons' hrest ?_, fun x hx => Or.inr hx⟩
          intro y hy
          rcases hhead y hy with rfl | hl
          · exact hanti b (List.mem_cons_self b l) v hc hp
          · exact (List.chain'_cons'.mp hch).1 y hl
      · rw [if_neg hp] at h
        simp only [Except.ok.injEq] at h
        subst h
        refine ⟨List.Chain'.cons' hch ?_, fun x hx => Or.inl (by simpa using hx.symm)⟩
        intro y hy
        simp only [List.head?_cons, Option.mem_def, Option.some.injEq] at hy
        subst hy
        exact ⟨v, hc, by simpa using hp⟩

/-- In the result of the sort every element is followed by one it is not after, for
a comparator that never puts `x` after `y` and `y` after `x`. -/
theorem sortE_chain {α : Type} (cmp : α → α → Except JSError (Option Int)) :
    ∀ (l out : List α),
      (∀ a ∈ l, ∀ b ∈ l, ∀ v, cmp a b = .ok v → isPositive v = true → NotAfter cmp b a) →
      sortE cmp l = .ok out → List.Chain' (NotAfter cmp) out
  | [], out, _, h => by
    simp only [sortE, Except.ok.injEq] at h
    subst h
    exact List.chain'_nil
  | a :: l, out, hanti, h => by
    simp only [sortE] at h
    cases hs : sortE cmp l with
    | error e => simp [hs] at h
    | ok sorted =>
      simp only [hs] at h
      have hch := sortE_chain cmp l sorted
        (fun x hx y hy => hanti x (List.mem_cons_of_mem a hx) y (List.mem_cons_of_mem a hy)) hs
      exact (insertE_chain cmp a sorted out
        (fun b hb => hanti a (List.mem_cons_self a l) b
          (List.mem_cons_of_mem a ((sortE_perm cmp l sorted hs).mem_iff.mp hb))) hch h).1

/-- The sort returns a list unchanged when every element is followed by one it is
not after. -/
theorem sortE_fix {α : Type} (cmp : α → α → Except JSError (Option Int)) :
    ∀ (l : List α), List.Chain' (NotAfter cmp) l → sortE cmp l = .ok l
  | [], _ => rfl
  | [a], _ => rfl
  | a :: b :: l, hch => by
    have ih := sortE_fix cmp (b :: l) hch.tail
    obtain ⟨v, hv, hnp⟩ := (List.chain'_cons.mp hch).1
    simp only [sortE] at ih ⊢
    rw [ih]
    simp [insertE, hv, hnp]

/-- For a sort key other than the four of the `switch` the comparator returns 0. -/
theorem compareItems_other (h : Host) (role sortBy : String) (a b : FeedbackItem)
    (h1 : sortBy ≠ "date_asc") (h2 : sortBy ≠ "date_desc") (h3 : sortBy ≠ "sentiment")
    (h4 : sortBy ≠ "name") : compareItems h role sortBy a b = .ok (some 0) := by
  unfold compareItems
  split
  · exact absurd rfl h1
  · exact absurd rfl h2
  · exact absurd rfl h3
  · exact absurd rfl h4
  · rfl

/-- The comparator of the engine never puts `a` after `b` and `b` after `a`, when
the collation of the host does not and, for the sort key `name`, both records have
the counterpart name. -/
theorem compareItems_antisymm (h : Host) (role sortBy : String) (a b : FeedbackItem)
    (hhost : ∀ x y, 0 < h.localeCompare x y → ¬ 0 < h.localeCompare y x)
    (ha : sortBy = "name" → (counterpartName role a).isSome = true)
    (hb : sortBy = "name" → (counterpartName role b).isSome = true)
    (v : Option Int) (hv : compareItems h role sortBy a b = .ok v)
    (hp : isPositive v = true) : NotAfter (compareItems h role sortBy) b a := by
  unfold NotAfter
  unfold compareItems at hv ⊢
  split at hv
  · simp only [Except.ok.injEq] at hv
    subst hv
    cases hx : a.created_at <;> cases hy : b.created_at <;>
      simp only [hx, hy, numSub, isPositive, decide_eq_true_eq, Bool.false_eq_true] at hp
    exact ⟨_, rfl, by simp only [numSub, isPositive, decide_eq_false_iff_not]; omega⟩
  · simp only [Except.ok.injEq] at hv
    subst hv
    cases hx : a.created_at <;> cases hy : b.created_at <;>
      simp only [hx, hy, numSub, isPositive, decide_eq_true_eq, Bool.false_eq_true] at hp
    exact ⟨_, rfl, by simp only [numSub, isPositive, decide_eq_false_iff_not]; omega⟩
  · simp only [Except.ok.injEq] at hv
    subst hv
    cases hx : sentimentOrder a.sentiment <;> cases hy : sentimentOrder b.sentiment <;>
      simp only [hx, hy, numSub, isPositive, decide_eq_true_eq, Bool.false_eq_true] at hp
    exact ⟨_, rfl, by simp only [numSub, isPositive, decide_eq_false_iff_not]; omega⟩
  · obtain ⟨na, hna⟩ := Option.isSome_iff_exists.mp (ha rfl)
    obtain ⟨nb, hnb⟩ := Option.isSome_iff_exists.mp (hb rfl)
    simp only [hna, hnb, Option.getD_some, Except.ok.injEq] at hv ⊢
    subst hv
    simp only [isPositive, decide_eq_true_eq] at hp
    exact ⟨_, rfl, by simpa [isPositive] using hhost _ _ hp⟩
  · simp only [Except.ok.injEq] at hv
    subst hv
    simp [isPositive] at hp

/-- On records that have what the comparator reads, "not after" is transitive when
the collation of the host is. -/
theorem compareItems_notAfter_trans (h : Host) (role sortBy : String) (a b c : FeedbackItem)
    (htrans : ∀ x y z, h.localeCompare x y ≤ 0 → h.localeCompare y z ≤ 0 →
      h.localeCompare x z ≤ 0)
    (ha : Sortable role sortBy a) (hb : Sortable role sortBy b) (hc : Sortable role sortBy c)
    (hab : NotAfter (compareItems h role sortBy) a b)
    (hbc : NotAfter (compareItems h role sortBy) b c) :
    NotAfter (compareItems h role sortBy) a c := by
  obtain ⟨v, hv, hvp⟩ := hab
  obtain ⟨w, hw, hwp⟩ := hbc
  unfold NotAfter
  by_cases h1 : sortBy = "date_asc"
  · subst h1
    obtain ⟨x, hx⟩ := Option.isSome_iff_exists.mp (ha.2.2 (Or.inl rfl))
    obtain ⟨y, hy⟩ := Option.isSome_iff_exists.mp (hb.2.2 (Or.inl rfl))
    obtain ⟨z, hz⟩ := Option.isSome_iff_exists.mp (hc.2.2 (Or.inl rfl))
    simp only [compareItems, hx, hy, hz, numSub, Except.ok.injEq] at hv hw ⊢
    subst hv hw
    simp only [isPositive, decide_eq_false_iff_not] at hvp hwp
    exact ⟨_, rfl, by simp only [isPositive, decide_eq_false_iff_not]; omega⟩
  by_cases h2 : sortBy = "date_desc"
  · subst h2
    obtain ⟨x, hx⟩ := Option.isSome_iff_exists.mp (ha.2.2 (Or.inr rfl))
    obtain ⟨y, hy⟩ := Option.isSome_iff_exists.mp (hb.2.2 (Or.inr rfl))
    obtain ⟨z, hz⟩ := Option.isSome_iff_exists.mp (hc.2.2 (Or.inr rfl))
    simp only [compareItems, hx, hy, hz, numSub, Except.ok.injEq] at hv hw ⊢
    subst hv hw
    simp only [isPositive, decide_eq_false_iff_not] at hvp hwp
    exact ⟨_, rfl, by simp only [isPositive, decide_eq_false_iff_not]; omega⟩
  by_cases h3 : sortBy = "sentiment"
  · subst h3
    have hx := sentimentOrder_eq_rank a (ha.2.1 rfl)
    have hy := sentimentOrder_eq_rank b (hb.2.1 rfl)
    have hz := sentimentOrder_eq_rank c (hc.2.1 rfl)
    simp only [compareItems, hx, hy, hz, numSub, Except.ok.injEq] at hv hw ⊢
    subst hv hw
    simp only [isPositive, decide_eq_false_iff_not] at hvp hwp
    exact ⟨_, rfl, by simp only [isPositive, decide_eq_false_iff_not]; omega⟩
  by_cases h4 : sortBy = "name"
  · subst h4
    obtain ⟨x, hx⟩ := Option.isSome_iff_exists.mp (ha.1 rfl)
    obtain ⟨y, hy⟩ := Option.isSome_iff_exists.mp (hb.1 rfl)
    obtain ⟨z, hz⟩ := Option.isSome_iff_exists.mp (hc.1 rfl)
    simp only [compareItems, hx, hy, hz, Option.getD_some, Except.ok.injEq] at hv hw ⊢
    subst hv hw
    simp only [isPositive, decide_eq_false_iff_not, not_lt] at hvp hwp
    exact ⟨_, rfl, by
      simp only [isPositive, decide_eq_false_iff_not, not_lt]
      exact htrans x y z hvp hwp⟩
  · exact ⟨some 0, compareItems_other h role sortBy a c h1 h2 h3 h4, by decide⟩

/-- A list whose neighbours are in a relation that is transitive on its elements
has every earlier element in the relation to every later one. -/
theorem pairwise_of_chain_on {α : Type} (R : α → α → Prop) :
    ∀ (l : List α), (∀ a ∈ l, ∀ b ∈ l, ∀ c ∈ l, R a b → R b c → R a c) →
      List.Chain' R l → l.Pairwise R
  | [], _, _ => List.Pairwise.nil
  | [a], _, _ => List.pairwise_singleton R a
  | a :: b :: l, htr, hch => by
    have hab : R a b := (List.chain'_cons.mp hch).1
    have ih := pairwise_of_chain_on R (b :: l)
      (fun x hx y hy z hz => htr x (List.mem_cons_of_mem a hx) y (List.mem_cons_of_mem a hy)
        z (List.mem_cons_of_mem a hz)) hch.tail
    refine List.Pairwise.cons ?_ ih
    intro x hx
    rcases List.mem_cons.mp hx with rfl | hxl
    · exact hab
    · exact htr a (List.mem_cons_self a _) b (List.mem_cons_of_mem a (List.mem_cons_self b l))
        x (List.mem_cons_of_mem a hx) hab ((List.pairwise_cons.mp ih).1 x hxl)

/-- The engine returns on records whose tags are strings and that, for the sort key
`name`, all have the counterpart name. -/
theorem filteredFeedback_ok (h : Host) (now : Int) (role searchTerm : String)
    (filters : Filters) (sortBy : String) (feedback : List FeedbackItem)
    (hnames : sortBy = "name" → ∀ item ∈ feedback, (counterpartName role item).isSome = true)
    (htags : ∀ item ∈ feedback, ∀ tags, item.tags = some tags →
      ∀ t ∈ tags, ∃ s, t = Tag.str s) :
    ∃ out, filteredFeedback h now role searchTerm filters sortBy feedback = .ok out := by
  have hsearch : ∃ searched, searchFilter h role searchTerm feedback = .ok searched := by
    unfold searchFilter
    by_cases ht : strTruthy searchTerm = true
    · rw [if_pos ht]
      obtain ⟨out, ho, _⟩ := filterE_spec _ _ feedback
        (fun item hi => matchesSearch_spec h role searchTerm item (htags item hi))
      exact ⟨out, ho⟩
    · rw [if_neg ht]
      exact ⟨feedback, rfl⟩
  obtain ⟨searched, hs⟩ := hsearch
  have hf : applyFilters h now role searchTerm filters feedback
      = .ok (tagsFilter filters (dateFilter h now filters
          (acknowledgedFilter filters (sentimentFilter filters searched)))) := by
    simp only [applyFilters, hs]
  obtain ⟨out, ho⟩ := sortE_ok (compareItems h role sortBy) _
    (fun a ha b _ => compareItems_ok h role sortBy a b
      (fun e => hnames e a
        ((applyFilters_sublist h now role searchTerm filters feedback _ hf).subset ha)))
  exact ⟨out, by simp only [filteredFeedback, hf, ho]⟩

/-- C29: let the collation of the host be a consistent comparator (a name is after
another exactly when the other is before it, and "not after" is transitive), and let
the records have what the comparator of the sort key reads: the counterpart name
(`employee_name` for a manager, `manager_name` otherwise) for `name`, a sentiment of
the table for `sentiment`, a valid date for the two date keys. Then for every instant, viewer role, search term and filter state: the engine
returns when the tags of the records are strings; and whenever the engine returns a
list, in that list no record is after a later one for the comparator, so that a
stable sort leaves it as it is, and the engine applied to that list with the same
search term, filter state, sort key and instant returns that list unchanged. -/
theorem derive_idempotent (h : Host) (now : Int) (role searchTerm : String)
    (filters : Filters) (sortBy : String) (feedback : List FeedbackItem)
    (hanti : ∀ x y, 0 < h.localeCompare x y ↔ h.localeCompare y x < 0)
    (htrans : ∀ x y z, h.localeCompare x y ≤ 0 → h.localeCompare y z ≤ 0 →
      h.localeCompare x z ≤ 0)
    (hnames : sortBy = "name" → ∀ item ∈ feedback,
      (role = "manager" → item.employee_name.isSome = true) ∧
      (role ≠ "manager" → item.manager_name.isSome = true))
    (hsent : sortBy = "sentiment" → ∀ item ∈ feedback, item.sentiment = some "positive" ∨
      item.sentiment = some "neutral" ∨ item.sentiment = some "negative")
    (hdates : sortBy = "date_asc" ∨ sortBy = "date_desc" →
      ∀ item ∈ feedback, item.created_at.isSome = true) :
    ((∀ item ∈ feedback, ∀ tags, item.tags = some tags → ∀ t ∈ tags, ∃ s, t = Tag.str s) →
      ∃ out, filteredFeedback h now role searchTerm filters sortBy feedback = .ok out) ∧
    ∀ out, filteredFeedback h now role searchTerm filters sortBy feedback = .ok out →
      out.Pairwise (fun a b => ∃ v, compareItems h role sortBy a b = .ok v ∧
        isPositive v = false) ∧
      filteredFeedback h now role searchTerm filters sortBy out = .ok out := by
  have hcp : sortBy = "name" → ∀ item ∈ feedback,
      (counterpartName role item).isSome = true := by
    intro e item hi
    unfold counterpartName
    by_cases hr : role = "manager"
    · rw [if_pos hr]
      exact (hnames e item hi).1 hr
    · rw [if_neg hr]
      exact (hnames e item hi).2 hr
  refine ⟨filteredFeedback_ok h now role searchTerm filters sortBy feedback hcp, ?_⟩
  intro out hout
  unfold filteredFeedback at hout
  cases hf : applyFilters h now role searchTerm filters feedback with
  | error e => simp [hf] at hout
  | ok filtered =>
    simp only [hf] at hout
    have hperm := sortE_perm _ _ _ hout
    have hsubF : ∀ a ∈ filtered, a ∈ feedback :=
      fun a ha => (applyFilters_sublist h now role searchTerm filters feedback filtered hf).subset ha
    have hS : ∀ a ∈ feedback, Sortable role sortBy a :=
      fun a ha => ⟨fun e => hcp e a ha, fun e => hsent e a ha, fun e => hdates e a ha⟩
    have hhost : ∀ x y, 0 < h.localeCompare x y → ¬ 0 < h.localeCompare y x := by
      intro x y hxy hyx
      have := (hanti x y).mp hxy
      omega
    have hfix := applyFilters_fix h now role searchTerm filters feedback filtered out hf
      (fun a ha => hperm.mem_iff.mp ha)
    have hch := sortE_chain (compareItems h role sortBy) filtered out
      (fun a ha b hb v hv hp => compareItems_antisymm h role sortBy a b hhost
        (fun e => hcp e a (hsubF a ha)) (fun e => hcp e b (hsubF b hb)) v hv hp) hout
    have hpw : out.Pairwise (NotAfter (compareItems h role sortBy)) :=
      pairwise_of_chain_on _ out
        (fun a ha b hb c hc => compareItems_notAfter_trans h role sortBy a b c htrans
          (hS a (hsubF a (hperm.mem_iff.mp ha))) (hS b (hsubF b (hperm.mem_iff.mp hb)))
          (hS c (hsubF c (hperm.mem_iff.mp hc)))) hch
    refine ⟨hpw, ?_⟩
    simp only [filteredFeedback, hfix]
    exact sortE_fix _ _ hch

theorem asciiHost_compare_pos (x y : String) :
    0 < asciiHost.localeCompare x y ↔ y.data < x.data := by
  simp only [asciiHost]
  by_cases h1 : x.data < y.data
  · simp [h1, lt_asymm h1]
  · by_cases h2 : x.data = y.data
    · simp [h2]
    · simp [h1, h2, lt_of_le_of_ne (not_lt.mp h1) (Ne.symm h2)]

theorem asciiHost_compare_neg (x y : String) :
    asciiHost.localeCompare x y < 0 ↔ x.data < y.data := by
  simp only [asciiHost]
  by_cases h1 : x.data < y.data
  · simp [h1]
  · by_cases h2 : x.data = y.data
    · simp [h2]
    · simp [h1, h2]

/-- The collation of the example host is a consistent comparator. -/
theorem asciiHost_consistent :
    (∀ x y, 0 < asciiHost.localeCompare x y ↔ asciiHost.localeCompare y x < 0) ∧
    (∀ x y z, asciiHost.localeCompare x y ≤ 0 → asciiHost.localeCompare y z ≤ 0 →
      asciiHost.localeCompare x z ≤ 0) := by
  refine ⟨fun x y => by rw [asciiHost_compare_pos, asciiHost_compare_neg], ?_⟩
  intro x y z hxy hyz
  have h1 : x.data ≤ y.data := not_lt.mp (fun e => by
    have := (asciiHost_compare_pos x y).mpr e
    omega)
  have h2 : y.data ≤ z.data := not_lt.mp (fun e => by
    have := (asciiHost_compare_pos y z).mpr e
    omega)
  have h3 : ¬ z.data < x.data := not_lt.mpr (le_trans h1 h2)
  have := (asciiHost_compare_pos x z).not.mpr h3
  omega

/-- The search for "team" keeps three of four records. The sort by name puts them in
the order Abe, Ben, Dana, the sort by sentiment in the order Ben, Abe, Dana, and the
engine returns each of the two lists unchanged. -/
theorem derive_idempotent_witness :
    filteredFeedback asciiHost 5000 "employee" "team" Filters.initial "name" fourRecords
      = .ok [abeRecord, benRecord, danaRecord] ∧
    filteredFeedback asciiHost 5000 "employee" "team" Filters.initial "name"
      [abeRecord, benRecord, danaRecord] = .ok [abeRecord, benRecord, danaRecord] ∧
    filteredFeedback asciiHost 5000 "employee" "team" Filters.initial "sentiment" fourRecords
      = .ok [benRecord, abeRecord, danaRecord] ∧
    filteredFeedback asciiHost 5000 "employee" "team" Filters.initial "sentiment"
      [benRecord, abeRecord, danaRecord] = .ok [benRecord, abeRecord, danaRecord] :=
  ⟨by decide,
   ((derive_idempotent asciiHost 5000 "employee" "team" Filters.initial "name" fourRecords
     asciiHost_consistent.1 asciiHost_consistent.2 (by decide) (by decide) (by decide)).2 _
     (by decide)).2,
   by decide,
   ((derive_idempotent asciiHost 5000 "employee" "team" Filters.initial "sentiment" fourRecords
     asciiHost_consistent.1 asciiHost_consistent.2 (by decide) (by decide) (by decide)).2 _
     (by decide)).2⟩

end FeedbackPro
